import Mathlib

/-!
Verification development for the `scha` circle-geometry engine.

The definitions below are a shallow embedding of `src/assign.rs` and
`src/intersect.rs`.  `f64` values are modelled as real numbers (`ℝ`),
so floating rounding and NaN are outside the model; Rust panics
(`panic!`, `assert!`, `Option::unwrap` on `None`) are modelled as
`Except.error`, and Rust `Option` results as `Option`.
-/

open scoped Classical

namespace Scha

noncomputable section

/-- 2-d vector over ℝ, modelling `nalgebra::Vector2<f64>`. -/
@[ext] structure Vec2 where
  x : ℝ
  y : ℝ

namespace Vec2

def add (a b : Vec2) : Vec2 := ⟨a.x + b.x, a.y + b.y⟩
def sub (a b : Vec2) : Vec2 := ⟨a.x - b.x, a.y - b.y⟩
def smul (a : Vec2) (c : ℝ) : Vec2 := ⟨a.x * c, a.y * c⟩
def neg (a : Vec2) : Vec2 := ⟨-a.x, -a.y⟩
def dot (a b : Vec2) : ℝ := a.x * b.x + a.y * b.y
def norm (a : Vec2) : ℝ := Real.sqrt (a.x ^ 2 + a.y ^ 2)
/-- `nalgebra` `normalize`; division by a zero norm is total in the ℝ model. -/
def normalize (a : Vec2) : Vec2 := ⟨a.x / a.norm, a.y / a.norm⟩
def metric_distance (a b : Vec2) : ℝ := (a.sub b).norm
def zero : Vec2 := ⟨0, 0⟩
/-- Componentwise division by a scalar (`v / n`). -/
def divs (a : Vec2) (c : ℝ) : Vec2 := ⟨a.x / c, a.y / c⟩

end Vec2

/-- `Circle` from `assign.rs`. -/
@[ext] structure Circle where
  origin : Vec2
  r : ℝ

/-- `Intersection` from `assign.rs`: `Inside` | `Intersect` | `None`. -/
inductive Intersection where
  | inside (c : Circle)
  | intersect (a b : Vec2) (nearside : Bool)
  | none
deriving DecidableEq

namespace Intersection

/-- `Intersection::intersects`. -/
def intersects : Intersection → Bool
  | .none => false
  | _ => true

end Intersection

namespace Circle

/-- `Circle::area`. -/
def area (c : Circle) : ℝ := Real.pi * c.r * c.r

/-- `Circle::distance`. -/
def distance (c o : Circle) : ℝ := c.origin.metric_distance o.origin

/-- The final (two-crossing-point) branch of `Circle::intersect`
(assign.rs lines 113-145), split out so each branch can be reasoned
about separately. -/
def intersectCrossing (self other : Circle) : Intersection :=
  let d := self.distance other
  let sl := if self.r < other.r then (self, other) else (other, self)
  let smaller := sl.1
  let larger := sl.2
  let r_sq := larger.r * larger.r
  let d_sq := d * d
  let v := (r_sq + d_sq - smaller.r * smaller.r) / (2 * d)
  let h_sq := r_sq - v * v
  let h := Real.sqrt h_sq
  let s_sq := r_sq - h_sq
  let s := Real.sqrt s_sq
  let l := smaller.origin.sub larger.origin
  let lnorm := l.normalize
  let mp := larger.origin.add (lnorm.smul s)
  let lperp := Vec2.mk (-lnorm.y) lnorm.x
  let a := mp.add (lperp.smul h)
  let b := mp.add (lperp.smul (-h))
  let nearside := decide (s > d)
  .intersect a b nearside

/-- `Circle::intersect`, the pairwise classifier (assign.rs lines 102-146).
The `assert_ne!(d, 0.0)` in the source is unreachable (the `d == 0.0`
branch precedes it) and is not modelled. -/
def intersect (self other : Circle) : Intersection :=
  let d := self.distance other
  if d > self.r + other.r then
    .none
  else if d + other.r ≤ self.r then
    .inside other
  else if d + self.r ≤ other.r then
    .inside self
  else if d = 0 then
    .inside other
  else
    intersectCrossing self other

/-- `segment_area` (assign.rs lines 360-370); the `panic!` on a chord
longer than the diameter is modelled as `Except.error`. -/
def segment_area (r l : ℝ) : Except String ℝ :=
  if l > 2 * r then
    .error "Chord length cannot be greater than the diameter of the circle"
  else
    let theta := 2 * Real.arcsin (l / (2 * r))
    .ok (0.5 * r * r * (theta - Real.sin theta))

/-- `Circle::intersection_area` (assign.rs lines 71-89). -/
def intersection_area (self other : Circle) : Except String ℝ :=
  match self.intersect other with
  | .inside c => .ok (Real.pi * c.r * c.r)
  | .none => .ok 0
  | .intersect a b nearside =>
    let l := a.metric_distance b
    if nearside = false then do
      let s1 ← segment_area self.r l
      let s2 ← segment_area other.r l
      .ok (s1 + s2)
    else
      let sl := if self.r < other.r then (self, other) else (other, self)
      let smaller := sl.1
      let larger := sl.2
      do
        let s1 ← segment_area larger.r l
        let s2 ← segment_area smaller.r l
        .ok (s1 + Real.pi * smaller.r * smaller.r - s2)

end Circle

/-- `itertools` `combinations(k)`: all `k`-element sublists, positions in
increasing (lexicographic) order, duplicates kept as distinct positions. -/
def combinations {α : Type} : Nat → List α → List (List α)
  | 0, _ => [[]]
  | _ + 1, [] => []
  | k + 1, x :: xs => ((combinations k xs).map fun ys => x :: ys) ++ combinations (k + 1) xs

/-- `iter().enumerate().combinations(2)`: all index pairs in lexicographic
order, each pair's components in list order. -/
def pairsLex {α : Type} : List α → List (α × α)
  | [] => []
  | x :: xs => (xs.map fun y => (x, y)) ++ pairsLex xs

namespace Circle

/-- First loop of `Circle::intersect_all` (assign.rs lines 185-205):
collect crossing points and dominated (`ignores`) indices; a `None` pair
makes the whole function return 0 early, encoded as `Option.none`.
The `nearside` flag accumulated by the source is never read afterwards
and is not modelled. -/
def collectPairs : List ((Nat × Circle) × (Nat × Circle)) →
    Option (List (Vec2 × Nat × Nat) × List Nat)
  | [] => some ([], [])
  | ((i, c1), (j, c2)) :: rest =>
    match c1.intersect c2 with
    | .intersect a b _ns =>
      (collectPairs rest).map fun pr => ((a, i, j) :: (b, i, j) :: pr.1, pr.2)
    | .inside cx =>
      (collectPairs rest).map fun pr => (pr.1, (if cx = c1 then j else i) :: pr.2)
    | .none => Option.none

/-- The keep-test of `points.retain(..)` (assign.rs lines 208-222): not
produced by an ignored circle, and strictly inside every other circle. -/
def retainPred (circles : List Circle) (ignores : List Nat)
    (pij : Vec2 × Nat × Nat) : Bool :=
  let p := pij.1
  let i := pij.2.1
  let j := pij.2.2
  if i ∈ ignores ∨ j ∈ ignores then false
  else
    let count := (circles.enum.filter fun kc =>
      kc.1 ≠ i ∧ kc.1 ≠ j ∧ p.metric_distance kc.2.origin < kc.2.r).length
    count = circles.length - 2

/-- `points.retain(..)` (assign.rs lines 208-222). -/
def retainPoints (circles : List Circle) (ignores : List Nat)
    (points : List (Vec2 × Nat × Nat)) : List (Vec2 × Nat × Nat) :=
  points.filter (retainPred circles ignores)

end Circle

/-- `polygon_area` (assign.rs lines 372-386), shoelace over the vertices
in the order given. -/
def polygon_area (vertices : List Vec2) : ℝ :=
  let n := vertices.length
  if n < 3 then 0
  else
    let area := (List.range n).foldl (fun area i =>
      let j := (i + 1) % n
      area + (vertices.getD i Vec2.zero).x * (vertices.getD j Vec2.zero).y
           - (vertices.getD j Vec2.zero).x * (vertices.getD i Vec2.zero).y) 0
    |area / 2|

namespace Circle

/-- The `p1`/`p2` scan inside the `points.len() > 2` branch
(assign.rs lines 237-247): `p1` is the first matching point, `p2` the
last matching point after the first. -/
def firstTwoFor (c : Nat) (points : List (Vec2 × Nat × Nat)) :
    Option Vec2 × Option Vec2 :=
  points.foldl (fun p12 pij =>
    if pij.2.1 = c ∨ pij.2.2 = c then
      match p12.1 with
      | Option.none => (some pij.1, p12.2)
      | some _ => (p12.1, some pij.1)
    else p12) (Option.none, Option.none)

/-- One circle's contribution in the `points.len() > 2` branch
(assign.rs lines 234-273). -/
def segContribStep (ignores : List Nat) (points : List (Vec2 × Nat × Nat))
    (cm : Vec2) (acc : ℝ) (cc : Nat × Circle) : Except String ℝ :=
  let c := cc.1
  let circle := cc.2
  if c ∈ ignores then .ok acc
  else
    match firstTwoFor c points with
    | (some p1, some p2) =>
      let v := p2.sub p1
      let l := v.norm
      let vn := v.normalize
      let n1 := Vec2.mk (-vn.y) vn.x
      let vcm := cm.sub p1
      let segnorm := if vcm.dot n1 < 0 then n1 else n1.neg
      let cv := circle.origin.sub p1
      if cv.dot segnorm ≤ 0 then do
        let s ← segment_area circle.r l
        .ok (acc + s)
      else do
        let s ← segment_area circle.r l
        .ok (acc + (Real.pi * circle.r * circle.r - s))
    | _ => .ok acc

/-- Per-circle segment contributions of the `points.len() > 2` branch
(assign.rs lines 232-273). -/
def segmentContributions (circles : List Circle) (ignores : List Nat)
    (points : List (Vec2 × Nat × Nat)) (cm : Vec2) : Except String ℝ :=
  circles.enum.foldlM (segContribStep ignores points cm) (0 : ℝ)

/-- The `c1`/`c2` scan of the `points.len() == 2` branch
(assign.rs lines 276-287): first non-ignored circle, then the last
following non-ignored circle. -/
def firstTwoCircles (circles : List Circle) (ignores : List Nat) :
    Option Circle × Option Circle :=
  circles.enum.foldl (fun c12 ic =>
    if ic.1 ∈ ignores then c12
    else
      match c12.1 with
      | Option.none => (some ic.2, c12.2)
      | some _ => (c12.1, some ic.2)) (Option.none, Option.none)

/-- `Circle::intersect_all` (assign.rs lines 180-300).  The `unwrap()`
calls of the two-point branch are modelled as `Except.error`. -/
def intersect_all (circles : List Circle) : Except String ℝ :=
  match collectPairs (pairsLex circles.enum) with
  | Option.none => .ok 0
  | some (points0, ignores) =>
    let points := retainPoints circles ignores points0
    if 2 < points.length then
      let poly_area := polygon_area (points.map fun pij => pij.1)
      let cm := (points.foldl (fun x pij => x.add pij.1) Vec2.zero).divs
        (points.length : ℝ)
      match segmentContributions circles ignores points cm with
      | .ok acc => .ok (poly_area + acc)
      | .error e => .error e
    else if points.length = 2 then
      match firstTwoCircles circles ignores with
      | (some a, some b) => a.intersection_area b
      | _ => .error "called Option::unwrap on a None value"
    else
      let remaining := (List.range circles.length).filter fun x => ¬ x ∈ ignores
      if remaining.length = 1 then
        .ok ((circles.getD (remaining.headD 0) ⟨Vec2.zero, 0⟩).area)
      else
        .ok 0

/-- `Circle::intersects_many` (assign.rs lines 150-152). -/
def intersects_many (self : Circle) (others : List Circle) : List Circle :=
  others.filter fun x => (self.intersect x).intersects

/-- Body of the inner loop of `Circle::total_intersection`
(assign.rs lines 164-173): add one subset's signed term.  The `is_nan`
panic cannot occur in the ℝ model and is not modelled. -/
def tiInner (self : Circle) (polarity : ℝ) (acc2 : ℝ) (combs : List Circle) :
    Except String ℝ := do
  let cs := combs ++ [self]
  let pl := polarity * (← intersect_all cs)
  .ok (acc2 + pl)

/-- Body of the outer loop of `Circle::total_intersection`
(assign.rs lines 157-174): one subset size `c = c1 + 1`. -/
def tiOuter (self : Circle) (others : List Circle) (acc : ℝ) (c1 : ℕ) :
    Except String ℝ :=
  let c := c1 + 1
  let polarity : ℝ := if c % 2 = 0 then -1 else 1
  (combinations c others).foldlM (tiInner self polarity) acc

/-- `Circle::total_intersection` (assign.rs lines 155-177): subset sizes
`c = 1..=others.len()`, written as `c1 + 1` for `c1` in `0..others.len()`;
errors from `intersect_all` propagate. -/
def total_intersection (self : Circle) (others : List Circle) : Except String ℝ :=
  (List.range others.length).foldlM (tiOuter self others) (0 : ℝ)

end Circle

/-- One `retain_mut` visit of `Circle::group` (assign.rs lines 313-341).
State: groups kept so far, the `principle` index (position in the kept
list), and the pending `pr_app` group awaiting merge. -/
def stepGroup (i j : Nat) (st : List (List Nat) × Option Nat × Option (List Nat))
    (gr : List Nat) : List (List Nat) × Option Nat × Option (List Nat) :=
  let acc := st.1
  let principle := st.2.1
  let pr_app := st.2.2
  if i ∈ gr then
    match principle with
    | some _ => (acc, principle, some gr)
    | Option.none => (acc ++ [if j ∈ gr then gr else gr ++ [j]], some acc.length, pr_app)
  else if j ∈ gr then
    match principle with
    | some _ => (acc, principle, some gr)
    | Option.none => (acc ++ [if i ∈ gr then gr else gr ++ [i]], some acc.length, pr_app)
  else (acc ++ [gr], principle, pr_app)

/-- The element-by-element merge loop of assign.rs lines 343-348. -/
def mergeInto (g app : List Nat) : List Nat :=
  app.foldl (fun gg k => if k ∈ gg then gg else gg ++ [k]) g

/-- Processing of one intersecting pair by `Circle::group`
(assign.rs lines 308-352). -/
def processPair (i j : Nat) (groups : List (List Nat)) : List (List Nat) :=
  let st := groups.foldl (stepGroup i j) ([], Option.none, Option.none)
  match st.2.1, st.2.2 with
  | some g, some app => st.1.set g (mergeInto (st.1.getD g []) app)
  | some _, Option.none => st.1
  | Option.none, _ => st.1 ++ [[i, j]]

namespace Circle

/-- `Circle::group` (assign.rs lines 302-355), specialised to inputs that
are already circles. -/
def group (circles : List Circle) : List (List Nat) :=
  (pairsLex circles.enum).foldl (fun groups p =>
    if p.1.2.intersect p.2.2 ≠ Intersection.none then
      processPair p.1.1 p.2.1 groups
    else groups) []

end Circle

/-- `RadialArea` (assign.rs lines 497-500). -/
structure RadialArea where
  origin : Vec2
  area : ℝ

/-- Rust `Option<f64>` comparison `a_prev > Some(x)` (derived
`PartialOrd`: `None` is less than every `Some`). -/
def optGT (a : Option ℝ) (x : ℝ) : Prop :=
  match a with
  | Option.none => False
  | some y => x < y

/-- Rust `Option<f64>` comparison `a_prev < Some(x)`. -/
def optLT (a : Option ℝ) (x : ℝ) : Prop :=
  match a with
  | Option.none => True
  | some y => y < x

/-- The iteration loop of `scale_to_exclusive_area` (assign.rs lines
505-529), with the remaining iteration count as fuel.  The
`assert!(intersection >= 0.0)` is modelled as `Except.error`. -/
def scale_loop (circles : List Circle) (radial : RadialArea) (epsilon : ℝ) :
    Nat → ℝ → ℝ → Option ℝ → Except String (Option Circle)
  | 0, _, _, _ => .ok Option.none
  | n + 1, r, delta, a_prev => do
    let circle : Circle := ⟨radial.origin, r⟩
    let ints := circle.intersects_many circles
    let intersection ← circle.total_intersection ints
    if intersection < 0 then .error "assertion failed: intersection >= 0.0"
    else
      let a_total := circle.area - intersection
      if |a_total - radial.area| < epsilon then .ok (some circle)
      else
        let rd : ℝ × ℝ :=
          if a_total < radial.area then
            (r + delta, if optGT a_prev radial.area then delta * 0.5 else delta)
          else if radial.area < a_total then
            (r - delta, if optLT a_prev radial.area then delta * 0.5 else delta)
          else (r, delta)
        scale_loop circles radial epsilon n rd.1 rd.2 (some a_total)

/-- `scale_to_exclusive_area` (assign.rs lines 502-532). -/
def scale_to_exclusive_area (circles : List Circle) (radial : RadialArea)
    (delta epsilon : ℝ) (max_iter : Nat) : Except String (Option Circle) :=
  scale_loop circles radial epsilon max_iter (Real.sqrt (radial.area / Real.pi))
    delta Option.none

/-- Body of `scale_all` (assign.rs lines 534-542): `acc` is the list of
already solved circles, used as obstacles for the next point; the `?`
operator propagates the first non-convergence as `Option.none`. -/
def scale_all_aux (delta epsilon : ℝ) (max_iter : Nat) :
    List RadialArea → List Circle → Except String (Option (List Circle))
  | [], acc => .ok (some acc)
  | radial :: rest, acc => do
    match ← scale_to_exclusive_area acc radial delta epsilon max_iter with
    | Option.none => .ok Option.none
    | some c => scale_all_aux delta epsilon max_iter rest (acc ++ [c])

/-- `scale_all` (assign.rs lines 534-542). -/
def scale_all (radials : List RadialArea) (delta epsilon : ℝ) (max_iter : Nat) :
    Except String (Option (List Circle)) :=
  scale_all_aux delta epsilon max_iter radials []

/-- `overlap` (intersect.rs lines 32-86): grid Monte-Carlo estimate of
the area of `circle ∩ union(others)`.  The rayon parallel sum is a plain
commutative sum over all cell indices. -/
def overlap (circle : Circle) (others : List Circle) (samples : Nat) : ℝ :=
  if circle.r ≤ 0 then 0
  else if others = [] then 0
  else
    let cx := circle.origin.x
    let cy := circle.origin.y
    let r := circle.r
    let min_x := cx - r
    let max_x := cx + r
    let min_y := cy - r
    let max_y := cy + r
    if max_x ≤ min_x ∨ max_y ≤ min_y then 0
    else
      let dx := (max_x - min_x) / (samples : ℝ)
      let dy := (max_y - min_y) / (samples : ℝ)
      let cell_area := dx * dy
      ∑ idx ∈ Finset.range (samples * samples),
        let i := idx / samples
        let j := idx % samples
        let x := min_x + ((i : ℝ) + 0.5) * dx
        let y := min_y + ((j : ℝ) + 0.5) * dy
        if (x - cx) * (x - cx) + (y - cy) * (y - cy) ≤ r * r ∧
            ∃ c ∈ others, (x - c.origin.x) * (x - c.origin.x) +
              (y - c.origin.y) * (y - c.origin.y) ≤ c.r * c.r then
          cell_area
        else 0

/-- Adjacency map of the exact engine (intersect.rs): `PointKey` is the
bit pattern of an `f64` pair, an injective key for non-NaN points, so it
is modelled by the point value itself; the `HashMap` is an association
list. -/
abbrev Adjacency := List (Vec2 × List (Vec2 × Nat))

/-- `adjacency[&key]` lookup; keys are present by construction in the
source, so a missing key returns the empty list. -/
def adjLookup (adjacency : Adjacency) (k : Vec2) : List (Vec2 × Nat) :=
  match adjacency.find? fun e => decide (e.1 = k) with
  | some e => e.2
  | Option.none => []

/-- `unique_points_map[&key]` lookup (present by construction). -/
def upmLookup (upm : List (Vec2 × Vec2)) (k : Vec2) : Vec2 :=
  match upm.find? fun e => decide (e.1 = k) with
  | some e => e.2
  | Option.none => Vec2.zero

/-- Choice of the next key in the walk (intersect.rs lines 405-415):
the first neighbour on the first iteration, else the first neighbour
different from the previous point (`prev = none` models the initial
sentinel key, a bit pattern matching no real point). -/
def bbpNext (neighbors : List (Vec2 × Nat)) (polyLen : Nat)
    (prev : Option Vec2) : Option Vec2 :=
  if polyLen = 1 then (neighbors.map fun e => e.1).head?
  else
    ((neighbors.map fun e => e.1).filter fun x =>
      match prev with
      | Option.none => true
      | some pv => decide (x ≠ pv)).head?

/-- The walk loop of `build_boundary_polygon` (intersect.rs lines
401-436).  The source's `loop` has no bound, so the model takes a fuel
argument.  On "no next point found" the source `break`s and returns the
polygon built so far. -/
def bbp_go (adjacency : Adjacency) (upm : List (Vec2 × Vec2)) (start : Vec2) :
    Nat → List Vec2 → Vec2 → Option Vec2 → List Vec2
  | 0, polygon, _, _ => polygon
  | fuel + 1, polygon, current, prev =>
    let neighbors := adjLookup adjacency current
    let maybe_next_key : Option Vec2 := bbpNext neighbors polygon.length prev
    match maybe_next_key with
    | Option.none => polygon
    | some next_key =>
      let next_v := upmLookup upm next_key
      if (next_v.sub start).norm < 1 / 10 ^ 14 ∧ 1 < polygon.length then polygon
      else bbp_go adjacency upm start fuel (polygon ++ [next_v]) next_v (some current)

/-- `build_boundary_polygon` (intersect.rs lines 391-439). -/
def build_boundary_polygon (fuel : Nat) (adjacency : Adjacency)
    (unique_points_map : List (Vec2 × Vec2)) (start : Vec2) : List Vec2 :=
  bbp_go adjacency unique_points_map start fuel [start] start Option.none

/-- Value of a successful computation, 0 for an error (spec-side helper
used only to state sums of `intersect_all` values). -/
def exVal (e : Except String ℝ) : ℝ :=
  match e with
  | .ok v => v
  | .error _ => 0

/-- Spec-side inclusion-exclusion sum (spec §4.4): for each subset size
`k = 1..|others|` and each `k`-subset `S` of `others`, the term
`intersect_all(S ∪ {focal})` enters with sign `(−1)^(k+1)` (odd `k`
positive, even `k` negative). -/
def inclusionExclusionSum (F : Circle) (others : List Circle) : ℝ :=
  ∑ k ∈ Finset.Icc 1 others.length,
    (-1 : ℝ) ^ (k + 1) *
      ((combinations k others).map fun S =>
        exVal (Circle.intersect_all (S ++ [F]))).sum

/-- One step of the `Circle::group` fold (assign.rs lines 304-353): a
pair is processed only when its circles are classified as overlapping. -/
def gstep (groups : List (List Nat)) (p : (Nat × Circle) × (Nat × Circle)) :
    List (List Nat) :=
  if p.1.2.intersect p.2.2 ≠ Intersection.none then processPair p.1.1 p.2.1 groups
  else groups

/-- Spec-side: the returned groups are pairwise disjoint index sets. -/
def GroupsDisjoint (gs : List (List Nat)) : Prop :=
  List.Pairwise (fun g1 g2 => ∀ x, x ∈ g1 → x ∉ g2) gs

/-- Spec-side: indices `a` and `b` name distinct circles of the list that
the pairwise classifier reports as overlapping (other than `None`). -/
def OverlapAdj (circles : List Circle) (a b : Nat) : Prop :=
  a < circles.length ∧ b < circles.length ∧ a ≠ b ∧
    (circles.getD a ⟨Vec2.zero, 0⟩).intersect (circles.getD b ⟨Vec2.zero, 0⟩) ≠
      Intersection.none

/-- The guard of the `group` fold for one enumerated pair. -/
def pairOk (p : (Nat × Circle) × (Nat × Circle)) : Prop :=
  p.1.2.intersect p.2.2 ≠ Intersection.none

/-- Undirected edge relation generated by the overlapping pairs of `ps`. -/
def pairsRel (ps : List ((Nat × Circle) × (Nat × Circle))) (a b : Nat) : Prop :=
  ∃ p ∈ ps, pairOk p ∧ ((a, b) = (p.1.1, p.2.1) ∨ (b, a) = (p.1.1, p.2.1))

/-- Invariant of the `group` fold: groups are pairwise disjoint, each
group is chain-connected under the processed overlapping pairs, every
processed overlapping pair lies inside a single group, and every member
of a group is an endpoint of a processed overlapping pair. -/
def GroupInv (ps : List ((Nat × Circle) × (Nat × Circle)))
    (gs : List (List Nat)) : Prop :=
  GroupsDisjoint gs ∧
  (∀ g ∈ gs, ∀ x ∈ g, ∀ y ∈ g, Relation.ReflTransGen (pairsRel ps) x y) ∧
  (∀ p ∈ ps, pairOk p → ∃ g ∈ gs, p.1.1 ∈ g ∧ p.2.1 ∈ g) ∧
  (∀ g ∈ gs, ∀ x ∈ g, ∃ p ∈ ps, pairOk p ∧ (x = p.1.1 ∨ x = p.2.1))

/-! ## Basic lemmas -/

namespace Vec2

@[simp] theorem add_x (a b : Vec2) : (a.add b).x = a.x + b.x := rfl
@[simp] theorem add_y (a b : Vec2) : (a.add b).y = a.y + b.y := rfl
@[simp] theorem sub_x (a b : Vec2) : (a.sub b).x = a.x - b.x := rfl
@[simp] theorem sub_y (a b : Vec2) : (a.sub b).y = a.y - b.y := rfl
@[simp] theorem smul_x (a : Vec2) (c : ℝ) : (a.smul c).x = a.x * c := rfl
@[simp] theorem smul_y (a : Vec2) (c : ℝ) : (a.smul c).y = a.y * c := rfl
@[simp] theorem neg_x (a : Vec2) : a.neg.x = -a.x := rfl
@[simp] theorem neg_y (a : Vec2) : a.neg.y = -a.y := rfl
@[simp] theorem mk_x (u v : ℝ) : (Vec2.mk u v).x = u := rfl
@[simp] theorem mk_y (u v : ℝ) : (Vec2.mk u v).y = v := rfl

theorem metric_distance_eq (a b : Vec2) :
    a.metric_distance b = Real.sqrt ((a.x - b.x) ^ 2 + (a.y - b.y) ^ 2) := rfl

theorem metric_distance_comm (a b : Vec2) :
    a.metric_distance b = b.metric_distance a := by
  unfold metric_distance norm sub
  ring_nf

theorem metric_distance_nonneg (a b : Vec2) : 0 ≤ a.metric_distance b :=
  Real.sqrt_nonneg _

theorem metric_distance_self (a : Vec2) : a.metric_distance a = 0 := by
  unfold metric_distance norm sub
  simp

end Vec2

/-- Helper for evaluating square roots of perfect squares. -/
theorem sqrt_of_sq {x y : ℝ} (hy : 0 ≤ y) (h : y ^ 2 = x) : Real.sqrt x = y := by
  rw [← h, Real.sqrt_sq hy]

namespace Intersection

@[simp] theorem intersects_inside (c : Circle) : (inside c).intersects = true := rfl
@[simp] theorem intersects_intersect (a b : Vec2) (ns : Bool) :
    (intersect a b ns).intersects = true := rfl
@[simp] theorem intersects_none : (none).intersects = false := rfl

end Intersection

namespace Circle

theorem distance_comm (c o : Circle) : c.distance o = o.distance c :=
  Vec2.metric_distance_comm _ _

/-! ## Branch lemmas for the pairwise classifier -/

theorem intersectCrossing_ne_none (c1 c2 : Circle) :
    intersectCrossing c1 c2 ≠ Intersection.none := by
  unfold intersectCrossing
  simp

theorem intersect_eq_none_iff (c1 c2 : Circle) :
    c1.intersect c2 = Intersection.none ↔ c1.distance c2 > c1.r + c2.r := by
  simp only [intersect]
  split_ifs with h1 h2 h3 h4 <;>
    simp_all [intersectCrossing_ne_none]

theorem intersect_of_gt (c1 c2 : Circle) (h : c1.distance c2 > c1.r + c2.r) :
    c1.intersect c2 = Intersection.none := by
  rw [intersect_eq_none_iff]; exact h

theorem intersect_of_inside_other (c1 c2 : Circle)
    (h1 : ¬ c1.distance c2 > c1.r + c2.r) (h2 : c1.distance c2 + c2.r ≤ c1.r) :
    c1.intersect c2 = Intersection.inside c2 := by
  simp only [intersect]
  rw [if_neg h1, if_pos h2]

theorem intersect_of_inside_self (c1 c2 : Circle)
    (h1 : ¬ c1.distance c2 > c1.r + c2.r) (h2 : ¬ c1.distance c2 + c2.r ≤ c1.r)
    (h3 : c1.distance c2 + c1.r ≤ c2.r) :
    c1.intersect c2 = Intersection.inside c1 := by
  simp only [intersect]
  rw [if_neg h1, if_neg h2, if_pos h3]

theorem intersect_of_crossing (c1 c2 : Circle)
    (h1 : ¬ c1.distance c2 > c1.r + c2.r) (h2 : ¬ c1.distance c2 + c2.r ≤ c1.r)
    (h3 : ¬ c1.distance c2 + c1.r ≤ c2.r) (h4 : c1.distance c2 ≠ 0) :
    c1.intersect c2 = intersectCrossing c1 c2 := by
  simp only [intersect]
  rw [if_neg h1, if_neg h2, if_neg h3, if_neg h4]

/-- `segment_area` at a zero-length chord is zero. -/
theorem segment_area_zero (r : ℝ) (hr : 0 ≤ r) :
    segment_area r 0 = .ok 0 := by
  unfold segment_area
  rw [if_neg (by linarith)]
  norm_num

/-- At exactly touching distance the crossing branch degenerates to a
repeated point with `nearside = false`. -/
theorem intersectCrossing_tangent (c1 c2 : Circle) (h1 : 0 < c1.r)
    (h2 : 0 < c2.r) (hd : c1.distance c2 = c1.r + c2.r) :
    ∃ p, intersectCrossing c1 c2 = Intersection.intersect p p false := by
  have hdpos : 0 < c1.distance c2 := by rw [hd]; linarith
  simp only [intersectCrossing]
  by_cases hlt : c1.r < c2.r
  · rw [if_pos hlt]
    simp only []
    have hv : (c2.r * c2.r + c1.distance c2 * c1.distance c2 - c1.r * c1.r) /
        (2 * c1.distance c2) = c2.r := by
      rw [hd]; field_simp; ring
    rw [hv]
    have hz : c2.r * c2.r - c2.r * c2.r = 0 := by ring
    rw [hz, Real.sqrt_zero]
    have hs : Real.sqrt (c2.r * c2.r - 0) = c2.r := by
      apply sqrt_of_sq (le_of_lt h2); ring
    rw [hs]
    have hns : decide (c2.r > c1.distance c2) = false := by
      simp only [decide_eq_false_iff_not, not_lt, hd]
      linarith
    rw [hns, neg_zero]
    exact ⟨_, rfl⟩
  · rw [if_neg hlt]
    simp only []
    have hv : (c1.r * c1.r + c1.distance c2 * c1.distance c2 - c2.r * c2.r) /
        (2 * c1.distance c2) = c1.r := by
      rw [hd]; field_simp; ring
    rw [hv]
    have hz : c1.r * c1.r - c1.r * c1.r = 0 := by ring
    rw [hz, Real.sqrt_zero]
    have hs : Real.sqrt (c1.r * c1.r - 0) = c1.r := by
      apply sqrt_of_sq (le_of_lt h1); ring
    rw [hs]
    have hns : decide (c1.r > c1.distance c2) = false := by
      simp only [decide_eq_false_iff_not, not_lt, hd]
      linarith
    rw [hns, neg_zero]
    exact ⟨_, rfl⟩

end Circle

/-! ## Concrete evaluation of the crossing branch -/

namespace Circle

/-- Closed form of `intersectCrossing`, with every intermediate value of
the source supplied as an equation, so concrete instances can be
discharged by `norm_num`. -/
theorem intersectCrossing_formula (self other smaller larger : Circle)
    (hsl : (if self.r < other.r then (self, other) else (other, self)) =
      (smaller, larger))
    (D V H S : ℝ) (hD : self.distance other = D)
    (hV : (larger.r * larger.r + D * D - smaller.r * smaller.r) / (2 * D) = V)
    (hH : Real.sqrt (larger.r * larger.r - V * V) = H)
    (hS : Real.sqrt (larger.r * larger.r - (larger.r * larger.r - V * V)) = S)
    (N : Vec2) (hN : (smaller.origin.sub larger.origin).normalize = N)
    (A B : Vec2)
    (hA : (larger.origin.add (N.smul S)).add ((Vec2.mk (-N.y) N.x).smul H) = A)
    (hB : (larger.origin.add (N.smul S)).add ((Vec2.mk (-N.y) N.x).smul (-H)) = B)
    (ns : Bool) (hns : decide (S > D) = ns) :
    self.intersectCrossing other = .intersect A B ns := by
  simp only [intersectCrossing, hsl, hD]
  rw [hV, hH, hS, hN, hA, hB, hns]

end Circle

/-! ## Claim theorems -/

/-- C10: for every circle, obstacle list and sample count, the
Monte-Carlo estimator `overlap` returns exactly 0 when the obstacle
list is empty or the circle's radius is nonpositive (the early returns
before any grid sampling). -/
theorem C10_overlap_trivial_zero (circle : Circle) (others : List Circle)
    (samples : Nat) (h : others = [] ∨ circle.r ≤ 0) :
    overlap circle others samples = 0 := by
  unfold overlap
  rcases h with h | h
  · subst h
    by_cases hr : circle.r ≤ 0
    · rw [if_pos hr]
    · rw [if_neg hr, if_pos rfl]
  · rw [if_pos h]

theorem C10_overlap_trivial_zero_witness :
    (([] : List Circle) = [] ∨ (⟨⟨0, 0⟩, 1⟩ : Circle).r ≤ 0) ∧
    overlap ⟨⟨0, 0⟩, 1⟩ [] 5 = 0 :=
  ⟨Or.inl rfl, C10_overlap_trivial_zero ⟨⟨0, 0⟩, 1⟩ [] 5 (Or.inl rfl)⟩

/-- C7: for every radius `r > 0` and chord `l`, `segment_area r l`
errors exactly when `l > 2r`, returns 0 when `l = 0`, and otherwise
returns `0.5·r²·(θ − sin θ)` with `θ = 2·asin(l/(2r))`. -/
theorem C7_segment_area_spec (r l : ℝ) (hr : 0 < r) :
    ((∃ e, Circle.segment_area r l = .error e) ↔ l > 2 * r) ∧
    (l = 0 → Circle.segment_area r l = .ok 0) ∧
    (¬ l > 2 * r →
      Circle.segment_area r l =
        .ok (0.5 * r * r * (2 * Real.arcsin (l / (2 * r)) -
          Real.sin (2 * Real.arcsin (l / (2 * r)))))) := by
  refine ⟨⟨?_, ?_⟩, ?_, ?_⟩
  · intro ⟨e, he⟩
    by_contra hl
    rw [Circle.segment_area, if_neg hl] at he
    exact Except.noConfusion he
  · intro hl
    exact ⟨_, by rw [Circle.segment_area, if_pos hl]⟩
  · intro hl
    subst hl
    exact Circle.segment_area_zero r (le_of_lt hr)
  · intro hl
    rw [Circle.segment_area, if_neg hl]

theorem C7_segment_area_spec_witness :
    (0 : ℝ) < 1 ∧ Circle.segment_area 1 0 = .ok 0 :=
  ⟨by norm_num, (C7_segment_area_spec 1 0 (by norm_num)).2.1 rfl⟩

/-- C4 counterexample: two unit circles at center distance exactly
`r1 + r2 = 2` — the claim's `d ≥ r1 + r2 → None` fails, because the
classifier's test is strict (`d > r1 + r2`). -/
theorem C4_counterexample :
    Circle.distance ⟨⟨0, 0⟩, 1⟩ ⟨⟨2, 0⟩, 1⟩ ≥ 1 + 1 ∧
    Circle.intersect ⟨⟨0, 0⟩, 1⟩ ⟨⟨2, 0⟩, 1⟩ ≠ Intersection.none := by
  have hd : Circle.distance ⟨⟨0, 0⟩, 1⟩ ⟨⟨2, 0⟩, 1⟩ = 2 := by
    rw [Circle.distance, Vec2.metric_distance_eq]
    rw [show ((0 : ℝ) - 2) ^ 2 + ((0 : ℝ) - 0) ^ 2 = 4 by norm_num]
    exact sqrt_of_sq (by norm_num) (by norm_num)
  constructor
  · rw [hd]; norm_num
  · rw [Ne, Circle.intersect_eq_none_iff, hd]
    norm_num

/-- C4 (amended): when the center distance is strictly greater than the
sum of radii the classifier returns `None` and the lens area is 0; at
distance exactly equal to the sum (nonnegative radii) the classifier
instead returns a degenerate crossing, but the lens area is still 0. -/
theorem C4_amended (c1 c2 : Circle) :
    (c1.distance c2 > c1.r + c2.r →
      c1.intersect c2 = Intersection.none ∧
      c1.intersection_area c2 = .ok 0) ∧
    (0 ≤ c1.r → 0 ≤ c2.r → c1.distance c2 = c1.r + c2.r →
      c1.intersection_area c2 = .ok 0) := by
  constructor
  · intro h
    have hnone := Circle.intersect_of_gt c1 c2 h
    refine ⟨hnone, ?_⟩
    rw [Circle.intersection_area, hnone]
  · intro hr1 hr2 hd
    rcases eq_or_lt_of_le hr2 with hz2 | hp2
    · -- c2.r = 0: the `Inside(other)` branch, area π·0² = 0
      have hin : c1.intersect c2 = Intersection.inside c2 := by
        apply Circle.intersect_of_inside_other
        · rw [hd]; simp
        · rw [hd, ← hz2]; simp
      rw [Circle.intersection_area, hin]
      norm_num
      exact Or.inr hz2.symm
    rcases eq_or_lt_of_le hr1 with hz1 | hp1
    · -- c1.r = 0: the `Inside(self)` branch
      have hin : c1.intersect c2 = Intersection.inside c1 := by
        apply Circle.intersect_of_inside_self
        · rw [hd]; simp
        · rw [hd, ← hz1]
          intro hc
          nlinarith
        · rw [hd, ← hz1]; simp
      rw [Circle.intersection_area, hin]
      norm_num
      exact Or.inr hz1.symm
    · -- both radii positive: degenerate crossing with zero chord
      have hcross := Circle.intersectCrossing_tangent c1 c2 hp1 hp2 hd
      obtain ⟨p, hp⟩ := hcross
      have hic : c1.intersect c2 = Intersection.intersect p p false := by
        rw [Circle.intersect_of_crossing c1 c2]
        · exact hp
        · rw [hd]; simp
        · rw [hd]; intro hc; linarith
        · rw [hd]; intro hc; linarith
        · rw [hd]; positivity
      simp only [Circle.intersection_area, hic, Vec2.metric_distance_self]
      rw [Circle.segment_area_zero c1.r hr1, Circle.segment_area_zero c2.r hr2]
      show (Except.ok ((0 : ℝ) + 0) : Except String ℝ) = Except.ok 0
      norm_num

theorem C4_amended_witness :
    Circle.distance ⟨⟨0, 0⟩, 1⟩ ⟨⟨3, 0⟩, 1⟩ > 1 + 1 ∧
    Circle.intersect ⟨⟨0, 0⟩, 1⟩ ⟨⟨3, 0⟩, 1⟩ = Intersection.none := by
  have hd : Circle.distance ⟨⟨0, 0⟩, 1⟩ ⟨⟨3, 0⟩, 1⟩ = 3 := by
    rw [Circle.distance, Vec2.metric_distance_eq]
    rw [show ((0 : ℝ) - 3) ^ 2 + ((0 : ℝ) - 0) ^ 2 = 9 by norm_num]
    exact sqrt_of_sq (by norm_num) (by norm_num)
  have hgt : Circle.distance ⟨⟨0, 0⟩, 1⟩ ⟨⟨3, 0⟩, 1⟩ > 1 + 1 := by
    rw [hd]; norm_num
  exact ⟨hgt, ((C4_amended ⟨⟨0, 0⟩, 1⟩ ⟨⟨3, 0⟩, 1⟩).1 hgt).1⟩

/-! ## C1: the inclusion-exclusion accumulator -/

theorem exBindOk {α β : Type} (a : α) (f : α → Except String β) :
    (Except.ok a : Except String α) >>= f = f a := rfl

theorem list_range_map_sum (n : ℕ) (f : ℕ → ℝ) :
    ((List.range n).map f).sum = ∑ i ∈ Finset.range n, f i := by
  induction n with
  | zero => simp
  | succ n ih =>
    rw [List.range_succ, List.map_append, List.sum_append,
      Finset.sum_range_succ, ih]
    simp

/-- The source's `polarity` equals the spec's sign `(−1)^(c+1)`. -/
theorem polarity_eq (c : ℕ) :
    (if c % 2 = 0 then (-1 : ℝ) else 1) = (-1 : ℝ) ^ (c + 1) := by
  rcases Nat.even_or_odd c with he | ho
  · rw [if_pos (Nat.even_iff.mp he), pow_succ, he.neg_one_pow]
    ring
  · have hne : ¬ c % 2 = 0 := by rw [Nat.odd_iff] at ho; omega
    rw [if_neg hne, pow_succ, ho.neg_one_pow]
    ring

theorem C1_inner_fold (F : Circle) (pol : ℝ) (L : List (List Circle)) :
    ∀ acc : ℝ,
      (∀ S ∈ L, ∃ v, Circle.intersect_all (S ++ [F]) = .ok v) →
      L.foldlM (Circle.tiInner F pol) acc =
        .ok (acc + pol *
          (L.map fun S => exVal (Circle.intersect_all (S ++ [F]))).sum) := by
  induction L with
  | nil =>
    intro acc _
    show Except.ok acc = _
    simp
  | cons S L' ih =>
    intro acc h
    obtain ⟨v, hv⟩ := h S (List.mem_cons_self _ _)
    rw [List.foldlM_cons]
    have hstep : Circle.tiInner F pol acc S = .ok (acc + pol * v) := by
      simp only [Circle.tiInner]
      rw [hv]
      rfl
    rw [hstep, exBindOk, ih (acc + pol * v)
      (fun S' hS' => h S' (List.mem_cons_of_mem _ hS'))]
    rw [List.map_cons, List.sum_cons, hv]
    congr 1
    simp only [exVal]
    ring

theorem C1_outer_fold (F : Circle) (others : List Circle) (ks : List ℕ) :
    ∀ acc : ℝ,
      (∀ c1 ∈ ks, ∀ S ∈ combinations (c1 + 1) others,
        ∃ v, Circle.intersect_all (S ++ [F]) = .ok v) →
      ks.foldlM (Circle.tiOuter F others) acc =
        .ok (acc + (ks.map fun c1 =>
          (if (c1 + 1) % 2 = 0 then (-1 : ℝ) else 1) *
            ((combinations (c1 + 1) others).map fun S =>
              exVal (Circle.intersect_all (S ++ [F]))).sum).sum) := by
  induction ks with
  | nil =>
    intro acc _
    show Except.ok acc = _
    simp
  | cons k ks' ih =>
    intro acc h
    rw [List.foldlM_cons]
    have hstep : Circle.tiOuter F others acc k =
        .ok (acc + (if (k + 1) % 2 = 0 then (-1 : ℝ) else 1) *
          ((combinations (k + 1) others).map fun S =>
            exVal (Circle.intersect_all (S ++ [F]))).sum) := by
      unfold Circle.tiOuter
      exact C1_inner_fold F _ _ acc (h k (List.mem_cons_self _ _))
    rw [hstep, exBindOk, ih _ (fun c hc => h c (List.mem_cons_of_mem _ hc))]
    rw [List.map_cons, List.sum_cons]
    congr 1
    ring

/-- C1: for every focal circle and obstacle list whose subset terms all
succeed, `total_intersection` equals the inclusion-exclusion sum over
subset sizes `k = 1..|others|` with sign `(−1)^(k+1)` (odd `k` added,
even `k` subtracted); and `total_intersection(F, [])` is 0 for every
circle `F`. -/
theorem C1_total_intersection_inclusion_exclusion (F : Circle)
    (others : List Circle)
    (h : ∀ k, 1 ≤ k → k ≤ others.length → ∀ S ∈ combinations k others,
      ∃ v, Circle.intersect_all (S ++ [F]) = .ok v) :
    Circle.total_intersection F others = .ok (inclusionExclusionSum F others) ∧
    ∀ F' : Circle, Circle.total_intersection F' [] = .ok 0 := by
  constructor
  · have hall : ∀ c1 ∈ List.range others.length,
        ∀ S ∈ combinations (c1 + 1) others,
        ∃ v, Circle.intersect_all (S ++ [F]) = .ok v := by
      intro c1 hc1 S hS
      have hlt := List.mem_range.mp hc1
      exact h (c1 + 1) (by omega) (by omega) S hS
    unfold Circle.total_intersection
    rw [C1_outer_fold F others (List.range others.length) 0 hall]
    congr 1
    rw [zero_add, list_range_map_sum]
    unfold inclusionExclusionSum
    rw [← Nat.Ico_succ_right, Finset.sum_Ico_eq_sum_range]
    have hsub : others.length + 1 - 1 = others.length := by omega
    rw [hsub]
    apply Finset.sum_congr rfl
    intro i _
    rw [polarity_eq, Nat.add_comm 1 i]
  · intro F'
    rfl

theorem C1_total_intersection_inclusion_exclusion_witness :
    Circle.total_intersection ⟨⟨0, 0⟩, 1⟩ [] =
      .ok (inclusionExclusionSum ⟨⟨0, 0⟩, 1⟩ []) :=
  (C1_total_intersection_inclusion_exclusion ⟨⟨0, 0⟩, 1⟩ []
    (fun _ hk1 hk2 _ _ => absurd (hk1.trans hk2) (by norm_num))).1

/-! ## C6: the sequential placement driver -/

theorem exBindErr {α β : Type} (e : String) (f : α → Except String β) :
    (Except.error e : Except String α) >>= f = .error e := rfl

/-- Every circle the solver loop returns is centered at the target
point's origin. -/
theorem scale_loop_origin (circles : List Circle) (radial : RadialArea)
    (epsilon : ℝ) :
    ∀ (n : Nat) (r delta : ℝ) (ap : Option ℝ) (c : Circle),
      scale_loop circles radial epsilon n r delta ap = .ok (some c) →
      c.origin = radial.origin := by
  intro n
  induction n with
  | zero =>
    intro r delta ap c h
    exact Option.noConfusion (Except.ok.inj h)
  | succ n ih =>
    intro r delta ap c h
    simp only [scale_loop] at h
    rcases htc : Circle.total_intersection ⟨radial.origin, r⟩
        (Circle.intersects_many ⟨radial.origin, r⟩ circles) with e | v
    · rw [htc, exBindErr] at h
      exact Except.noConfusion h
    · rw [htc, exBindOk] at h
      by_cases hneg : v < 0
      · rw [if_pos hneg] at h
        exact Except.noConfusion h
      rw [if_neg hneg] at h
      by_cases hcl : |Circle.area ⟨radial.origin, r⟩ - v - radial.area| < epsilon
      · rw [if_pos hcl] at h
        have h2 := Option.some.inj (Except.ok.inj h)
        rw [← h2]
      · rw [if_neg hcl] at h
        exact ih _ _ _ _ h

theorem scale_to_exclusive_area_origin (circles : List Circle)
    (radial : RadialArea) (delta epsilon : ℝ) (max_iter : Nat) (c : Circle)
    (h : scale_to_exclusive_area circles radial delta epsilon max_iter =
      .ok (some c)) : c.origin = radial.origin :=
  scale_loop_origin circles radial epsilon max_iter _ _ _ c h

/-- Success characterization of `scale_all_aux`: the output extends the
accumulator by one circle per input point, each solved against exactly
the circles solved before it. -/
theorem scale_all_aux_spec (delta epsilon : ℝ) (max_iter : Nat) :
    ∀ (radials : List RadialArea) (acc cs : List Circle),
      scale_all_aux delta epsilon max_iter radials acc = .ok (some cs) →
      ∃ new : List Circle, cs = acc ++ new ∧ new.length = radials.length ∧
        ∀ i, i < radials.length →
          scale_to_exclusive_area (acc ++ new.take i)
              (radials.getD i ⟨Vec2.zero, 0⟩) delta epsilon max_iter =
            .ok (some (new.getD i ⟨Vec2.zero, 0⟩)) ∧
          (new.getD i ⟨Vec2.zero, 0⟩).origin =
            (radials.getD i ⟨Vec2.zero, 0⟩).origin := by
  intro radials
  induction radials with
  | nil =>
    intro acc cs h
    have hcs := Option.some.inj (Except.ok.inj h)
    exact ⟨[], by simp [← hcs], by simp, fun i hi => absurd hi (by simp)⟩
  | cons radial rest ih =>
    intro acc cs h
    simp only [scale_all_aux] at h
    rcases hst : scale_to_exclusive_area acc radial delta epsilon max_iter
        with e | oc
    · rw [hst, exBindErr] at h
      exact Except.noConfusion h
    · rw [hst, exBindOk] at h
      rcases oc with _ | c
      · exact Option.noConfusion (Except.ok.inj h)
      · obtain ⟨new', hcs, hlen, hspec⟩ := ih (acc ++ [c]) cs h
        refine ⟨c :: new', by simpa using hcs, by simpa using hlen, ?_⟩
        intro i hi
        cases i with
        | zero =>
          refine ⟨by simpa using hst, ?_⟩
          simpa using scale_to_exclusive_area_origin acc radial delta epsilon
            max_iter c hst
        | succ i =>
          have hi' : i < rest.length := by
            simp only [List.length_cons] at hi
            omega
          have := hspec i hi'
          simpa [List.append_assoc] using this

/-- A failed run stays failed when more target points are appended. -/
theorem scale_all_aux_append_none (delta epsilon : ℝ) (max_iter : Nat) :
    ∀ (xs ys : List RadialArea) (acc : List Circle),
      scale_all_aux delta epsilon max_iter xs acc = .ok Option.none →
      scale_all_aux delta epsilon max_iter (xs ++ ys) acc = .ok Option.none := by
  intro xs
  induction xs with
  | nil =>
    intro ys acc h
    exact Option.noConfusion (Except.ok.inj h)
  | cons radial rest ih =>
    intro ys acc h
    simp only [scale_all_aux] at h ⊢
    rcases hst : scale_to_exclusive_area acc radial delta epsilon max_iter
        with e | oc
    · rw [hst, exBindErr] at h
      exact Except.noConfusion h
    · rw [hst, exBindOk] at h
      rw [exBindOk]
      rcases oc with _ | c
      · rfl
      · exact ih ys (acc ++ [c]) h

/-- C6: on success `scale_all` returns one circle per input point, in
input order, the i-th centered at the i-th origin and obtained by
solving against exactly the already-solved circles `cs.take i`; a run
that fails stays failed (returns `none`, no partial output) when
further points are appended. -/
theorem C6_scale_all_spec (radials : List RadialArea) (delta epsilon : ℝ)
    (max_iter : Nat) :
    (∀ cs, scale_all radials delta epsilon max_iter = .ok (some cs) →
      cs.length = radials.length ∧
      ∀ i, i < radials.length →
        (cs.getD i ⟨Vec2.zero, 0⟩).origin =
          (radials.getD i ⟨Vec2.zero, 0⟩).origin ∧
        scale_to_exclusive_area (cs.take i) (radials.getD i ⟨Vec2.zero, 0⟩)
            delta epsilon max_iter = .ok (some (cs.getD i ⟨Vec2.zero, 0⟩))) ∧
    ∀ rest : List RadialArea,
      scale_all radials delta epsilon max_iter = .ok Option.none →
      scale_all (radials ++ rest) delta epsilon max_iter = .ok Option.none := by
  constructor
  · intro cs h
    obtain ⟨new, hcs, hlen, hspec⟩ :=
      scale_all_aux_spec delta epsilon max_iter radials [] cs h
    simp only [List.nil_append] at hcs
    subst hcs
    refine ⟨hlen, fun i hi => ?_⟩
    obtain ⟨hsolve, horig⟩ := hspec i hi
    simp only [List.nil_append] at hsolve
    exact ⟨horig, hsolve⟩
  · intro rest h
    exact scale_all_aux_append_none delta epsilon max_iter radials rest [] h

/-- Concrete single-point run: with no obstacles the first iteration
converges immediately at `r = sqrt(area/π)`. -/
theorem scale_all_single_eval :
    scale_all [⟨⟨0, 0⟩, Real.pi⟩] 1 (1 / 1000) 1 = .ok (some [⟨⟨0, 0⟩, 1⟩]) := by
  have hloop : scale_loop [] ⟨⟨0, 0⟩, Real.pi⟩ (1 / 1000) 1 1 1 Option.none =
      .ok (some ⟨⟨0, 0⟩, 1⟩) := by
    show scale_loop [] ⟨⟨0, 0⟩, Real.pi⟩ (1 / 1000) (0 + 1) 1 1 Option.none = _
    simp only [scale_loop]
    rw [show Circle.intersects_many ⟨⟨0, 0⟩, 1⟩ [] = [] from rfl]
    rw [show Circle.total_intersection ⟨⟨0, 0⟩, 1⟩ [] = .ok 0 from rfl]
    rw [exBindOk]
    rw [if_neg (by norm_num : ¬ (0 : ℝ) < 0)]
    rw [if_pos]
    simp only [Circle.area]
    norm_num
  have hr0 : Real.sqrt (Real.pi / Real.pi) = 1 := by
    rw [div_self Real.pi_ne_zero, Real.sqrt_one]
  unfold scale_all scale_all_aux scale_to_exclusive_area
  rw [hr0, hloop, exBindOk]
  rfl

theorem C6_scale_all_spec_witness :
    scale_all [⟨⟨0, 0⟩, Real.pi⟩] 1 (1 / 1000) 1 = .ok (some [⟨⟨0, 0⟩, 1⟩]) ∧
    (([⟨⟨0, 0⟩, 1⟩] : List Circle).length =
        ([⟨⟨0, 0⟩, Real.pi⟩] : List RadialArea).length ∧
      ∀ i, i < ([⟨⟨0, 0⟩, Real.pi⟩] : List RadialArea).length →
        (([⟨⟨0, 0⟩, 1⟩] : List Circle).getD i ⟨Vec2.zero, 0⟩).origin =
          (([⟨⟨0, 0⟩, Real.pi⟩] : List RadialArea).getD i ⟨Vec2.zero, 0⟩).origin ∧
        scale_to_exclusive_area (([⟨⟨0, 0⟩, 1⟩] : List Circle).take i)
            (([⟨⟨0, 0⟩, Real.pi⟩] : List RadialArea).getD i ⟨Vec2.zero, 0⟩)
            1 (1 / 1000) 1 =
          .ok (some (([⟨⟨0, 0⟩, 1⟩] : List Circle).getD i ⟨Vec2.zero, 0⟩))) :=
  ⟨scale_all_single_eval,
    (C6_scale_all_spec [⟨⟨0, 0⟩, Real.pi⟩] 1 (1 / 1000) 1).1 _ scale_all_single_eval⟩

/-! ## C9: the boundary-polygon walk -/

theorem bbpNext_of_len_one (neighbors : List (Vec2 × Nat)) (prev : Option Vec2) :
    bbpNext neighbors 1 prev = (neighbors.map fun e => e.1).head? := by
  unfold bbpNext
  rw [if_pos rfl]

theorem bbpNext_of_len_two (neighbors : List (Vec2 × Nat)) (pv : Vec2) :
    bbpNext neighbors 2 (some pv) =
      ((neighbors.map fun e => e.1).filter fun x => decide (x ≠ pv)).head? := by
  unfold bbpNext
  rw [if_neg (by norm_num)]

/-- When after the first step every neighbour of the current point is
filtered out as the previous point, the walk silently returns the
partial polygon `[start, b]` (shared engine of the C9 theorems). -/
theorem bbp_go_truncates (adjacency : Adjacency) (upm : List (Vec2 × Vec2))
    (start bk b : Vec2) (ci : Nat) (rest : List (Vec2 × Nat)) (fuel : Nat)
    (h1 : adjLookup adjacency start = (bk, ci) :: rest)
    (h2 : upmLookup upm bk = b)
    (h3 : ((adjLookup adjacency b).map fun e => e.1).filter
        (fun x => decide (x ≠ start)) = []) :
    build_boundary_polygon (fuel + 2) adjacency upm start = [start, b] := by
  unfold build_boundary_polygon
  show bbp_go _ _ _ ((fuel + 1) + 1) _ _ _ = _
  simp only [bbp_go]
  rw [h1, show ([start] : List Vec2).length = 1 from rfl, bbpNext_of_len_one]
  simp only [List.map_cons, List.head?]
  rw [h2]
  rw [if_neg (by simp)]
  show bbp_go _ _ _ (fuel + 1) _ _ _ = _
  simp only [bbp_go]
  rw [show ([start] ++ [b] : List Vec2).length = 2 from rfl, bbpNext_of_len_two, h3]
  rfl

/-- C9 counterexample: an adjacency whose polygon walk cannot be closed
(the second point's only neighbour is the point just visited).  The
source `break`s and returns the partially constructed polygon
`[start, b]`; no degenerate-topology error is surfaced — the function
has no error channel at all. -/
theorem C9_counterexample :
    build_boundary_polygon 10
        [(⟨0, 0⟩, [(⟨1, 0⟩, 0)]), (⟨1, 0⟩, [(⟨0, 0⟩, 0)])]
        [(⟨0, 0⟩, ⟨0, 0⟩), (⟨1, 0⟩, ⟨1, 0⟩)] ⟨0, 0⟩ =
      [⟨0, 0⟩, ⟨1, 0⟩] := by
  have hne : ¬ ((⟨0, 0⟩ : Vec2) = ⟨1, 0⟩) := by
    intro h
    have hx := congrArg Vec2.x h
    norm_num at hx
  have h8 : (10 : Nat) = 8 + 2 := rfl
  rw [h8]
  apply bbp_go_truncates _ _ _ ⟨1, 0⟩ ⟨1, 0⟩ 0 [] 8
  · unfold adjLookup
    rw [List.find?_cons_of_pos _ (by simp)]
  · unfold upmLookup
    rw [List.find?_cons_of_neg _ (by simp [hne]),
      List.find?_cons_of_pos _ (by simp)]
  · unfold adjLookup
    rw [List.find?_cons_of_neg _ (by simp [hne]),
      List.find?_cons_of_pos _ (by simp)]
    simp

/-- C9 (amended): when the boundary-polygon walk cannot find a next
point (here: every neighbour of the second point is filtered out as the
point just visited), the implementation silently truncates and returns
the partially constructed polygon instead of surfacing an explicit
degenerate-topology error. -/
theorem C9_amended (adjacency : Adjacency) (upm : List (Vec2 × Vec2))
    (start bk b : Vec2) (ci : Nat) (rest : List (Vec2 × Nat)) (fuel : Nat)
    (h1 : adjLookup adjacency start = (bk, ci) :: rest)
    (h2 : upmLookup upm bk = b)
    (h3 : ((adjLookup adjacency b).map fun e => e.1).filter
        (fun x => decide (x ≠ start)) = []) :
    build_boundary_polygon (fuel + 2) adjacency upm start = [start, b] :=
  bbp_go_truncates adjacency upm start bk b ci rest fuel h1 h2 h3

/-! ## C2: order-dependence of `intersect_all` -/

/-- Pair (A,B) of the C2 configuration: crossing at (4,±3). -/
theorem C2_iAB : Circle.intersect ⟨⟨0, 0⟩, 5⟩ ⟨⟨8, 0⟩, 5⟩ =
    .intersect ⟨4, 3⟩ ⟨4, -3⟩ false := by
  have hd : Circle.distance ⟨⟨0, 0⟩, 5⟩ ⟨⟨8, 0⟩, 5⟩ = 8 := by
    rw [Circle.distance, Vec2.metric_distance_eq]
    rw [show ((0 : ℝ) - 8) ^ 2 + ((0 : ℝ) - 0) ^ 2 = 8 ^ 2 by norm_num]
    exact Real.sqrt_sq (by norm_num)
  rw [Circle.intersect_of_crossing _ _ (by rw [hd]; norm_num)
    (by rw [hd]; norm_num) (by rw [hd]; norm_num) (by rw [hd]; norm_num)]
  refine Circle.intersectCrossing_formula _ _ ⟨⟨8, 0⟩, 5⟩ ⟨⟨0, 0⟩, 5⟩ ?_
    8 4 3 4 hd ?_ ?_ ?_ ⟨1, 0⟩ ?_ ⟨4, 3⟩ ⟨4, -3⟩ ?_ ?_ false ?_
  · rw [if_neg (by norm_num)]
  · norm_num
  · rw [show (5 : ℝ) * 5 - 4 * 4 = 3 ^ 2 by norm_num]
    exact Real.sqrt_sq (by norm_num)
  · rw [show (5 : ℝ) * 5 - ((5 : ℝ) * 5 - 4 * 4) = 4 ^ 2 by norm_num]
    exact Real.sqrt_sq (by norm_num)
  · simp only [Vec2.sub, Vec2.normalize, Vec2.norm, Vec2.mk_x, Vec2.mk_y]
    rw [show ((8 : ℝ) - 0) ^ 2 + ((0 : ℝ) - 0) ^ 2 = 8 ^ 2 by norm_num,
      Real.sqrt_sq (by norm_num)]
    norm_num [Vec2.mk.injEq]
  · simp only [Vec2.add, Vec2.smul, Vec2.mk_x, Vec2.mk_y]
    norm_num [Vec2.mk.injEq]
  · simp only [Vec2.add, Vec2.smul, Vec2.mk_x, Vec2.mk_y]
    norm_num [Vec2.mk.injEq]
  · exact decide_eq_false (by norm_num)

/-- Pair (A,C) of the C2 configuration: crossing at (−1, ∓√24),
near-side flag set. -/
theorem C2_iAC : Circle.intersect ⟨⟨0, 0⟩, 5⟩ ⟨⟨4, 0⟩, 7⟩ =
    .intersect ⟨-1, -Real.sqrt 24⟩ ⟨-1, Real.sqrt 24⟩ true := by
  have hd : Circle.distance ⟨⟨0, 0⟩, 5⟩ ⟨⟨4, 0⟩, 7⟩ = 4 := by
    rw [Circle.distance, Vec2.metric_distance_eq]
    rw [show ((0 : ℝ) - 4) ^ 2 + ((0 : ℝ) - 0) ^ 2 = 4 ^ 2 by norm_num]
    exact Real.sqrt_sq (by norm_num)
  rw [Circle.intersect_of_crossing _ _ (by rw [hd]; norm_num)
    (by rw [hd]; norm_num) (by rw [hd]; norm_num) (by rw [hd]; norm_num)]
  refine Circle.intersectCrossing_formula _ _ ⟨⟨0, 0⟩, 5⟩ ⟨⟨4, 0⟩, 7⟩ ?_
    4 5 (Real.sqrt 24) 5 hd ?_ ?_ ?_ ⟨-1, 0⟩ ?_ ⟨-1, -Real.sqrt 24⟩
    ⟨-1, Real.sqrt 24⟩ ?_ ?_ true ?_
  · rw [if_pos (by norm_num)]
  · norm_num
  · rw [show (7 : ℝ) * 7 - 5 * 5 = 24 by norm_num]
  · rw [show (7 : ℝ) * 7 - ((7 : ℝ) * 7 - 5 * 5) = 5 ^ 2 by norm_num]
    exact Real.sqrt_sq (by norm_num)
  · simp only [Vec2.sub, Vec2.normalize, Vec2.norm, Vec2.mk_x, Vec2.mk_y]
    rw [show ((0 : ℝ) - 4) ^ 2 + ((0 : ℝ) - 0) ^ 2 = 4 ^ 2 by norm_num,
      Real.sqrt_sq (by norm_num)]
    norm_num [Vec2.mk.injEq]
  · simp only [Vec2.add, Vec2.smul, Vec2.mk_x, Vec2.mk_y]
    norm_num [Vec2.mk.injEq]
  · simp only [Vec2.add, Vec2.smul, Vec2.mk_x, Vec2.mk_y]
    norm_num [Vec2.mk.injEq]
  · exact decide_eq_true (by norm_num)

/-- Pair (B,C) of the C2 configuration: crossing at (9, ±√24),
near-side flag set. -/
theorem C2_iBC : Circle.intersect ⟨⟨8, 0⟩, 5⟩ ⟨⟨4, 0⟩, 7⟩ =
    .intersect ⟨9, Real.sqrt 24⟩ ⟨9, -Real.sqrt 24⟩ true := by
  have hd : Circle.distance ⟨⟨8, 0⟩, 5⟩ ⟨⟨4, 0⟩, 7⟩ = 4 := by
    rw [Circle.distance, Vec2.metric_distance_eq]
    rw [show ((8 : ℝ) - 4) ^ 2 + ((0 : ℝ) - 0) ^ 2 = 4 ^ 2 by norm_num]
    exact Real.sqrt_sq (by norm_num)
  rw [Circle.intersect_of_crossing _ _ (by rw [hd]; norm_num)
    (by rw [hd]; norm_num) (by rw [hd]; norm_num) (by rw [hd]; norm_num)]
  refine Circle.intersectCrossing_formula _ _ ⟨⟨8, 0⟩, 5⟩ ⟨⟨4, 0⟩, 7⟩ ?_
    4 5 (Real.sqrt 24) 5 hd ?_ ?_ ?_ ⟨1, 0⟩ ?_ ⟨9, Real.sqrt 24⟩
    ⟨9, -Real.sqrt 24⟩ ?_ ?_ true ?_
  · rw [if_pos (by norm_num)]
  · norm_num
  · rw [show (7 : ℝ) * 7 - 5 * 5 = 24 by norm_num]
  · rw [show (7 : ℝ) * 7 - ((7 : ℝ) * 7 - 5 * 5) = 5 ^ 2 by norm_num]
    exact Real.sqrt_sq (by norm_num)
  · simp only [Vec2.sub, Vec2.normalize, Vec2.norm, Vec2.mk_x, Vec2.mk_y]
    rw [show ((8 : ℝ) - 4) ^ 2 + ((0 : ℝ) - 0) ^ 2 = 4 ^ 2 by norm_num,
      Real.sqrt_sq (by norm_num)]
    norm_num [Vec2.mk.injEq]
  · simp only [Vec2.add, Vec2.smul, Vec2.mk_x, Vec2.mk_y]
    norm_num [Vec2.mk.injEq]
  · simp only [Vec2.add, Vec2.smul, Vec2.mk_x, Vec2.mk_y]
    norm_num [Vec2.mk.injEq]
  · exact decide_eq_true (by norm_num)

/-- Pair (C,B): same crossing as (B,C) — smaller/larger are chosen by
radius, so the points come out identical. -/
theorem C2_iCB : Circle.intersect ⟨⟨4, 0⟩, 7⟩ ⟨⟨8, 0⟩, 5⟩ =
    .intersect ⟨9, Real.sqrt 24⟩ ⟨9, -Real.sqrt 24⟩ true := by
  have hd : Circle.distance ⟨⟨4, 0⟩, 7⟩ ⟨⟨8, 0⟩, 5⟩ = 4 := by
    rw [Circle.distance, Vec2.metric_distance_eq]
    rw [show ((4 : ℝ) - 8) ^ 2 + ((0 : ℝ) - 0) ^ 2 = 4 ^ 2 by norm_num]
    exact Real.sqrt_sq (by norm_num)
  rw [Circle.intersect_of_crossing _ _ (by rw [hd]; norm_num)
    (by rw [hd]; norm_num) (by rw [hd]; norm_num) (by rw [hd]; norm_num)]
  refine Circle.intersectCrossing_formula _ _ ⟨⟨8, 0⟩, 5⟩ ⟨⟨4, 0⟩, 7⟩ ?_
    4 5 (Real.sqrt 24) 5 hd ?_ ?_ ?_ ⟨1, 0⟩ ?_ ⟨9, Real.sqrt 24⟩
    ⟨9, -Real.sqrt 24⟩ ?_ ?_ true ?_
  · rw [if_neg (by norm_num)]
  · norm_num
  · rw [show (7 : ℝ) * 7 - 5 * 5 = 24 by norm_num]
  · rw [show (7 : ℝ) * 7 - ((7 : ℝ) * 7 - 5 * 5) = 5 ^ 2 by norm_num]
    exact Real.sqrt_sq (by norm_num)
  · simp only [Vec2.sub, Vec2.normalize, Vec2.norm, Vec2.mk_x, Vec2.mk_y]
    rw [show ((8 : ℝ) - 4) ^ 2 + ((0 : ℝ) - 0) ^ 2 = 4 ^ 2 by norm_num,
      Real.sqrt_sq (by norm_num)]
    norm_num [Vec2.mk.injEq]
  · simp only [Vec2.add, Vec2.smul, Vec2.mk_x, Vec2.mk_y]
    norm_num [Vec2.mk.injEq]
  · simp only [Vec2.add, Vec2.smul, Vec2.mk_x, Vec2.mk_y]
    norm_num [Vec2.mk.injEq]
  · exact decide_eq_true (by norm_num)

theorem C2_d43 : Vec2.metric_distance ⟨4, 3⟩ ⟨4, 0⟩ = 3 := by
  rw [Vec2.metric_distance_eq,
    show ((4 : ℝ) - 4) ^ 2 + ((3 : ℝ) - 0) ^ 2 = 3 ^ 2 by norm_num]
  exact Real.sqrt_sq (by norm_num)

theorem C2_d43m : Vec2.metric_distance ⟨4, -3⟩ ⟨4, 0⟩ = 3 := by
  rw [Vec2.metric_distance_eq,
    show ((4 : ℝ) - 4) ^ 2 + ((-3 : ℝ) - 0) ^ 2 = 3 ^ 2 by norm_num]
  exact Real.sqrt_sq (by norm_num)

theorem C2_dm1a :
    Vec2.metric_distance ⟨-1, -Real.sqrt 24⟩ ⟨8, 0⟩ = Real.sqrt 105 := by
  rw [Vec2.metric_distance_eq]
  simp only [Vec2.mk_x, Vec2.mk_y]
  congr 1
  have h24 : Real.sqrt 24 ^ 2 = 24 := Real.sq_sqrt (by norm_num)
  nlinarith [h24]

theorem C2_dm1b :
    Vec2.metric_distance ⟨-1, Real.sqrt 24⟩ ⟨8, 0⟩ = Real.sqrt 105 := by
  rw [Vec2.metric_distance_eq]
  simp only [Vec2.mk_x, Vec2.mk_y]
  congr 1
  have h24 : Real.sqrt 24 ^ 2 = 24 := Real.sq_sqrt (by norm_num)
  nlinarith [h24]

theorem C2_d9a :
    Vec2.metric_distance ⟨9, Real.sqrt 24⟩ ⟨0, 0⟩ = Real.sqrt 105 := by
  rw [Vec2.metric_distance_eq]
  simp only [Vec2.mk_x, Vec2.mk_y]
  congr 1
  have h24 : Real.sqrt 24 ^ 2 = 24 := Real.sq_sqrt (by norm_num)
  nlinarith [h24]

theorem C2_d9b :
    Vec2.metric_distance ⟨9, -Real.sqrt 24⟩ ⟨0, 0⟩ = Real.sqrt 105 := by
  rw [Vec2.metric_distance_eq]
  simp only [Vec2.mk_x, Vec2.mk_y]
  congr 1
  have h24 : Real.sqrt 24 ^ 2 = 24 := Real.sq_sqrt (by norm_num)
  nlinarith [h24]

theorem sqrt105_not_lt_five : ¬ (Real.sqrt 105 < 5) := by
  apply not_lt.mpr
  rw [Real.le_sqrt' (by norm_num)]
  norm_num

/-- `intersect_all [A,B,C]` lands in the two-surviving-point branch and
returns the pairwise lens of the first and the *last* non-ignored
circles, here A and C. -/
theorem C2_eval1 :
    Circle.intersect_all [⟨⟨0, 0⟩, 5⟩, ⟨⟨8, 0⟩, 5⟩, ⟨⟨4, 0⟩, 7⟩] =
      Circle.intersection_area ⟨⟨0, 0⟩, 5⟩ ⟨⟨4, 0⟩, 7⟩ := by
  have hcp : Circle.collectPairs
      (pairsLex (List.enum [(⟨⟨0, 0⟩, 5⟩ : Circle), ⟨⟨8, 0⟩, 5⟩, ⟨⟨4, 0⟩, 7⟩])) =
      some ([(⟨4, 3⟩, 0, 1), (⟨4, -3⟩, 0, 1), (⟨-1, -Real.sqrt 24⟩, 0, 2),
        (⟨-1, Real.sqrt 24⟩, 0, 2), (⟨9, Real.sqrt 24⟩, 1, 2),
        (⟨9, -Real.sqrt 24⟩, 1, 2)], []) := by
    rw [show pairsLex (List.enum [(⟨⟨0, 0⟩, 5⟩ : Circle), ⟨⟨8, 0⟩, 5⟩, ⟨⟨4, 0⟩, 7⟩]) =
      [((0, (⟨⟨0, 0⟩, 5⟩ : Circle)), (1, (⟨⟨8, 0⟩, 5⟩ : Circle))),
       ((0, (⟨⟨0, 0⟩, 5⟩ : Circle)), (2, (⟨⟨4, 0⟩, 7⟩ : Circle))),
       ((1, (⟨⟨8, 0⟩, 5⟩ : Circle)), (2, (⟨⟨4, 0⟩, 7⟩ : Circle)))] from rfl]
    simp only [Circle.collectPairs, C2_iAB, C2_iAC, C2_iBC, Option.map]
  have hk1 : Circle.retainPred [⟨⟨0, 0⟩, 5⟩, ⟨⟨8, 0⟩, 5⟩, ⟨⟨4, 0⟩, 7⟩] []
      (⟨4, 3⟩, 0, 1) = true := by
    unfold Circle.retainPred
    rw [if_neg (by simp)]
    apply decide_eq_true
    rw [show List.enum [(⟨⟨0, 0⟩, 5⟩ : Circle), ⟨⟨8, 0⟩, 5⟩, ⟨⟨4, 0⟩, 7⟩] =
      [(0, (⟨⟨0, 0⟩, 5⟩ : Circle)), (1, (⟨⟨8, 0⟩, 5⟩ : Circle)),
       (2, (⟨⟨4, 0⟩, 7⟩ : Circle))] from rfl]
    rw [List.filter_cons_of_neg (by simp),
      List.filter_cons_of_neg (by simp),
      List.filter_cons_of_pos (by norm_num [C2_d43]),
      List.filter_nil]
    rfl
  have hk2 : Circle.retainPred [⟨⟨0, 0⟩, 5⟩, ⟨⟨8, 0⟩, 5⟩, ⟨⟨4, 0⟩, 7⟩] []
      (⟨4, -3⟩, 0, 1) = true := by
    unfold Circle.retainPred
    rw [if_neg (by simp)]
    apply decide_eq_true
    rw [show List.enum [(⟨⟨0, 0⟩, 5⟩ : Circle), ⟨⟨8, 0⟩, 5⟩, ⟨⟨4, 0⟩, 7⟩] =
      [(0, (⟨⟨0, 0⟩, 5⟩ : Circle)), (1, (⟨⟨8, 0⟩, 5⟩ : Circle)),
       (2, (⟨⟨4, 0⟩, 7⟩ : Circle))] from rfl]
    rw [List.filter_cons_of_neg (by simp),
      List.filter_cons_of_neg (by simp),
      List.filter_cons_of_pos (by norm_num [C2_d43m]),
      List.filter_nil]
    rfl
  have hn1 : Circle.retainPred [⟨⟨0, 0⟩, 5⟩, ⟨⟨8, 0⟩, 5⟩, ⟨⟨4, 0⟩, 7⟩] []
      (⟨-1, -Real.sqrt 24⟩, 0, 2) = false := by
    unfold Circle.retainPred
    rw [if_neg (by simp)]
    apply decide_eq_false
    rw [show List.enum [(⟨⟨0, 0⟩, 5⟩ : Circle), ⟨⟨8, 0⟩, 5⟩, ⟨⟨4, 0⟩, 7⟩] =
      [(0, (⟨⟨0, 0⟩, 5⟩ : Circle)), (1, (⟨⟨8, 0⟩, 5⟩ : Circle)),
       (2, (⟨⟨4, 0⟩, 7⟩ : Circle))] from rfl]
    rw [List.filter_cons_of_neg (by simp),
      List.filter_cons_of_neg (by simp [C2_dm1a, sqrt105_not_lt_five]),
      List.filter_cons_of_neg (by simp),
      List.filter_nil]
    norm_num
  have hn2 : Circle.retainPred [⟨⟨0, 0⟩, 5⟩, ⟨⟨8, 0⟩, 5⟩, ⟨⟨4, 0⟩, 7⟩] []
      (⟨-1, Real.sqrt 24⟩, 0, 2) = false := by
    unfold Circle.retainPred
    rw [if_neg (by simp)]
    apply decide_eq_false
    rw [show List.enum [(⟨⟨0, 0⟩, 5⟩ : Circle), ⟨⟨8, 0⟩, 5⟩, ⟨⟨4, 0⟩, 7⟩] =
      [(0, (⟨⟨0, 0⟩, 5⟩ : Circle)), (1, (⟨⟨8, 0⟩, 5⟩ : Circle)),
       (2, (⟨⟨4, 0⟩, 7⟩ : Circle))] from rfl]
    rw [List.filter_cons_of_neg (by simp),
      List.filter_cons_of_neg (by simp [C2_dm1b, sqrt105_not_lt_five]),
      List.filter_cons_of_neg (by simp),
      List.filter_nil]
    norm_num
  have hn3 : Circle.retainPred [⟨⟨0, 0⟩, 5⟩, ⟨⟨8, 0⟩, 5⟩, ⟨⟨4, 0⟩, 7⟩] []
      (⟨9, Real.sqrt 24⟩, 1, 2) = false := by
    unfold Circle.retainPred
    rw [if_neg (by simp)]
    apply decide_eq_false
    rw [show List.enum [(⟨⟨0, 0⟩, 5⟩ : Circle), ⟨⟨8, 0⟩, 5⟩, ⟨⟨4, 0⟩, 7⟩] =
      [(0, (⟨⟨0, 0⟩, 5⟩ : Circle)), (1, (⟨⟨8, 0⟩, 5⟩ : Circle)),
       (2, (⟨⟨4, 0⟩, 7⟩ : Circle))] from rfl]
    rw [List.filter_cons_of_neg (by simp [C2_d9a, sqrt105_not_lt_five]),
      List.filter_cons_of_neg (by simp),
      List.filter_cons_of_neg (by simp),
      List.filter_nil]
    norm_num
  have hn4 : Circle.retainPred [⟨⟨0, 0⟩, 5⟩, ⟨⟨8, 0⟩, 5⟩, ⟨⟨4, 0⟩, 7⟩] []
      (⟨9, -Real.sqrt 24⟩, 1, 2) = false := by
    unfold Circle.retainPred
    rw [if_neg (by simp)]
    apply decide_eq_false
    rw [show List.enum [(⟨⟨0, 0⟩, 5⟩ : Circle), ⟨⟨8, 0⟩, 5⟩, ⟨⟨4, 0⟩, 7⟩] =
      [(0, (⟨⟨0, 0⟩, 5⟩ : Circle)), (1, (⟨⟨8, 0⟩, 5⟩ : Circle)),
       (2, (⟨⟨4, 0⟩, 7⟩ : Circle))] from rfl]
    rw [List.filter_cons_of_neg (by simp [C2_d9b, sqrt105_not_lt_five]),
      List.filter_cons_of_neg (by simp),
      List.filter_cons_of_neg (by simp),
      List.filter_nil]
    norm_num
  have hrp : Circle.retainPoints [⟨⟨0, 0⟩, 5⟩, ⟨⟨8, 0⟩, 5⟩, ⟨⟨4, 0⟩, 7⟩] []
      [(⟨4, 3⟩, 0, 1), (⟨4, -3⟩, 0, 1), (⟨-1, -Real.sqrt 24⟩, 0, 2),
       (⟨-1, Real.sqrt 24⟩, 0, 2), (⟨9, Real.sqrt 24⟩, 1, 2),
       (⟨9, -Real.sqrt 24⟩, 1, 2)] =
      [(⟨4, 3⟩, 0, 1), (⟨4, -3⟩, 0, 1)] := by
    unfold Circle.retainPoints
    rw [List.filter_cons_of_pos hk1, List.filter_cons_of_pos hk2,
      List.filter_cons_of_neg (by rw [hn1]; simp),
      List.filter_cons_of_neg (by rw [hn2]; simp),
      List.filter_cons_of_neg (by rw [hn3]; simp),
      List.filter_cons_of_neg (by rw [hn4]; simp),
      List.filter_nil]
  unfold Circle.intersect_all
  simp only [hcp]
  rw [hrp]
  rw [if_neg (by norm_num), if_pos (by norm_num)]
  rfl

/-- `intersect_all [A,C,B]` also lands in the two-surviving-point
branch, but now the first and last non-ignored circles are A and B. -/
theorem C2_eval2 :
    Circle.intersect_all [⟨⟨0, 0⟩, 5⟩, ⟨⟨4, 0⟩, 7⟩, ⟨⟨8, 0⟩, 5⟩] =
      Circle.intersection_area ⟨⟨0, 0⟩, 5⟩ ⟨⟨8, 0⟩, 5⟩ := by
  have hcp : Circle.collectPairs
      (pairsLex (List.enum [(⟨⟨0, 0⟩, 5⟩ : Circle), ⟨⟨4, 0⟩, 7⟩, ⟨⟨8, 0⟩, 5⟩])) =
      some ([(⟨-1, -Real.sqrt 24⟩, 0, 1), (⟨-1, Real.sqrt 24⟩, 0, 1),
        (⟨4, 3⟩, 0, 2), (⟨4, -3⟩, 0, 2), (⟨9, Real.sqrt 24⟩, 1, 2),
        (⟨9, -Real.sqrt 24⟩, 1, 2)], []) := by
    rw [show pairsLex (List.enum [(⟨⟨0, 0⟩, 5⟩ : Circle), ⟨⟨4, 0⟩, 7⟩, ⟨⟨8, 0⟩, 5⟩]) =
      [((0, (⟨⟨0, 0⟩, 5⟩ : Circle)), (1, (⟨⟨4, 0⟩, 7⟩ : Circle))),
       ((0, (⟨⟨0, 0⟩, 5⟩ : Circle)), (2, (⟨⟨8, 0⟩, 5⟩ : Circle))),
       ((1, (⟨⟨4, 0⟩, 7⟩ : Circle)), (2, (⟨⟨8, 0⟩, 5⟩ : Circle)))] from rfl]
    simp only [Circle.collectPairs, C2_iAB, C2_iAC, C2_iCB, Option.map]
  have hk1 : Circle.retainPred [⟨⟨0, 0⟩, 5⟩, ⟨⟨4, 0⟩, 7⟩, ⟨⟨8, 0⟩, 5⟩] []
      (⟨4, 3⟩, 0, 2) = true := by
    unfold Circle.retainPred
    rw [if_neg (by simp)]
    apply decide_eq_true
    rw [show List.enum [(⟨⟨0, 0⟩, 5⟩ : Circle), ⟨⟨4, 0⟩, 7⟩, ⟨⟨8, 0⟩, 5⟩] =
      [(0, (⟨⟨0, 0⟩, 5⟩ : Circle)), (1, (⟨⟨4, 0⟩, 7⟩ : Circle)),
       (2, (⟨⟨8, 0⟩, 5⟩ : Circle))] from rfl]
    rw [List.filter_cons_of_neg (by simp),
      List.filter_cons_of_pos (by norm_num [C2_d43]),
      List.filter_cons_of_neg (by simp),
      List.filter_nil]
    rfl
  have hk2 : Circle.retainPred [⟨⟨0, 0⟩, 5⟩, ⟨⟨4, 0⟩, 7⟩, ⟨⟨8, 0⟩, 5⟩] []
      (⟨4, -3⟩, 0, 2) = true := by
    unfold Circle.retainPred
    rw [if_neg (by simp)]
    apply decide_eq_true
    rw [show List.enum [(⟨⟨0, 0⟩, 5⟩ : Circle), ⟨⟨4, 0⟩, 7⟩, ⟨⟨8, 0⟩, 5⟩] =
      [(0, (⟨⟨0, 0⟩, 5⟩ : Circle)), (1, (⟨⟨4, 0⟩, 7⟩ : Circle)),
       (2, (⟨⟨8, 0⟩, 5⟩ : Circle))] from rfl]
    rw [List.filter_cons_of_neg (by simp),
      List.filter_cons_of_pos (by norm_num [C2_d43m]),
      List.filter_cons_of_neg (by simp),
      List.filter_nil]
    rfl
  have hn1 : Circle.retainPred [⟨⟨0, 0⟩, 5⟩, ⟨⟨4, 0⟩, 7⟩, ⟨⟨8, 0⟩, 5⟩] []
      (⟨-1, -Real.sqrt 24⟩, 0, 1) = false := by
    unfold Circle.retainPred
    rw [if_neg (by simp)]
    apply decide_eq_false
    rw [show List.enum [(⟨⟨0, 0⟩, 5⟩ : Circle), ⟨⟨4, 0⟩, 7⟩, ⟨⟨8, 0⟩, 5⟩] =
      [(0, (⟨⟨0, 0⟩, 5⟩ : Circle)), (1, (⟨⟨4, 0⟩, 7⟩ : Circle)),
       (2, (⟨⟨8, 0⟩, 5⟩ : Circle))] from rfl]
    rw [List.filter_cons_of_neg (by simp),
      List.filter_cons_of_neg (by simp),
      List.filter_cons_of_neg (by simp [C2_dm1a, sqrt105_not_lt_five]),
      List.filter_nil]
    norm_num
  have hn2 : Circle.retainPred [⟨⟨0, 0⟩, 5⟩, ⟨⟨4, 0⟩, 7⟩, ⟨⟨8, 0⟩, 5⟩] []
      (⟨-1, Real.sqrt 24⟩, 0, 1) = false := by
    unfold Circle.retainPred
    rw [if_neg (by simp)]
    apply decide_eq_false
    rw [show List.enum [(⟨⟨0, 0⟩, 5⟩ : Circle), ⟨⟨4, 0⟩, 7⟩, ⟨⟨8, 0⟩, 5⟩] =
      [(0, (⟨⟨0, 0⟩, 5⟩ : Circle)), (1, (⟨⟨4, 0⟩, 7⟩ : Circle)),
       (2, (⟨⟨8, 0⟩, 5⟩ : Circle))] from rfl]
    rw [List.filter_cons_of_neg (by simp),
      List.filter_cons_of_neg (by simp),
      List.filter_cons_of_neg (by simp [C2_dm1b, sqrt105_not_lt_five]),
      List.filter_nil]
    norm_num
  have hn3 : Circle.retainPred [⟨⟨0, 0⟩, 5⟩, ⟨⟨4, 0⟩, 7⟩, ⟨⟨8, 0⟩, 5⟩] []
      (⟨9, Real.sqrt 24⟩, 1, 2) = false := by
    unfold Circle.retainPred
    rw [if_neg (by simp)]
    apply decide_eq_false
    rw [show List.enum [(⟨⟨0, 0⟩, 5⟩ : Circle), ⟨⟨4, 0⟩, 7⟩, ⟨⟨8, 0⟩, 5⟩] =
      [(0, (⟨⟨0, 0⟩, 5⟩ : Circle)), (1, (⟨⟨4, 0⟩, 7⟩ : Circle)),
       (2, (⟨⟨8, 0⟩, 5⟩ : Circle))] from rfl]
    rw [List.filter_cons_of_neg (by simp [C2_d9a, sqrt105_not_lt_five]),
      List.filter_cons_of_neg (by simp),
      List.filter_cons_of_neg (by simp),
      List.filter_nil]
    norm_num
  have hn4 : Circle.retainPred [⟨⟨0, 0⟩, 5⟩, ⟨⟨4, 0⟩, 7⟩, ⟨⟨8, 0⟩, 5⟩] []
      (⟨9, -Real.sqrt 24⟩, 1, 2) = false := by
    unfold Circle.retainPred
    rw [if_neg (by simp)]
    apply decide_eq_false
    rw [show List.enum [(⟨⟨0, 0⟩, 5⟩ : Circle), ⟨⟨4, 0⟩, 7⟩, ⟨⟨8, 0⟩, 5⟩] =
      [(0, (⟨⟨0, 0⟩, 5⟩ : Circle)), (1, (⟨⟨4, 0⟩, 7⟩ : Circle)),
       (2, (⟨⟨8, 0⟩, 5⟩ : Circle))] from rfl]
    rw [List.filter_cons_of_neg (by simp [C2_d9b, sqrt105_not_lt_five]),
      List.filter_cons_of_neg (by simp),
      List.filter_cons_of_neg (by simp),
      List.filter_nil]
    norm_num
  have hrp : Circle.retainPoints [⟨⟨0, 0⟩, 5⟩, ⟨⟨4, 0⟩, 7⟩, ⟨⟨8, 0⟩, 5⟩] []
      [(⟨-1, -Real.sqrt 24⟩, 0, 1), (⟨-1, Real.sqrt 24⟩, 0, 1),
       (⟨4, 3⟩, 0, 2), (⟨4, -3⟩, 0, 2), (⟨9, Real.sqrt 24⟩, 1, 2),
       (⟨9, -Real.sqrt 24⟩, 1, 2)] =
      [(⟨4, 3⟩, 0, 2), (⟨4, -3⟩, 0, 2)] := by
    unfold Circle.retainPoints
    rw [List.filter_cons_of_neg (by rw [hn1]; simp),
      List.filter_cons_of_neg (by rw [hn2]; simp),
      List.filter_cons_of_pos hk1, List.filter_cons_of_pos hk2,
      List.filter_cons_of_neg (by rw [hn3]; simp),
      List.filter_cons_of_neg (by rw [hn4]; simp),
      List.filter_nil]
  unfold Circle.intersect_all
  simp only [hcp]
  rw [hrp]
  rw [if_neg (by norm_num), if_pos (by norm_num)]
  rfl

theorem C2_sin_two_arcsin : Real.sin (2 * Real.arcsin (3 / 5)) = 24 / 25 := by
  rw [two_mul, Real.sin_add, Real.sin_arcsin (by norm_num) (by norm_num),
    Real.cos_arcsin]
  rw [show (1 : ℝ) - (3 / 5) ^ 2 = (4 / 5) ^ 2 by norm_num,
    Real.sqrt_sq (by norm_num)]
  ring

theorem C2_valAB :
    Circle.intersection_area ⟨⟨0, 0⟩, 5⟩ ⟨⟨8, 0⟩, 5⟩ =
      .ok (25 * (2 * Real.arcsin (3 / 5)) - 24) := by
  have hl : (⟨4, 3⟩ : Vec2).metric_distance ⟨4, -3⟩ = 6 := by
    rw [Vec2.metric_distance_eq]
    simp only [Vec2.mk_x, Vec2.mk_y]
    rw [show ((4 : ℝ) - 4) ^ 2 + ((3 : ℝ) - -3) ^ 2 = 6 ^ 2 by norm_num]
    exact Real.sqrt_sq (by norm_num)
  have hseg : Circle.segment_area 5 6 =
      .ok (12.5 * (2 * Real.arcsin (3 / 5)) - 12) := by
    simp only [Circle.segment_area]
    rw [if_neg (by norm_num)]
    rw [show (6 : ℝ) / (2 * 5) = 3 / 5 by norm_num, C2_sin_two_arcsin]
    congr 1
    ring
  unfold Circle.intersection_area
  simp only [C2_iAB]
  rw [hl]
  rw [if_pos trivial]
  rw [hseg, exBindOk, exBindOk]
  congr 1
  ring

theorem C2_valAC :
    Circle.intersection_area ⟨⟨0, 0⟩, 5⟩ ⟨⟨4, 0⟩, 7⟩ =
      .ok (0.5 * 7 * 7 * (2 * Real.arcsin (Real.sqrt 96 / 14) -
          Real.sin (2 * Real.arcsin (Real.sqrt 96 / 14))) +
        Real.pi * 5 * 5 -
        0.5 * 5 * 5 * (2 * Real.arcsin (Real.sqrt 96 / 10) -
          Real.sin (2 * Real.arcsin (Real.sqrt 96 / 10)))) := by
  have h24 : Real.sqrt 24 ^ 2 = 24 := Real.sq_sqrt (by norm_num)
  have hl : (⟨-1, -Real.sqrt 24⟩ : Vec2).metric_distance ⟨-1, Real.sqrt 24⟩ =
      Real.sqrt 96 := by
    rw [Vec2.metric_distance_eq]
    simp only [Vec2.mk_x, Vec2.mk_y]
    congr 1
    nlinarith [h24]
  have h96lt14 : Real.sqrt 96 < 14 := by
    rw [Real.sqrt_lt' (by norm_num)]
    norm_num
  have h96lt10 : Real.sqrt 96 < 10 := by
    rw [Real.sqrt_lt' (by norm_num)]
    norm_num
  have hseg7 : Circle.segment_area 7 (Real.sqrt 96) =
      .ok (0.5 * 7 * 7 * (2 * Real.arcsin (Real.sqrt 96 / 14) -
        Real.sin (2 * Real.arcsin (Real.sqrt 96 / 14)))) := by
    simp only [Circle.segment_area]
    rw [if_neg (by push_neg; linarith)]
    rw [show (2 : ℝ) * 7 = 14 by norm_num]
  have hseg5 : Circle.segment_area 5 (Real.sqrt 96) =
      .ok (0.5 * 5 * 5 * (2 * Real.arcsin (Real.sqrt 96 / 10) -
        Real.sin (2 * Real.arcsin (Real.sqrt 96 / 10)))) := by
    simp only [Circle.segment_area]
    rw [if_neg (by push_neg; linarith)]
    rw [show (2 : ℝ) * 5 = 10 by norm_num]
  unfold Circle.intersection_area
  simp only [C2_iAC]
  rw [hl]
  rw [if_neg (by simp)]
  rw [if_pos (by norm_num)]
  rw [hseg7, exBindOk, hseg5, exBindOk]

/-- C2: the claimed permutation invariance of `intersect_all` is false.
With A = ((0,0),5), B = ((8,0),5), C = ((4,0),7), the two-surviving-point
fallback returns the pairwise lens of the first and the *last*
non-ignored circle, so `[A,B,C]` yields area(A ∩ C) while the
permutation `[A,C,B]` yields area(A ∩ B), and these values differ. -/
theorem C2_counterexample :
    Circle.intersect_all [⟨⟨0, 0⟩, 5⟩, ⟨⟨8, 0⟩, 5⟩, ⟨⟨4, 0⟩, 7⟩] ≠
      Circle.intersect_all [⟨⟨0, 0⟩, 5⟩, ⟨⟨4, 0⟩, 7⟩, ⟨⟨8, 0⟩, 5⟩] := by
  rw [C2_eval1, C2_eval2, C2_valAC, C2_valAB]
  intro h
  have hv := Except.ok.inj h
  have hpi := Real.pi_lt_d2
  have hpi0 := Real.pi_pos
  set t7 := 2 * Real.arcsin (Real.sqrt 96 / 14) with ht7
  set t5 := 2 * Real.arcsin (Real.sqrt 96 / 10) with ht5
  set t := 2 * Real.arcsin (3 / 5) with ht
  have h96nn : (0 : ℝ) ≤ Real.sqrt 96 := Real.sqrt_nonneg _
  have ht7nn : 0 ≤ t7 := by
    rw [ht7]
    have := Real.arcsin_nonneg.mpr (show (0 : ℝ) ≤ Real.sqrt 96 / 14 by positivity)
    linarith
  have hs7 : Real.sin t7 ≤ t7 := by
    rcases eq_or_lt_of_le ht7nn with h0 | h0
    · rw [← h0]
      simp
    · exact le_of_lt (Real.sin_lt h0)
  have h96lt10 : Real.sqrt 96 < 10 := by
    rw [Real.sqrt_lt' (by norm_num)]
    norm_num
  have ht5nn : 0 ≤ t5 := by
    rw [ht5]
    have := Real.arcsin_nonneg.mpr (show (0 : ℝ) ≤ Real.sqrt 96 / 10 by positivity)
    linarith
  have ht5pi : t5 < Real.pi := by
    rw [ht5]
    have := Real.arcsin_lt_pi_div_two.mpr (show Real.sqrt 96 / 10 < 1 by linarith)
    linarith
  have hs5 : 0 ≤ Real.sin t5 :=
    Real.sin_nonneg_of_nonneg_of_le_pi ht5nn (le_of_lt ht5pi)
  have harc : Real.arcsin (3 / 5) < Real.pi / 3 := by
    rw [Real.arcsin_lt_iff_lt_sin (Set.mem_Icc.mpr ⟨by norm_num, by norm_num⟩)
      (Set.mem_Icc.mpr ⟨by linarith, by linarith⟩)]
    rw [Real.sin_pi_div_three]
    nlinarith [Real.sq_sqrt (show (0 : ℝ) ≤ 3 by norm_num), Real.sqrt_nonneg 3]
  have htlt : t < 2 * Real.pi / 3 := by
    rw [ht]
    linarith
  have hABlt : 25 * t - 24 < 12.5 * Real.pi := by nlinarith
  have hACgt : 12.5 * Real.pi <
      0.5 * 7 * 7 * (t7 - Real.sin t7) + Real.pi * 5 * 5 -
        0.5 * 5 * 5 * (t5 - Real.sin t5) := by nlinarith
  linarith [hv.symm.le]

/-- Two circles that each contain the other are equal. -/
theorem eq_of_insides (a b : Circle) (h2 : a.distance b + b.r ≤ a.r)
    (h2' : a.distance b + a.r ≤ b.r) : a = b := by
  have hdnn : 0 ≤ a.distance b := Vec2.metric_distance_nonneg _ _
  have hd : a.distance b = 0 := le_antisymm (by linarith) hdnn
  have hrr : a.r = b.r := le_antisymm (by linarith) (by linarith)
  have hsq : (a.origin.x - b.origin.x) ^ 2 + (a.origin.y - b.origin.y) ^ 2 = 0 := by
    have h0 := hd
    rw [Circle.distance, Vec2.metric_distance_eq, Real.sqrt_eq_zero'] at h0
    have hnn : 0 ≤ (a.origin.x - b.origin.x) ^ 2 + (a.origin.y - b.origin.y) ^ 2 := by
      positivity
    linarith
  have hx : a.origin.x = b.origin.x := by
    nlinarith [sq_nonneg (a.origin.x - b.origin.x), sq_nonneg (a.origin.y - b.origin.y)]
  have hy : a.origin.y = b.origin.y := by
    nlinarith [sq_nonneg (a.origin.x - b.origin.x), sq_nonneg (a.origin.y - b.origin.y)]
  exact Circle.ext (Vec2.ext hx hy) hrr

/-- Swapping the two `segment_area` computations of the far-side branch
does not change the result (the only possible error is the single chord
message, so even failing runs agree). -/
theorem segSum_comm (r1 r2 l : ℝ) :
    (Circle.segment_area r1 l >>= fun s1 =>
      Circle.segment_area r2 l >>= fun s2 => Except.ok (s1 + s2)) =
    (Circle.segment_area r2 l >>= fun s1 =>
      Circle.segment_area r1 l >>= fun s2 => Except.ok (s1 + s2)) := by
  simp only [Circle.segment_area]
  by_cases h1 : l > 2 * r1
  · by_cases h2 : l > 2 * r2
    · rw [if_pos h1, if_pos h2]
    · rw [if_pos h1, if_neg h2]
      rfl
  · by_cases h2 : l > 2 * r2
    · rw [if_neg h1, if_pos h2]
      rfl
    · rw [if_neg h1, if_neg h2]
      rw [exBindOk, exBindOk, exBindOk, exBindOk]
      congr 1
      ring

/-- With distinct radii the crossing branch is literally symmetric: the
radius sort picks the same (smaller, larger) pair either way. -/
theorem intersectCrossing_comm_of_ne (a b : Circle) (hr : a.r ≠ b.r) :
    Circle.intersectCrossing a b = Circle.intersectCrossing b a := by
  simp only [Circle.intersectCrossing]
  rw [Circle.distance_comm b a]
  rcases lt_or_gt_of_ne hr with h | h
  · rw [if_pos h, if_neg (not_lt.mpr h.le)]
  · rw [if_neg (not_lt.mpr h.le), if_pos h]

/-- With equal radii the radius sort flips, and the two crossing points
come out in the opposite order (the `nearside` flag is unchanged). -/
theorem intersectCrossing_swap (a b : Circle) (hr : a.r = b.r)
    (hd : a.distance b ≠ 0) :
    ∃ A B ns, Circle.intersectCrossing a b = .intersect A B ns ∧
      Circle.intersectCrossing b a = .intersect B A ns := by
  have hdnn : 0 ≤ a.distance b := Vec2.metric_distance_nonneg _ _
  have hdpos : 0 < a.distance b := lt_of_le_of_ne hdnn (Ne.symm hd)
  set d := a.distance b with hdd
  set H := Real.sqrt (a.r * a.r - d / 2 * (d / 2)) with hH
  refine ⟨⟨(a.origin.x + b.origin.x) / 2 - (b.origin.y - a.origin.y) * H / d,
      (a.origin.y + b.origin.y) / 2 + (b.origin.x - a.origin.x) * H / d⟩,
    ⟨(a.origin.x + b.origin.x) / 2 + (b.origin.y - a.origin.y) * H / d,
      (a.origin.y + b.origin.y) / 2 - (b.origin.x - a.origin.x) * H / d⟩,
    decide (d / 2 > d), ?_, ?_⟩
  · refine Circle.intersectCrossing_formula a b b a
      (if_neg (by rw [hr]; exact lt_irrefl _)) d (d / 2) H (d / 2) rfl
      ?_ hH.symm ?_
      ⟨(b.origin.x - a.origin.x) / d, (b.origin.y - a.origin.y) / d⟩ ?_
      _ _ ?_ ?_ _ rfl
    · rw [hr]; field_simp; ring
    · rw [show a.r * a.r - (a.r * a.r - d / 2 * (d / 2)) = (d / 2) ^ 2 by ring]
      exact Real.sqrt_sq (by linarith)
    · show Vec2.normalize _ = _
      unfold Vec2.normalize
      rw [show (b.origin.sub a.origin).norm =
          b.origin.metric_distance a.origin from rfl,
        Vec2.metric_distance_comm]
      rfl
    · apply Vec2.ext <;>
        (simp only [Vec2.add, Vec2.smul, Vec2.sub, Vec2.mk_x, Vec2.mk_y]
         field_simp <;>
           first
           | ring1
           | exact Or.inl (by ring))
    · apply Vec2.ext <;>
        (simp only [Vec2.add, Vec2.smul, Vec2.sub, Vec2.mk_x, Vec2.mk_y]
         field_simp <;>
           first
           | ring1
           | exact Or.inl (by ring))
  · refine Circle.intersectCrossing_formula b a a b
      (if_neg (by rw [hr]; exact lt_irrefl _)) d (d / 2) H (d / 2)
      (Circle.distance_comm b a)
      ?_ ?_ ?_
      ⟨(a.origin.x - b.origin.x) / d, (a.origin.y - b.origin.y) / d⟩ ?_
      _ _ ?_ ?_ _ rfl
    · rw [hr]; field_simp; ring
    · rw [hH, hr]
    · rw [show b.r * b.r - (b.r * b.r - d / 2 * (d / 2)) = (d / 2) ^ 2 by ring]
      exact Real.sqrt_sq (by linarith)
    · show Vec2.normalize _ = _
      rfl
    · apply Vec2.ext <;>
        (simp only [Vec2.add, Vec2.smul, Vec2.sub, Vec2.mk_x, Vec2.mk_y]
         field_simp <;>
           first
           | ring1
           | exact Or.inl (by ring))
    · apply Vec2.ext <;>
        (simp only [Vec2.add, Vec2.smul, Vec2.sub, Vec2.mk_x, Vec2.mk_y]
         field_simp <;>
           first
           | ring1
           | exact Or.inl (by ring))

/-- The pairwise lens area is symmetric in its two circles. -/
theorem intersection_area_comm (a b : Circle) :
    Circle.intersection_area a b = Circle.intersection_area b a := by
  by_cases hab : a = b
  · rw [hab]
  have hdba : b.distance a = a.distance b := Circle.distance_comm b a
  by_cases h1 : a.distance b > a.r + b.r
  · have h1' : b.distance a > b.r + a.r := by rw [hdba]; linarith
    unfold Circle.intersection_area
    simp only [Circle.intersect_of_gt a b h1, Circle.intersect_of_gt b a h1']
  · have h1' : ¬ b.distance a > b.r + a.r := by
      rw [hdba]
      intro hc
      exact h1 (by linarith)
    by_cases h2 : a.distance b + b.r ≤ a.r
    · by_cases h2' : a.distance b + a.r ≤ b.r
      · exact absurd (eq_of_insides a b h2 h2') hab
      · have hiab := Circle.intersect_of_inside_other a b h1 h2
        have hiba := Circle.intersect_of_inside_self b a h1'
          (by rw [hdba]; exact h2') (by rw [hdba]; exact h2)
        unfold Circle.intersection_area
        simp only [hiab, hiba]
    · by_cases h3 : a.distance b + a.r ≤ b.r
      · have hiab := Circle.intersect_of_inside_self a b h1 h2 h3
        have hiba := Circle.intersect_of_inside_other b a h1' (by rw [hdba]; exact h3)
        unfold Circle.intersection_area
        simp only [hiab, hiba]
      · have hd0 : a.distance b ≠ 0 := by
          intro hdz
          rcases le_total b.r a.r with h | h
          · exact h2 (by rw [hdz]; linarith)
          · exact h3 (by rw [hdz]; linarith)
        have hiab := Circle.intersect_of_crossing a b h1 h2 h3 hd0
        have hiba := Circle.intersect_of_crossing b a h1' (by rw [hdba]; exact h3)
          (by rw [hdba]; exact h2) (by rw [hdba]; exact hd0)
        by_cases hrr : a.r = b.r
        · obtain ⟨A, B, ns, hCab, hCba⟩ := intersectCrossing_swap a b hrr hd0
          have hiab' := hiab.trans hCab
          have hiba' := hiba.trans hCba
          unfold Circle.intersection_area
          simp only [hiab', hiba']
          rw [Vec2.metric_distance_comm B A]
          cases ns
          · rw [if_pos (show (false = false) from rfl),
              if_pos (show (false = false) from rfl), hrr]
          · rw [if_neg (show ¬(true = false) by simp),
              if_neg (show ¬(true = false) by simp),
              if_neg (show ¬(a.r < b.r) by rw [hrr]; exact lt_irrefl _),
              if_neg (show ¬(b.r < a.r) by rw [hrr]; exact lt_irrefl _)]
            simp only []
            rw [hrr]
        · have hCC := intersectCrossing_comm_of_ne a b hrr
          obtain ⟨p, q, ns, hC⟩ :
              ∃ p q ns, Circle.intersectCrossing a b = .intersect p q ns :=
            ⟨_, _, _, rfl⟩
          have hiab' := hiab.trans hC
          have hiba' := hiba.trans (hCC.symm.trans hC)
          unfold Circle.intersection_area
          simp only [hiab', hiba']
          cases ns
          · rw [if_pos (show (false = false) from rfl),
              if_pos (show (false = false) from rfl)]
            exact segSum_comm a.r b.r (p.metric_distance q)
          · rw [if_neg (show ¬(true = false) by simp),
              if_neg (show ¬(true = false) by simp)]
            rcases lt_or_gt_of_ne hrr with h | h
            · rw [if_pos h, if_neg (not_lt.mpr h.le)]
            · rw [if_neg (not_lt.mpr h.le), if_pos h]

/-- A disjoint pair makes `intersect_all` return 0 early. -/
theorem intersect_all_pair_none (a b : Circle)
    (h : a.intersect b = Intersection.none) :
    Circle.intersect_all [a, b] = .ok 0 := by
  have hcp : Circle.collectPairs (pairsLex (List.enum [a, b])) = Option.none := by
    rw [show pairsLex (List.enum [a, b]) = [((0, a), (1, b))] from rfl]
    simp only [Circle.collectPairs, h]
  unfold Circle.intersect_all
  simp only [hcp]

/-- A pair whose first circle is dominated ignores the second (outer)
circle and returns the first circle's full area. -/
theorem intersect_all_pair_inside_self (a b : Circle)
    (h : a.intersect b = Intersection.inside a) :
    Circle.intersect_all [a, b] = .ok a.area := by
  have hcp : Circle.collectPairs (pairsLex (List.enum [a, b])) =
      some ([], [1]) := by
    rw [show pairsLex (List.enum [a, b]) = [((0, a), (1, b))] from rfl]
    simp only [Circle.collectPairs, h, Option.map]
    rw [if_pos trivial]
  unfold Circle.intersect_all
  simp only [hcp]
  rw [show Circle.retainPoints [a, b] [1] [] = [] from rfl]
  rw [if_neg (by norm_num), if_neg (by norm_num)]
  rfl

/-- A pair whose second circle is dominated ignores the first (outer)
circle and returns the second circle's full area. -/
theorem intersect_all_pair_inside_other (a b : Circle)
    (h : a.intersect b = Intersection.inside b) (hne : b ≠ a) :
    Circle.intersect_all [a, b] = .ok b.area := by
  have hcp : Circle.collectPairs (pairsLex (List.enum [a, b])) =
      some ([], [0]) := by
    rw [show pairsLex (List.enum [a, b]) = [((0, a), (1, b))] from rfl]
    simp only [Circle.collectPairs, h, Option.map]
    rw [if_neg hne]
  unfold Circle.intersect_all
  simp only [hcp]
  rw [show Circle.retainPoints [a, b] [0] [] = [] from rfl]
  rw [if_neg (by norm_num), if_neg (by norm_num)]
  rfl

/-- A crossing pair funnels into the two-point branch, which returns the
pairwise lens of the two circles. -/
theorem intersect_all_pair_crossing (a b : Circle) (p q : Vec2) (ns : Bool)
    (h : a.intersect b = Intersection.intersect p q ns) :
    Circle.intersect_all [a, b] = Circle.intersection_area a b := by
  have hcp : Circle.collectPairs (pairsLex (List.enum [a, b])) =
      some ([(p, 0, 1), (q, 0, 1)], []) := by
    rw [show pairsLex (List.enum [a, b]) = [((0, a), (1, b))] from rfl]
    simp only [Circle.collectPairs, h, Option.map]
  have hr1 : Circle.retainPred [a, b] [] (p, 0, 1) = true := by
    unfold Circle.retainPred
    rw [if_neg (by simp)]
    apply decide_eq_true
    rw [show List.enum [a, b] = [(0, a), (1, b)] from rfl]
    rw [List.filter_cons_of_neg (by simp), List.filter_cons_of_neg (by simp),
      List.filter_nil]
    simp
  have hr2 : Circle.retainPred [a, b] [] (q, 0, 1) = true := by
    unfold Circle.retainPred
    rw [if_neg (by simp)]
    apply decide_eq_true
    rw [show List.enum [a, b] = [(0, a), (1, b)] from rfl]
    rw [List.filter_cons_of_neg (by simp), List.filter_cons_of_neg (by simp),
      List.filter_nil]
    simp
  have hrp : Circle.retainPoints [a, b] [] [(p, 0, 1), (q, 0, 1)] =
      [(p, 0, 1), (q, 0, 1)] := by
    unfold Circle.retainPoints
    rw [List.filter_cons_of_pos hr1, List.filter_cons_of_pos hr2,
      List.filter_nil]
  unfold Circle.intersect_all
  simp only [hcp]
  rw [hrp]
  rw [if_neg (by norm_num), if_pos (by norm_num)]
  rfl

/-- C2 (amended): `intersect_all` is not order-independent in general —
see the counterexample, where the two-point fallback picks the first and
the last non-ignored circle, so with three or more circles the returned
pairwise lens can change under permutation.  Order independence does hold
for two-circle lists: swapping the two inputs never changes the result. -/
theorem C2_amended (a b : Circle) :
    Circle.intersect_all [a, b] = Circle.intersect_all [b, a] := by
  by_cases hab : a = b
  · rw [hab]
  have hdba : b.distance a = a.distance b := Circle.distance_comm b a
  by_cases h1 : a.distance b > a.r + b.r
  · have h1' : b.distance a > b.r + a.r := by rw [hdba]; linarith
    rw [intersect_all_pair_none a b (Circle.intersect_of_gt a b h1),
      intersect_all_pair_none b a (Circle.intersect_of_gt b a h1')]
  · have h1' : ¬ b.distance a > b.r + a.r := by
      rw [hdba]
      intro hc
      exact h1 (by linarith)
    by_cases h2 : a.distance b + b.r ≤ a.r
    · by_cases h2' : a.distance b + a.r ≤ b.r
      · exact absurd (eq_of_insides a b h2 h2') hab
      · have hiab := Circle.intersect_of_inside_other a b h1 h2
        have hiba := Circle.intersect_of_inside_self b a h1'
          (by rw [hdba]; exact h2') (by rw [hdba]; exact h2)
        rw [intersect_all_pair_inside_other a b hiab (fun hc => hab hc.symm),
          intersect_all_pair_inside_self b a hiba]
    · by_cases h3 : a.distance b + a.r ≤ b.r
      · have hiab := Circle.intersect_of_inside_self a b h1 h2 h3
        have hiba := Circle.intersect_of_inside_other b a h1'
          (by rw [hdba]; exact h3)
        rw [intersect_all_pair_inside_self a b hiab,
          intersect_all_pair_inside_other b a hiba hab]
      · have hd0 : a.distance b ≠ 0 := by
          intro hdz
          rcases le_total b.r a.r with h | h
          · exact h2 (by rw [hdz]; linarith)
          · exact h3 (by rw [hdz]; linarith)
        have hiab := Circle.intersect_of_crossing a b h1 h2 h3 hd0
        have hiba := Circle.intersect_of_crossing b a h1' (by rw [hdba]; exact h3)
          (by rw [hdba]; exact h2) (by rw [hdba]; exact hd0)
        obtain ⟨p, q, ns, hC⟩ :
            ∃ p q ns, Circle.intersectCrossing a b = .intersect p q ns :=
          ⟨_, _, _, rfl⟩
        obtain ⟨p', q', ns', hC'⟩ :
            ∃ p q ns, Circle.intersectCrossing b a = .intersect p q ns :=
          ⟨_, _, _, rfl⟩
        rw [intersect_all_pair_crossing a b p q ns (hiab.trans hC),
          intersect_all_pair_crossing b a p' q' ns' (hiba.trans hC')]
        exact intersection_area_comm a b

/-- Pair (A,D) of the C3 configuration, D = ((7/4,0),15/4) through the
lens vertices of A and B: crossing exactly at (4,±3). -/
theorem C3_iAD : Circle.intersect ⟨⟨0, 0⟩, 5⟩ ⟨⟨7 / 4, 0⟩, 15 / 4⟩ =
    .intersect ⟨4, 3⟩ ⟨4, -3⟩ true := by
  have hd : Circle.distance ⟨⟨0, 0⟩, 5⟩ ⟨⟨7 / 4, 0⟩, 15 / 4⟩ = 7 / 4 := by
    rw [Circle.distance, Vec2.metric_distance_eq]
    rw [show ((0 : ℝ) - 7 / 4) ^ 2 + ((0 : ℝ) - 0) ^ 2 = (7 / 4) ^ 2 by norm_num]
    exact Real.sqrt_sq (by norm_num)
  rw [Circle.intersect_of_crossing _ _ (by rw [hd]; norm_num)
    (by rw [hd]; norm_num) (by rw [hd]; norm_num) (by rw [hd]; norm_num)]
  refine Circle.intersectCrossing_formula _ _ ⟨⟨7 / 4, 0⟩, 15 / 4⟩ ⟨⟨0, 0⟩, 5⟩ ?_
    (7 / 4) 4 3 4 hd ?_ ?_ ?_ ⟨1, 0⟩ ?_ ⟨4, 3⟩ ⟨4, -3⟩ ?_ ?_ true ?_
  · rw [if_neg (by norm_num)]
  · norm_num
  · rw [show (5 : ℝ) * 5 - 4 * 4 = 3 ^ 2 by norm_num]
    exact Real.sqrt_sq (by norm_num)
  · rw [show (5 : ℝ) * 5 - ((5 : ℝ) * 5 - 4 * 4) = 4 ^ 2 by norm_num]
    exact Real.sqrt_sq (by norm_num)
  · simp only [Vec2.sub, Vec2.normalize, Vec2.norm, Vec2.mk_x, Vec2.mk_y]
    rw [show ((7 : ℝ) / 4 - 0) ^ 2 + ((0 : ℝ) - 0) ^ 2 = (7 / 4) ^ 2 by norm_num,
      Real.sqrt_sq (by norm_num)]
    norm_num [Vec2.mk.injEq]
  · simp only [Vec2.add, Vec2.smul, Vec2.mk_x, Vec2.mk_y]
    norm_num [Vec2.mk.injEq]
  · simp only [Vec2.add, Vec2.smul, Vec2.mk_x, Vec2.mk_y]
    norm_num [Vec2.mk.injEq]
  · exact decide_eq_true (by norm_num)

/-- Pair (B,D) of the C3 configuration: crossing at the same two lens
vertices, listed in the opposite order. -/
theorem C3_iBD : Circle.intersect ⟨⟨8, 0⟩, 5⟩ ⟨⟨7 / 4, 0⟩, 15 / 4⟩ =
    .intersect ⟨4, -3⟩ ⟨4, 3⟩ false := by
  have hd : Circle.distance ⟨⟨8, 0⟩, 5⟩ ⟨⟨7 / 4, 0⟩, 15 / 4⟩ = 25 / 4 := by
    rw [Circle.distance, Vec2.metric_distance_eq]
    rw [show ((8 : ℝ) - 7 / 4) ^ 2 + ((0 : ℝ) - 0) ^ 2 = (25 / 4) ^ 2 by norm_num]
    exact Real.sqrt_sq (by norm_num)
  rw [Circle.intersect_of_crossing _ _ (by rw [hd]; norm_num)
    (by rw [hd]; norm_num) (by rw [hd]; norm_num) (by rw [hd]; norm_num)]
  refine Circle.intersectCrossing_formula _ _ ⟨⟨7 / 4, 0⟩, 15 / 4⟩ ⟨⟨8, 0⟩, 5⟩ ?_
    (25 / 4) 4 3 4 hd ?_ ?_ ?_ ⟨-1, 0⟩ ?_ ⟨4, -3⟩ ⟨4, 3⟩ ?_ ?_ false ?_
  · rw [if_neg (by norm_num)]
  · norm_num
  · rw [show (5 : ℝ) * 5 - 4 * 4 = 3 ^ 2 by norm_num]
    exact Real.sqrt_sq (by norm_num)
  · rw [show (5 : ℝ) * 5 - ((5 : ℝ) * 5 - 4 * 4) = 4 ^ 2 by norm_num]
    exact Real.sqrt_sq (by norm_num)
  · simp only [Vec2.sub, Vec2.normalize, Vec2.norm, Vec2.mk_x, Vec2.mk_y]
    rw [show ((7 : ℝ) / 4 - 8) ^ 2 + ((0 : ℝ) - 0) ^ 2 = (25 / 4) ^ 2 by norm_num,
      Real.sqrt_sq (by norm_num)]
    norm_num [Vec2.mk.injEq]
  · simp only [Vec2.add, Vec2.smul, Vec2.mk_x, Vec2.mk_y]
    norm_num [Vec2.mk.injEq]
  · simp only [Vec2.add, Vec2.smul, Vec2.mk_x, Vec2.mk_y]
    norm_num [Vec2.mk.injEq]
  · exact decide_eq_false (by norm_num)

theorem C3_d43D : Vec2.metric_distance ⟨4, 3⟩ ⟨7 / 4, 0⟩ = 15 / 4 := by
  rw [Vec2.metric_distance_eq,
    show ((4 : ℝ) - 7 / 4) ^ 2 + ((3 : ℝ) - 0) ^ 2 = (15 / 4) ^ 2 by norm_num]
  exact Real.sqrt_sq (by norm_num)

theorem C3_d43mD : Vec2.metric_distance ⟨4, -3⟩ ⟨7 / 4, 0⟩ = 15 / 4 := by
  rw [Vec2.metric_distance_eq,
    show ((4 : ℝ) - 7 / 4) ^ 2 + ((-3 : ℝ) - 0) ^ 2 = (15 / 4) ^ 2 by norm_num]
  exact Real.sqrt_sq (by norm_num)

theorem C3_d43B : Vec2.metric_distance ⟨4, 3⟩ ⟨8, 0⟩ = 5 := by
  rw [Vec2.metric_distance_eq,
    show ((4 : ℝ) - 8) ^ 2 + ((3 : ℝ) - 0) ^ 2 = 5 ^ 2 by norm_num]
  exact Real.sqrt_sq (by norm_num)

theorem C3_d43mB : Vec2.metric_distance ⟨4, -3⟩ ⟨8, 0⟩ = 5 := by
  rw [Vec2.metric_distance_eq,
    show ((4 : ℝ) - 8) ^ 2 + ((-3 : ℝ) - 0) ^ 2 = 5 ^ 2 by norm_num]
  exact Real.sqrt_sq (by norm_num)

theorem C3_d43A : Vec2.metric_distance ⟨4, 3⟩ ⟨0, 0⟩ = 5 := by
  rw [Vec2.metric_distance_eq,
    show ((4 : ℝ) - 0) ^ 2 + ((3 : ℝ) - 0) ^ 2 = 5 ^ 2 by norm_num]
  exact Real.sqrt_sq (by norm_num)

theorem C3_d43mA : Vec2.metric_distance ⟨4, -3⟩ ⟨0, 0⟩ = 5 := by
  rw [Vec2.metric_distance_eq,
    show ((4 : ℝ) - 0) ^ 2 + ((-3 : ℝ) - 0) ^ 2 = 5 ^ 2 by norm_num]
  exact Real.sqrt_sq (by norm_num)

/-- With D through both lens vertices, every candidate point fails the
strict interiority test and `intersect_all` collapses to 0. -/
theorem C3_eval :
    Circle.intersect_all [⟨⟨0, 0⟩, 5⟩, ⟨⟨8, 0⟩, 5⟩, ⟨⟨7 / 4, 0⟩, 15 / 4⟩] =
      .ok 0 := by
  have hcp : Circle.collectPairs
      (pairsLex (List.enum [(⟨⟨0, 0⟩, 5⟩ : Circle), ⟨⟨8, 0⟩, 5⟩,
        ⟨⟨7 / 4, 0⟩, 15 / 4⟩])) =
      some ([(⟨4, 3⟩, 0, 1), (⟨4, -3⟩, 0, 1), (⟨4, 3⟩, 0, 2), (⟨4, -3⟩, 0, 2),
        (⟨4, -3⟩, 1, 2), (⟨4, 3⟩, 1, 2)], []) := by
    rw [show pairsLex (List.enum [(⟨⟨0, 0⟩, 5⟩ : Circle), ⟨⟨8, 0⟩, 5⟩,
        ⟨⟨7 / 4, 0⟩, 15 / 4⟩]) =
      [((0, (⟨⟨0, 0⟩, 5⟩ : Circle)), (1, (⟨⟨8, 0⟩, 5⟩ : Circle))),
       ((0, (⟨⟨0, 0⟩, 5⟩ : Circle)), (2, (⟨⟨7 / 4, 0⟩, 15 / 4⟩ : Circle))),
       ((1, (⟨⟨8, 0⟩, 5⟩ : Circle)), (2, (⟨⟨7 / 4, 0⟩, 15 / 4⟩ : Circle)))]
      from rfl]
    simp only [Circle.collectPairs, C2_iAB, C3_iAD, C3_iBD, Option.map]
  have hn1 : Circle.retainPred [⟨⟨0, 0⟩, 5⟩, ⟨⟨8, 0⟩, 5⟩, ⟨⟨7 / 4, 0⟩, 15 / 4⟩]
      [] (⟨4, 3⟩, 0, 1) = false := by
    unfold Circle.retainPred
    rw [if_neg (by simp)]
    apply decide_eq_false
    rw [show List.enum [(⟨⟨0, 0⟩, 5⟩ : Circle), ⟨⟨8, 0⟩, 5⟩,
        ⟨⟨7 / 4, 0⟩, 15 / 4⟩] =
      [(0, (⟨⟨0, 0⟩, 5⟩ : Circle)), (1, (⟨⟨8, 0⟩, 5⟩ : Circle)),
       (2, (⟨⟨7 / 4, 0⟩, 15 / 4⟩ : Circle))] from rfl]
    rw [List.filter_cons_of_neg (by simp), List.filter_cons_of_neg (by simp),
      List.filter_cons_of_neg (by simp [C3_d43D]), List.filter_nil]
    norm_num
  have hn2 : Circle.retainPred [⟨⟨0, 0⟩, 5⟩, ⟨⟨8, 0⟩, 5⟩, ⟨⟨7 / 4, 0⟩, 15 / 4⟩]
      [] (⟨4, -3⟩, 0, 1) = false := by
    unfold Circle.retainPred
    rw [if_neg (by simp)]
    apply decide_eq_false
    rw [show List.enum [(⟨⟨0, 0⟩, 5⟩ : Circle), ⟨⟨8, 0⟩, 5⟩,
        ⟨⟨7 / 4, 0⟩, 15 / 4⟩] =
      [(0, (⟨⟨0, 0⟩, 5⟩ : Circle)), (1, (⟨⟨8, 0⟩, 5⟩ : Circle)),
       (2, (⟨⟨7 / 4, 0⟩, 15 / 4⟩ : Circle))] from rfl]
    rw [List.filter_cons_of_neg (by simp), List.filter_cons_of_neg (by simp),
      List.filter_cons_of_neg (by simp [C3_d43mD]), List.filter_nil]
    norm_num
  have hn3 : Circle.retainPred [⟨⟨0, 0⟩, 5⟩, ⟨⟨8, 0⟩, 5⟩, ⟨⟨7 / 4, 0⟩, 15 / 4⟩]
      [] (⟨4, 3⟩, 0, 2) = false := by
    unfold Circle.retainPred
    rw [if_neg (by simp)]
    apply decide_eq_false
    rw [show List.enum [(⟨⟨0, 0⟩, 5⟩ : Circle), ⟨⟨8, 0⟩, 5⟩,
        ⟨⟨7 / 4, 0⟩, 15 / 4⟩] =
      [(0, (⟨⟨0, 0⟩, 5⟩ : Circle)), (1, (⟨⟨8, 0⟩, 5⟩ : Circle)),
       (2, (⟨⟨7 / 4, 0⟩, 15 / 4⟩ : Circle))] from rfl]
    rw [List.filter_cons_of_neg (by simp), List.filter_cons_of_neg (by simp [C3_d43B]),
      List.filter_cons_of_neg (by simp), List.filter_nil]
    norm_num
  have hn4 : Circle.retainPred [⟨⟨0, 0⟩, 5⟩, ⟨⟨8, 0⟩, 5⟩, ⟨⟨7 / 4, 0⟩, 15 / 4⟩]
      [] (⟨4, -3⟩, 0, 2) = false := by
    unfold Circle.retainPred
    rw [if_neg (by simp)]
    apply decide_eq_false
    rw [show List.enum [(⟨⟨0, 0⟩, 5⟩ : Circle), ⟨⟨8, 0⟩, 5⟩,
        ⟨⟨7 / 4, 0⟩, 15 / 4⟩] =
      [(0, (⟨⟨0, 0⟩, 5⟩ : Circle)), (1, (⟨⟨8, 0⟩, 5⟩ : Circle)),
       (2, (⟨⟨7 / 4, 0⟩, 15 / 4⟩ : Circle))] from rfl]
    rw [List.filter_cons_of_neg (by simp), List.filter_cons_of_neg (by simp [C3_d43mB]),
      List.filter_cons_of_neg (by simp), List.filter_nil]
    norm_num
  have hn5 : Circle.retainPred [⟨⟨0, 0⟩, 5⟩, ⟨⟨8, 0⟩, 5⟩, ⟨⟨7 / 4, 0⟩, 15 / 4⟩]
      [] (⟨4, -3⟩, 1, 2) = false := by
    unfold Circle.retainPred
    rw [if_neg (by simp)]
    apply decide_eq_false
    rw [show List.enum [(⟨⟨0, 0⟩, 5⟩ : Circle), ⟨⟨8, 0⟩, 5⟩,
        ⟨⟨7 / 4, 0⟩, 15 / 4⟩] =
      [(0, (⟨⟨0, 0⟩, 5⟩ : Circle)), (1, (⟨⟨8, 0⟩, 5⟩ : Circle)),
       (2, (⟨⟨7 / 4, 0⟩, 15 / 4⟩ : Circle))] from rfl]
    rw [List.filter_cons_of_neg (by simp [C3_d43mA]),
      List.filter_cons_of_neg (by simp), List.filter_cons_of_neg (by simp),
      List.filter_nil]
    norm_num
  have hn6 : Circle.retainPred [⟨⟨0, 0⟩, 5⟩, ⟨⟨8, 0⟩, 5⟩, ⟨⟨7 / 4, 0⟩, 15 / 4⟩]
      [] (⟨4, 3⟩, 1, 2) = false := by
    unfold Circle.retainPred
    rw [if_neg (by simp)]
    apply decide_eq_false
    rw [show List.enum [(⟨⟨0, 0⟩, 5⟩ : Circle), ⟨⟨8, 0⟩, 5⟩,
        ⟨⟨7 / 4, 0⟩, 15 / 4⟩] =
      [(0, (⟨⟨0, 0⟩, 5⟩ : Circle)), (1, (⟨⟨8, 0⟩, 5⟩ : Circle)),
       (2, (⟨⟨7 / 4, 0⟩, 15 / 4⟩ : Circle))] from rfl]
    rw [List.filter_cons_of_neg (by simp [C3_d43A]),
      List.filter_cons_of_neg (by simp), List.filter_cons_of_neg (by simp),
      List.filter_nil]
    norm_num
  have hrp : Circle.retainPoints
      [⟨⟨0, 0⟩, 5⟩, ⟨⟨8, 0⟩, 5⟩, ⟨⟨7 / 4, 0⟩, 15 / 4⟩] []
      [(⟨4, 3⟩, 0, 1), (⟨4, -3⟩, 0, 1), (⟨4, 3⟩, 0, 2), (⟨4, -3⟩, 0, 2),
       (⟨4, -3⟩, 1, 2), (⟨4, 3⟩, 1, 2)] = [] := by
    unfold Circle.retainPoints
    rw [List.filter_cons_of_neg (by rw [hn1]; simp),
      List.filter_cons_of_neg (by rw [hn2]; simp),
      List.filter_cons_of_neg (by rw [hn3]; simp),
      List.filter_cons_of_neg (by rw [hn4]; simp),
      List.filter_cons_of_neg (by rw [hn5]; simp),
      List.filter_cons_of_neg (by rw [hn6]; simp),
      List.filter_nil]
  unfold Circle.intersect_all
  simp only [hcp]
  rw [hrp]
  rw [if_neg (by norm_num), if_neg (by norm_num)]
  rfl

/-- C3: appending a circle whose disk wholly contains the intersection
region can change the result.  D = ((7/4,0),15/4) contains the lens of
A = ((0,0),5) and B = ((8,0),5) (first conjunct), yet appending it sends
`intersect_all` to 0, because the lens vertices lie exactly on D and the
strict interiority test drops every candidate point. -/
theorem C3_counterexample :
    (∀ p : Vec2, p.metric_distance ⟨0, 0⟩ ≤ 5 → p.metric_distance ⟨8, 0⟩ ≤ 5 →
      p.metric_distance ⟨7 / 4, 0⟩ ≤ 15 / 4) ∧
    Circle.intersect_all [⟨⟨0, 0⟩, 5⟩, ⟨⟨8, 0⟩, 5⟩, ⟨⟨7 / 4, 0⟩, 15 / 4⟩] ≠
      Circle.intersect_all [⟨⟨0, 0⟩, 5⟩, ⟨⟨8, 0⟩, 5⟩] := by
  constructor
  · intro p h1 h2
    rw [Vec2.metric_distance_eq] at h1 h2 ⊢
    simp only [Vec2.mk_x, Vec2.mk_y] at h1 h2 ⊢
    have hnn1 : 0 ≤ (p.x - 0) ^ 2 + (p.y - 0) ^ 2 := by positivity
    have hnn2 : 0 ≤ (p.x - 8) ^ 2 + (p.y - 0) ^ 2 := by positivity
    have hb1 : (p.x - 0) ^ 2 + (p.y - 0) ^ 2 ≤ 25 := by
      nlinarith [Real.sq_sqrt hnn1, Real.sqrt_nonneg ((p.x - 0) ^ 2 + (p.y - 0) ^ 2)]
    have hb2 : (p.x - 8) ^ 2 + (p.y - 0) ^ 2 ≤ 25 := by
      nlinarith [Real.sq_sqrt hnn2, Real.sqrt_nonneg ((p.x - 8) ^ 2 + (p.y - 0) ^ 2)]
    have hT : (p.x - 7 / 4) ^ 2 + (p.y - 0) ^ 2 ≤ 225 / 16 := by
      rcases le_total p.x 4 with hx | hx
      · nlinarith
      · nlinarith
    calc Real.sqrt ((p.x - 7 / 4) ^ 2 + (p.y - 0) ^ 2)
        ≤ Real.sqrt (225 / 16) := Real.sqrt_le_sqrt hT
      _ = 15 / 4 := by
          rw [show (225 : ℝ) / 16 = (15 / 4) ^ 2 by norm_num]
          exact Real.sqrt_sq (by norm_num)
  · rw [C3_eval,
      intersect_all_pair_crossing _ _ _ _ _ C2_iAB, C2_valAB]
    intro h
    have hv := Except.ok.inj h
    have harc : 0 < Real.arcsin (3 / 5) := Real.arcsin_pos.mpr (by norm_num)
    have hs := Real.sin_lt (show 0 < 2 * Real.arcsin (3 / 5) by linarith)
    rw [C2_sin_two_arcsin] at hs
    linarith

/-- C3 (amended): appending a circle D that the classifier marks as
wholly containing both existing circles (`Inside` both ways) and whose
interior strictly contains both crossing points leaves `intersect_all`
unchanged: D's index is ignored and the two-point fallback still pairs
the original circles. -/
theorem C3_amended (a b D : Circle) (p q : Vec2) (ns : Bool)
    (hab : a.intersect b = Intersection.intersect p q ns)
    (haD : a.intersect D = Intersection.inside a)
    (hbD : b.intersect D = Intersection.inside b)
    (hp : p.metric_distance D.origin < D.r)
    (hq : q.metric_distance D.origin < D.r) :
    Circle.intersect_all [a, b, D] = Circle.intersect_all [a, b] := by
  rw [intersect_all_pair_crossing a b p q ns hab]
  have hcp : Circle.collectPairs (pairsLex (List.enum [a, b, D])) =
      some ([(p, 0, 1), (q, 0, 1)], [2, 2]) := by
    rw [show pairsLex (List.enum [a, b, D]) =
      [((0, a), (1, b)), ((0, a), (2, D)), ((1, b), (2, D))] from rfl]
    simp only [Circle.collectPairs, hab, haD, hbD, Option.map]
    rw [if_pos trivial, if_pos trivial]
  have hr1 : Circle.retainPred [a, b, D] [2, 2] (p, 0, 1) = true := by
    unfold Circle.retainPred
    rw [if_neg (by simp)]
    apply decide_eq_true
    rw [show List.enum [a, b, D] = [(0, a), (1, b), (2, D)] from rfl]
    rw [List.filter_cons_of_neg (by simp), List.filter_cons_of_neg (by simp),
      List.filter_cons_of_pos (by simp [hp]), List.filter_nil]
    simp
  have hr2 : Circle.retainPred [a, b, D] [2, 2] (q, 0, 1) = true := by
    unfold Circle.retainPred
    rw [if_neg (by simp)]
    apply decide_eq_true
    rw [show List.enum [a, b, D] = [(0, a), (1, b), (2, D)] from rfl]
    rw [List.filter_cons_of_neg (by simp), List.filter_cons_of_neg (by simp),
      List.filter_cons_of_pos (by simp [hq]), List.filter_nil]
    simp
  have hrp : Circle.retainPoints [a, b, D] [2, 2] [(p, 0, 1), (q, 0, 1)] =
      [(p, 0, 1), (q, 0, 1)] := by
    unfold Circle.retainPoints
    rw [List.filter_cons_of_pos hr1, List.filter_cons_of_pos hr2,
      List.filter_nil]
  unfold Circle.intersect_all
  simp only [hcp]
  rw [hrp]
  rw [if_neg (by norm_num), if_pos (by norm_num)]
  rfl

theorem C3_amended_witness :
    Circle.intersect_all [⟨⟨0, 0⟩, 5⟩, ⟨⟨8, 0⟩, 5⟩, ⟨⟨4, 0⟩, 10⟩] =
      Circle.intersect_all [⟨⟨0, 0⟩, 5⟩, ⟨⟨8, 0⟩, 5⟩] := by
  have hdA : Circle.distance ⟨⟨0, 0⟩, 5⟩ ⟨⟨4, 0⟩, 10⟩ = 4 := by
    rw [Circle.distance, Vec2.metric_distance_eq]
    rw [show ((0 : ℝ) - 4) ^ 2 + ((0 : ℝ) - 0) ^ 2 = 4 ^ 2 by norm_num]
    exact Real.sqrt_sq (by norm_num)
  have hdB : Circle.distance ⟨⟨8, 0⟩, 5⟩ ⟨⟨4, 0⟩, 10⟩ = 4 := by
    rw [Circle.distance, Vec2.metric_distance_eq]
    rw [show ((8 : ℝ) - 4) ^ 2 + ((0 : ℝ) - 0) ^ 2 = 4 ^ 2 by norm_num]
    exact Real.sqrt_sq (by norm_num)
  exact C3_amended _ _ _ _ _ _ C2_iAB
    (Circle.intersect_of_inside_self _ _ (by rw [hdA]; norm_num)
      (by rw [hdA]; norm_num) (by rw [hdA]; norm_num))
    (Circle.intersect_of_inside_self _ _ (by rw [hdB]; norm_num)
      (by rw [hdB]; norm_num) (by rw [hdB]; norm_num))
    (by rw [C2_d43]; norm_num) (by rw [C2_d43m]; norm_num)

/-- Pair (A,F) of the C5 configuration, A = ((14/5,0),5), F = ((0,0),5):
crossing at (7/5, ∓24/5). -/
theorem C5_iAF : Circle.intersect ⟨⟨14 / 5, 0⟩, 5⟩ ⟨⟨0, 0⟩, 5⟩ =
    .intersect ⟨7 / 5, -(24 / 5)⟩ ⟨7 / 5, 24 / 5⟩ false := by
  have hd : Circle.distance ⟨⟨14 / 5, 0⟩, 5⟩ ⟨⟨0, 0⟩, 5⟩ = 14 / 5 := by
    rw [Circle.distance, Vec2.metric_distance_eq]
    rw [show ((14 : ℝ) / 5 - 0) ^ 2 + ((0 : ℝ) - 0) ^ 2 = (14 / 5) ^ 2 by norm_num]
    exact Real.sqrt_sq (by norm_num)
  rw [Circle.intersect_of_crossing _ _ (by rw [hd]; norm_num)
    (by rw [hd]; norm_num) (by rw [hd]; norm_num) (by rw [hd]; norm_num)]
  refine Circle.intersectCrossing_formula _ _ ⟨⟨0, 0⟩, 5⟩ ⟨⟨14 / 5, 0⟩, 5⟩ ?_
    (14 / 5) (7 / 5) (24 / 5) (7 / 5) hd ?_ ?_ ?_ ⟨-1, 0⟩ ?_
    ⟨7 / 5, -(24 / 5)⟩ ⟨7 / 5, 24 / 5⟩ ?_ ?_ false ?_
  · rw [if_neg (by norm_num)]
  · norm_num
  · rw [show (5 : ℝ) * 5 - 7 / 5 * (7 / 5) = (24 / 5) ^ 2 by norm_num]
    exact Real.sqrt_sq (by norm_num)
  · rw [show (5 : ℝ) * 5 - ((5 : ℝ) * 5 - 7 / 5 * (7 / 5)) = (7 / 5) ^ 2 by norm_num]
    exact Real.sqrt_sq (by norm_num)
  · simp only [Vec2.sub, Vec2.normalize, Vec2.norm, Vec2.mk_x, Vec2.mk_y]
    rw [show ((0 : ℝ) - 14 / 5) ^ 2 + ((0 : ℝ) - 0) ^ 2 = (14 / 5) ^ 2 by norm_num,
      Real.sqrt_sq (by norm_num)]
    norm_num [Vec2.mk.injEq]
  · simp only [Vec2.add, Vec2.smul, Vec2.mk_x, Vec2.mk_y]
    norm_num [Vec2.mk.injEq]
  · simp only [Vec2.add, Vec2.smul, Vec2.mk_x, Vec2.mk_y]
    norm_num [Vec2.mk.injEq]
  · exact decide_eq_false (by norm_num)

/-- A circle of nonnegative radius compared with itself is classified
`Inside`. -/
theorem C5_intersect_self : Circle.intersect ⟨⟨14 / 5, 0⟩, 5⟩ ⟨⟨14 / 5, 0⟩, 5⟩ =
    .inside ⟨⟨14 / 5, 0⟩, 5⟩ := by
  have hd : Circle.distance ⟨⟨14 / 5, 0⟩, 5⟩ ⟨⟨14 / 5, 0⟩, 5⟩ = 0 :=
    Vec2.metric_distance_self _
  exact Circle.intersect_of_inside_other _ _ (by rw [hd]; norm_num)
    (by rw [hd]; norm_num)

theorem C5_sin_two_arcsin :
    Real.sin (2 * Real.arcsin (24 / 25)) = 336 / 625 := by
  rw [two_mul, Real.sin_add, Real.sin_arcsin (by norm_num) (by norm_num),
    Real.cos_arcsin]
  rw [show (1 : ℝ) - (24 / 25) ^ 2 = (7 / 25) ^ 2 by norm_num,
    Real.sqrt_sq (by norm_num)]
  ring

/-- Value of the pairwise lens of A and F. -/
theorem C5_valAF :
    Circle.intersection_area ⟨⟨14 / 5, 0⟩, 5⟩ ⟨⟨0, 0⟩, 5⟩ =
      .ok (25 * (2 * Real.arcsin (24 / 25)) - 336 / 25) := by
  have hl : (⟨7 / 5, -(24 / 5)⟩ : Vec2).metric_distance ⟨7 / 5, 24 / 5⟩ =
      48 / 5 := by
    rw [Vec2.metric_distance_eq]
    simp only [Vec2.mk_x, Vec2.mk_y]
    rw [show ((7 : ℝ) / 5 - 7 / 5) ^ 2 + (-(24 / 5) - 24 / 5 : ℝ) ^ 2 =
      (48 / 5) ^ 2 by norm_num]
    exact Real.sqrt_sq (by norm_num)
  have hseg : Circle.segment_area 5 (48 / 5) =
      .ok (12.5 * (2 * Real.arcsin (24 / 25)) - 168 / 25) := by
    simp only [Circle.segment_area]
    rw [if_neg (by norm_num)]
    rw [show (48 : ℝ) / 5 / (2 * 5) = 24 / 25 by norm_num, C5_sin_two_arcsin]
    congr 1
    ring
  unfold Circle.intersection_area
  simp only [C5_iAF]
  rw [hl]
  rw [if_pos trivial]
  rw [hseg, exBindOk, exBindOk]
  congr 1
  ring

theorem C5_evalAF :
    Circle.intersect_all [⟨⟨14 / 5, 0⟩, 5⟩, ⟨⟨0, 0⟩, 5⟩] =
      .ok (25 * (2 * Real.arcsin (24 / 25)) - 336 / 25) :=
  (intersect_all_pair_crossing _ _ _ _ _ C5_iAF).trans C5_valAF

theorem C5_d75A : Vec2.metric_distance ⟨7 / 5, -(24 / 5)⟩ ⟨14 / 5, 0⟩ = 5 := by
  rw [Vec2.metric_distance_eq]
  simp only [Vec2.mk_x, Vec2.mk_y]
  rw [show ((7 : ℝ) / 5 - 14 / 5) ^ 2 + (-(24 / 5) - 0 : ℝ) ^ 2 = 5 ^ 2 by norm_num]
  exact Real.sqrt_sq (by norm_num)

theorem C5_d75B : Vec2.metric_distance ⟨7 / 5, 24 / 5⟩ ⟨14 / 5, 0⟩ = 5 := by
  rw [Vec2.metric_distance_eq]
  simp only [Vec2.mk_x, Vec2.mk_y]
  rw [show ((7 : ℝ) / 5 - 14 / 5) ^ 2 + ((24 : ℝ) / 5 - 0) ^ 2 = 5 ^ 2 by norm_num]
  exact Real.sqrt_sq (by norm_num)

/-- With the duplicated obstacle, every candidate point is dropped (the
duplicate is ignored but still vetoes points on its boundary) and the
three-circle intersection evaluates to 0 instead of the true lens. -/
theorem C5_evalAAF :
    Circle.intersect_all [⟨⟨14 / 5, 0⟩, 5⟩, ⟨⟨14 / 5, 0⟩, 5⟩, ⟨⟨0, 0⟩, 5⟩] =
      .ok 0 := by
  have hcp : Circle.collectPairs
      (pairsLex (List.enum [(⟨⟨14 / 5, 0⟩, 5⟩ : Circle), ⟨⟨14 / 5, 0⟩, 5⟩,
        ⟨⟨0, 0⟩, 5⟩])) =
      some ([(⟨7 / 5, -(24 / 5)⟩, 0, 2), (⟨7 / 5, 24 / 5⟩, 0, 2),
        (⟨7 / 5, -(24 / 5)⟩, 1, 2), (⟨7 / 5, 24 / 5⟩, 1, 2)], [1]) := by
    rw [show pairsLex (List.enum [(⟨⟨14 / 5, 0⟩, 5⟩ : Circle), ⟨⟨14 / 5, 0⟩, 5⟩,
        ⟨⟨0, 0⟩, 5⟩]) =
      [((0, (⟨⟨14 / 5, 0⟩, 5⟩ : Circle)), (1, (⟨⟨14 / 5, 0⟩, 5⟩ : Circle))),
       ((0, (⟨⟨14 / 5, 0⟩, 5⟩ : Circle)), (2, (⟨⟨0, 0⟩, 5⟩ : Circle))),
       ((1, (⟨⟨14 / 5, 0⟩, 5⟩ : Circle)), (2, (⟨⟨0, 0⟩, 5⟩ : Circle)))]
      from rfl]
    simp only [Circle.collectPairs, C5_intersect_self, C5_iAF, Option.map]
    rw [if_pos trivial]
  have hn1 : Circle.retainPred
      [⟨⟨14 / 5, 0⟩, 5⟩, ⟨⟨14 / 5, 0⟩, 5⟩, ⟨⟨0, 0⟩, 5⟩] [1]
      (⟨7 / 5, -(24 / 5)⟩, 0, 2) = false := by
    unfold Circle.retainPred
    rw [if_neg (by simp)]
    apply decide_eq_false
    rw [show List.enum [(⟨⟨14 / 5, 0⟩, 5⟩ : Circle), ⟨⟨14 / 5, 0⟩, 5⟩,
        ⟨⟨0, 0⟩, 5⟩] =
      [(0, (⟨⟨14 / 5, 0⟩, 5⟩ : Circle)), (1, (⟨⟨14 / 5, 0⟩, 5⟩ : Circle)),
       (2, (⟨⟨0, 0⟩, 5⟩ : Circle))] from rfl]
    rw [List.filter_cons_of_neg (by simp),
      List.filter_cons_of_neg (by simp [C5_d75A]),
      List.filter_cons_of_neg (by simp), List.filter_nil]
    norm_num
  have hn2 : Circle.retainPred
      [⟨⟨14 / 5, 0⟩, 5⟩, ⟨⟨14 / 5, 0⟩, 5⟩, ⟨⟨0, 0⟩, 5⟩] [1]
      (⟨7 / 5, 24 / 5⟩, 0, 2) = false := by
    unfold Circle.retainPred
    rw [if_neg (by simp)]
    apply decide_eq_false
    rw [show List.enum [(⟨⟨14 / 5, 0⟩, 5⟩ : Circle), ⟨⟨14 / 5, 0⟩, 5⟩,
        ⟨⟨0, 0⟩, 5⟩] =
      [(0, (⟨⟨14 / 5, 0⟩, 5⟩ : Circle)), (1, (⟨⟨14 / 5, 0⟩, 5⟩ : Circle)),
       (2, (⟨⟨0, 0⟩, 5⟩ : Circle))] from rfl]
    rw [List.filter_cons_of_neg (by simp),
      List.filter_cons_of_neg (by simp [C5_d75B]),
      List.filter_cons_of_neg (by simp), List.filter_nil]
    norm_num
  have hn3 : Circle.retainPred
      [⟨⟨14 / 5, 0⟩, 5⟩, ⟨⟨14 / 5, 0⟩, 5⟩, ⟨⟨0, 0⟩, 5⟩] [1]
      (⟨7 / 5, -(24 / 5)⟩, 1, 2) = false := by
    unfold Circle.retainPred
    rw [if_pos (by simp)]
  have hn4 : Circle.retainPred
      [⟨⟨14 / 5, 0⟩, 5⟩, ⟨⟨14 / 5, 0⟩, 5⟩, ⟨⟨0, 0⟩, 5⟩] [1]
      (⟨7 / 5, 24 / 5⟩, 1, 2) = false := by
    unfold Circle.retainPred
    rw [if_pos (by simp)]
  have hrp : Circle.retainPoints
      [⟨⟨14 / 5, 0⟩, 5⟩, ⟨⟨14 / 5, 0⟩, 5⟩, ⟨⟨0, 0⟩, 5⟩] [1]
      [(⟨7 / 5, -(24 / 5)⟩, 0, 2), (⟨7 / 5, 24 / 5⟩, 0, 2),
       (⟨7 / 5, -(24 / 5)⟩, 1, 2), (⟨7 / 5, 24 / 5⟩, 1, 2)] = [] := by
    unfold Circle.retainPoints
    rw [List.filter_cons_of_neg (by rw [hn1]; simp),
      List.filter_cons_of_neg (by rw [hn2]; simp),
      List.filter_cons_of_neg (by rw [hn3]; simp),
      List.filter_cons_of_neg (by rw [hn4]; simp),
      List.filter_nil]
  unfold Circle.intersect_all
  simp only [hcp]
  rw [hrp]
  rw [if_neg (by norm_num), if_neg (by norm_num)]
  rfl

theorem C5_inner1 (x : ℝ) :
    Circle.tiInner ⟨⟨0, 0⟩, 5⟩ 1 x [⟨⟨14 / 5, 0⟩, 5⟩] =
      .ok (x + 1 * (25 * (2 * Real.arcsin (24 / 25)) - 336 / 25)) := by
  simp only [Circle.tiInner]
  rw [show [(⟨⟨14 / 5, 0⟩, 5⟩ : Circle)] ++ [⟨⟨0, 0⟩, 5⟩] =
    [(⟨⟨14 / 5, 0⟩, 5⟩ : Circle), ⟨⟨0, 0⟩, 5⟩] from rfl]
  rw [C5_evalAF, exBindOk]

theorem C5_inner2 (x : ℝ) :
    Circle.tiInner ⟨⟨0, 0⟩, 5⟩ (-1) x [⟨⟨14 / 5, 0⟩, 5⟩, ⟨⟨14 / 5, 0⟩, 5⟩] =
      .ok (x + -1 * 0) := by
  simp only [Circle.tiInner]
  rw [show [(⟨⟨14 / 5, 0⟩, 5⟩ : Circle), ⟨⟨14 / 5, 0⟩, 5⟩] ++ [⟨⟨0, 0⟩, 5⟩] =
    [(⟨⟨14 / 5, 0⟩, 5⟩ : Circle), ⟨⟨14 / 5, 0⟩, 5⟩, ⟨⟨0, 0⟩, 5⟩] from rfl]
  rw [C5_evalAAF, exBindOk]

/-- The full accumulator run on the duplicated-obstacle input. -/
theorem C5_total :
    Circle.total_intersection ⟨⟨0, 0⟩, 5⟩ [⟨⟨14 / 5, 0⟩, 5⟩, ⟨⟨14 / 5, 0⟩, 5⟩] =
      .ok (100 * Real.arcsin (24 / 25) - 672 / 25) := by
  have h1 : Circle.tiOuter ⟨⟨0, 0⟩, 5⟩ [⟨⟨14 / 5, 0⟩, 5⟩, ⟨⟨14 / 5, 0⟩, 5⟩] 0 0 =
      .ok (0 + 1 * (25 * (2 * Real.arcsin (24 / 25)) - 336 / 25) +
        1 * (25 * (2 * Real.arcsin (24 / 25)) - 336 / 25)) := by
    simp only [Circle.tiOuter]
    rw [if_neg (by norm_num)]
    rw [show combinations (0 + 1) [(⟨⟨14 / 5, 0⟩, 5⟩ : Circle), ⟨⟨14 / 5, 0⟩, 5⟩] =
      [[⟨⟨14 / 5, 0⟩, 5⟩], [⟨⟨14 / 5, 0⟩, 5⟩]] from rfl]
    simp only [List.foldlM]
    rw [C5_inner1, exBindOk, C5_inner1, exBindOk]
    rfl
  have h2 : ∀ x : ℝ,
      Circle.tiOuter ⟨⟨0, 0⟩, 5⟩ [⟨⟨14 / 5, 0⟩, 5⟩, ⟨⟨14 / 5, 0⟩, 5⟩] x 1 =
      .ok (x + -1 * 0) := by
    intro x
    simp only [Circle.tiOuter]
    rw [if_pos (by norm_num)]
    rw [show combinations (1 + 1) [(⟨⟨14 / 5, 0⟩, 5⟩ : Circle), ⟨⟨14 / 5, 0⟩, 5⟩] =
      [[⟨⟨14 / 5, 0⟩, 5⟩, ⟨⟨14 / 5, 0⟩, 5⟩]] from rfl]
    simp only [List.foldlM]
    rw [C5_inner2, exBindOk]
    rfl
  unfold Circle.total_intersection
  rw [show List.range
    (List.length [(⟨⟨14 / 5, 0⟩, 5⟩ : Circle), ⟨⟨14 / 5, 0⟩, 5⟩]) = [0, 1]
    from rfl]
  simp only [List.foldlM]
  rw [h1, exBindOk, h2, exBindOk]
  show Except.ok _ = _
  congr 1
  ring

/-- C5: the claimed invariant fails and no abort happens.  With
F = ((0,0),5) and the obstacle A = ((14/5,0),5) listed twice,
`total_intersection` returns `Ok` of a value strictly greater than
F's own area (the duplicate pair is classified `Inside`, which zeroes
the pair-correction term), instead of aborting on the out-of-range
accumulated result. -/
theorem C5_code_bug :
    ∃ v : ℝ, Circle.total_intersection ⟨⟨0, 0⟩, 5⟩
        [⟨⟨14 / 5, 0⟩, 5⟩, ⟨⟨14 / 5, 0⟩, 5⟩] = .ok v ∧
      Circle.area ⟨⟨0, 0⟩, 5⟩ < v := by
  refine ⟨_, C5_total, ?_⟩
  show Real.pi * 5 * 5 < 100 * Real.arcsin (24 / 25) - 672 / 25
  have hpi : Real.pi < 3.15 := Real.pi_lt_d2
  have hpi3 : 3 < Real.pi := Real.pi_gt_three
  have hx1 : Real.pi / 4 + 168 / 625 ≤ Real.pi / 2 := by linarith
  have hx0 : -(Real.pi / 2) ≤ Real.pi / 4 + 168 / 625 := by linarith
  have harc : Real.pi / 4 + 168 / 625 < Real.arcsin (24 / 25) := by
    rw [Real.lt_arcsin_iff_sin_lt (Set.mem_Icc.mpr ⟨hx0, hx1⟩)
      (Set.mem_Icc.mpr ⟨by norm_num, by norm_num⟩)]
    rw [Real.sin_add, Real.sin_pi_div_four, Real.cos_pi_div_four]
    have hcos : Real.cos ((168 : ℝ) / 625) ≤ 1 := Real.cos_le_one _
    have hsin : Real.sin ((168 : ℝ) / 625) ≤ 168 / 625 :=
      le_of_lt (Real.sin_lt (by norm_num))
    have hs2 : Real.sqrt 2 < 1.4143 := by
      nlinarith [Real.sq_sqrt (show (0 : ℝ) ≤ 2 by norm_num),
        Real.sqrt_nonneg 2]
    have hs2nn : (0 : ℝ) ≤ Real.sqrt 2 := Real.sqrt_nonneg 2
    nlinarith [Real.neg_one_le_sin ((168 : ℝ) / 625),
      Real.neg_one_le_cos ((168 : ℝ) / 625)]
  linarith

theorem mem_pairsLex {α : Type} (d : α) (l : List α) (x y : α) :
    (x, y) ∈ pairsLex l ↔
      ∃ k1 k2 : Nat, k1 < k2 ∧ k2 < l.length ∧ l.getD k1 d = x ∧
        l.getD k2 d = y := by
  induction l with
  | nil => simp [pairsLex]
  | cons z zs ih =>
    simp only [pairsLex, List.mem_append, List.mem_map]
    constructor
    · rintro (⟨w, hw, heq⟩ | h)
      · obtain ⟨k, hk, hget⟩ := List.mem_iff_getElem.mp hw
        have h1 : (z, w) = (x, y) := heq
        rw [Prod.mk.injEq] at h1
        refine ⟨0, k + 1, Nat.succ_pos k, by simpa using hk, by simpa using h1.1, ?_⟩
        rw [List.getD_cons_succ, List.getD_eq_getElem zs d hk, hget]
        exact h1.2
      · obtain ⟨k1, k2, h12, h2len, hx, hy⟩ := ih.mp h
        exact ⟨k1 + 1, k2 + 1, by omega, by simpa using h2len,
          by simpa using hx, by simpa using hy⟩
    · rintro ⟨k1, k2, h12, h2len, hx, hy⟩
      rcases k2 with _ | k2
      · omega
      rcases k1 with _ | k1
      · left
        rw [List.getD_cons_zero] at hx
        rw [List.getD_cons_succ] at hy
        have hk2 : k2 < zs.length := by simpa using h2len
        refine ⟨y, ?_, by rw [hx]⟩
        rw [← hy, List.getD_eq_getElem zs d hk2]
        exact List.getElem_mem hk2
      · right
        apply ih.mpr
        refine ⟨k1, k2, by omega, by simpa using h2len, ?_, ?_⟩
        · rw [List.getD_cons_succ] at hx; exact hx
        · rw [List.getD_cons_succ] at hy; exact hy

theorem enum_getD (l : List Circle) (k : Nat) (hk : k < l.length) :
    l.enum.getD k (0, ⟨Vec2.zero, 0⟩) = (k, l.getD k ⟨Vec2.zero, 0⟩) := by
  have hk' : k < l.enum.length := by simpa [List.enum_length] using hk
  rw [List.getD_eq_getElem _ _ hk', List.getD_eq_getElem _ _ hk]
  simp [List.getElem_enum]

theorem intersect_none_symm (a b : Circle) :
    a.intersect b = Intersection.none ↔ b.intersect a = Intersection.none := by
  rw [Circle.intersect_eq_none_iff, Circle.intersect_eq_none_iff,
    Circle.distance_comm]
  constructor <;> intro h <;> linarith

theorem pairsRel_symmetric (ps : List ((Nat × Circle) × (Nat × Circle))) :
    Symmetric (pairsRel ps) := by
  rintro a b ⟨p, hp, hok, hor⟩
  exact ⟨p, hp, hok, hor.symm⟩

theorem pairsRel_iff (circles : List Circle) (a b : Nat) :
    pairsRel (pairsLex circles.enum) a b ↔ OverlapAdj circles a b := by
  constructor
  · rintro ⟨p, hp, hok, hor⟩
    obtain ⟨k1, k2, h12, h2len, hx, hy⟩ :=
      (mem_pairsLex (0, ⟨Vec2.zero, 0⟩) circles.enum p.1 p.2).mp (by simpa using hp)
    have h2 : k2 < circles.length := by simpa [List.enum_length] using h2len
    have h1 : k1 < circles.length := lt_trans h12 h2
    rw [enum_getD circles k1 h1] at hx
    rw [enum_getD circles k2 h2] at hy
    have hok' : p.1.2.intersect p.2.2 ≠ Intersection.none := hok
    rw [← hx, ← hy] at hok'
    rcases hor with hor | hor
    · rw [← hx, ← hy] at hor
      have hab : a = k1 ∧ b = k2 := by
        rw [Prod.mk.injEq] at hor
        exact hor
      rw [hab.1, hab.2]
      exact ⟨h1, h2, by omega, hok'⟩
    · rw [← hx, ← hy] at hor
      have hab : b = k1 ∧ a = k2 := by
        rw [Prod.mk.injEq] at hor
        exact hor
      rw [hab.1, hab.2]
      refine ⟨h2, h1, by omega, ?_⟩
      exact fun hc => hok' ((intersect_none_symm _ _).mpr hc)
  · rintro ⟨ha, hb, hne, hint⟩
    rcases Nat.lt_or_ge a b with hab | hab
    · refine ⟨((a, circles.getD a ⟨Vec2.zero, 0⟩), (b, circles.getD b ⟨Vec2.zero, 0⟩)),
        ?_, hint, Or.inl rfl⟩
      apply (mem_pairsLex (0, ⟨Vec2.zero, 0⟩) circles.enum _ _).mpr
      exact ⟨a, b, hab, by simpa [List.enum_length] using hb,
        enum_getD circles a ha, enum_getD circles b hb⟩
    · have hba : b < a := lt_of_le_of_ne hab (Ne.symm hne)
      refine ⟨((b, circles.getD b ⟨Vec2.zero, 0⟩), (a, circles.getD a ⟨Vec2.zero, 0⟩)),
        ?_, ?_, Or.inr rfl⟩
      · apply (mem_pairsLex (0, ⟨Vec2.zero, 0⟩) circles.enum _ _).mpr
        exact ⟨b, a, hba, by simpa [List.enum_length] using ha,
          enum_getD circles b hb, enum_getD circles a ha⟩
      · show (circles.getD b _).intersect (circles.getD a _) ≠ Intersection.none
        exact fun hc => hint ((intersect_none_symm _ _).mpr hc)

theorem getD_append_length (pre : List (List Nat)) (x : List Nat)
    (rest : List (List Nat)) :
    (pre ++ x :: rest).getD pre.length [] = x := by
  induction pre with
  | nil => rfl
  | cons a t ih => simpa using ih

theorem set_append_length (pre : List (List Nat)) (x v : List Nat)
    (rest : List (List Nat)) :
    (pre ++ x :: rest).set pre.length v = pre ++ v :: rest := by
  induction pre with
  | nil => rfl
  | cons a t ih => simp [ih]

theorem mergeInto_mem (x : Nat) : ∀ (app g : List Nat),
    (x ∈ mergeInto g app ↔ x ∈ g ∨ x ∈ app) := by
  intro app
  induction app with
  | nil => intro g; simp [mergeInto]
  | cons k t ih =>
    intro g
    have hstep : mergeInto g (k :: t) =
        mergeInto (if k ∈ g then g else g ++ [k]) t := rfl
    rw [hstep, ih]
    by_cases hk : k ∈ g
    · rw [if_pos hk]
      constructor
      · rintro (h | h)
        · exact Or.inl h
        · exact Or.inr (List.mem_cons_of_mem _ h)
      · rintro (h | h)
        · exact Or.inl h
        · rcases List.mem_cons.mp h with rfl | h
          · exact Or.inl hk
          · exact Or.inr h
    · rw [if_neg hk]
      constructor
      · rintro (h | h)
        · rcases List.mem_append.mp h with h | h
          · exact Or.inl h
          · have hxk : x = k := List.mem_singleton.mp h
            exact Or.inr (by rw [hxk]; exact List.mem_cons_self k t)
        · exact Or.inr (List.mem_cons_of_mem _ h)
      · rintro (h | h)
        · exact Or.inl (List.mem_append_left _ h)
        · rcases List.mem_cons.mp h with rfl | h
          · exact Or.inl (List.mem_append_right _ (by simp))
          · exact Or.inr h

theorem groups_mem_unique {gs : List (List Nat)} (h : GroupsDisjoint gs)
    {g g' : List Nat} (hg : g ∈ gs) (hg' : g' ∈ gs) {x : Nat}
    (hx : x ∈ g) (hx' : x ∈ g') : g = g' := by
  induction gs with
  | nil => cases hg
  | cons a t ih =>
    rw [GroupsDisjoint, List.pairwise_cons] at h
    rcases List.mem_cons.mp hg with rfl | hgt
    · rcases List.mem_cons.mp hg' with rfl | hgt'
      · rfl
      · exact absurd hx' (h.1 g' hgt' x hx)
    · rcases List.mem_cons.mp hg' with rfl | hgt'
      · exact absurd hx (h.1 g hgt x hx')
      · exact ih h.2 hgt hgt'

/-- In a disjoint family, an element of the distinguished group appears
in no other group of the decomposition. -/
theorem untouched_of_disjoint {pre post : List (List Nat)} {gr : List Nat}
    (h : GroupsDisjoint (pre ++ gr :: post)) {x : Nat} (hx : x ∈ gr) :
    (∀ g' ∈ pre, x ∉ g') ∧ (∀ g' ∈ post, x ∉ g') := by
  rw [GroupsDisjoint, List.pairwise_append] at h
  obtain ⟨hp1, hp2, hcross⟩ := h
  rw [List.pairwise_cons] at hp2
  constructor
  · intro g' hg' hxg'
    exact hcross g' hg' gr (by simp) x hxg' hx
  · intro g' hg' hxg'
    exact hp2.1 g' hg' x hx hxg'

theorem foldl_stepGroup_untouched (i j : Nat) (gs : List (List Nat))
    (h : ∀ gr ∈ gs, i ∉ gr ∧ j ∉ gr) (acc : List (List Nat))
    (pr : Option Nat) (pa : Option (List Nat)) :
    gs.foldl (stepGroup i j) (acc, pr, pa) = (acc ++ gs, pr, pa) := by
  induction gs generalizing acc with
  | nil => simp
  | cons g tail ih =>
    have hg := h g (by simp)
    have hstep : stepGroup i j (acc, pr, pa) g = (acc ++ [g], pr, pa) := by
      simp only [stepGroup]
      rw [if_neg hg.1, if_neg hg.2]
    rw [List.foldl_cons, hstep, ih (fun gr hgr => h gr (by simp [hgr]))]
    simp

theorem foldl_stepGroup_after (i j : Nat) (mid post : List (List Nat))
    (gr2 : List Nat)
    (hmid : ∀ gr ∈ mid, i ∉ gr ∧ j ∉ gr)
    (hpost : ∀ gr ∈ post, i ∉ gr ∧ j ∉ gr)
    (htouch : i ∈ gr2 ∨ j ∈ gr2) (acc : List (List Nat)) (g : Nat)
    (pa : Option (List Nat)) :
    (mid ++ gr2 :: post).foldl (stepGroup i j) (acc, some g, pa) =
      (acc ++ mid ++ post, some g, some gr2) := by
  rw [List.foldl_append, foldl_stepGroup_untouched i j mid hmid acc _ _,
    List.foldl_cons]
  have hstep : stepGroup i j (acc ++ mid, some g, pa) gr2 =
      (acc ++ mid, some g, some gr2) := by
    simp only [stepGroup]
    rcases htouch with h | h
    · rw [if_pos h]
    · by_cases hi : i ∈ gr2
      · rw [if_pos hi]
      · rw [if_neg hi, if_pos h]
  rw [hstep, foldl_stepGroup_untouched i j post hpost _ _ _]

theorem processPair_isolated (i j : Nat) (gs : List (List Nat))
    (h : ∀ gr ∈ gs, i ∉ gr ∧ j ∉ gr) :
    processPair i j gs = gs ++ [[i, j]] := by
  simp only [processPair]
  rw [foldl_stepGroup_untouched i j gs h [] _ _]
  simp

theorem processPair_one (i j : Nat) (pre post : List (List Nat)) (gr : List Nat)
    (hpre : ∀ g ∈ pre, i ∉ g ∧ j ∉ g) (hpost : ∀ g ∈ post, i ∉ g ∧ j ∉ g)
    (htouch : i ∈ gr ∨ j ∈ gr) :
    processPair i j (pre ++ gr :: post) =
      pre ++ (if i ∈ gr then (if j ∈ gr then gr else gr ++ [j])
        else gr ++ [i]) :: post := by
  simp only [processPair]
  rw [List.foldl_append, foldl_stepGroup_untouched i j pre hpre [] _ _,
    List.foldl_cons, List.nil_append]
  by_cases hi : i ∈ gr
  · have hstep : stepGroup i j (pre, Option.none, Option.none) gr =
        (pre ++ [if j ∈ gr then gr else gr ++ [j]], some pre.length,
          Option.none) := by
      simp only [stepGroup]
      rw [if_pos hi]
    rw [hstep, foldl_stepGroup_untouched i j post hpost _ _ _]
    rw [if_pos hi]
    simp
  · have hj : j ∈ gr := htouch.resolve_left hi
    have hstep : stepGroup i j (pre, Option.none, Option.none) gr =
        (pre ++ [gr ++ [i]], some pre.length, Option.none) := by
      simp only [stepGroup]
      rw [if_neg hi, if_pos hj, if_neg hi]
    rw [hstep, foldl_stepGroup_untouched i j post hpost _ _ _]
    rw [if_neg hi]
    simp

theorem processPair_two (i j : Nat) (pre mid post : List (List Nat))
    (gr1 gr2 : List Nat)
    (hpre : ∀ g ∈ pre, i ∉ g ∧ j ∉ g) (hmid : ∀ g ∈ mid, i ∉ g ∧ j ∉ g)
    (hpost : ∀ g ∈ post, i ∉ g ∧ j ∉ g)
    (h1 : i ∈ gr1 ∨ j ∈ gr1) (h2 : i ∈ gr2 ∨ j ∈ gr2) :
    processPair i j (pre ++ gr1 :: (mid ++ gr2 :: post)) =
      pre ++ (mergeInto (if i ∈ gr1 then (if j ∈ gr1 then gr1 else gr1 ++ [j])
        else gr1 ++ [i]) gr2) :: (mid ++ post) := by
  simp only [processPair]
  rw [List.foldl_append, foldl_stepGroup_untouched i j pre hpre [] _ _,
    List.foldl_cons, List.nil_append]
  by_cases hi : i ∈ gr1
  · have hstep : stepGroup i j (pre, Option.none, Option.none) gr1 =
        (pre ++ [if j ∈ gr1 then gr1 else gr1 ++ [j]], some pre.length,
          Option.none) := by
      simp only [stepGroup]
      rw [if_pos hi]
    rw [hstep, foldl_stepGroup_after i j mid post gr2 hmid hpost h2 _ _ _]
    rw [if_pos hi]
    have hget : ((pre ++ [if j ∈ gr1 then gr1 else gr1 ++ [j]]) ++ mid ++
        post).getD pre.length [] = (if j ∈ gr1 then gr1 else gr1 ++ [j]) := by
      rw [show (pre ++ [if j ∈ gr1 then gr1 else gr1 ++ [j]]) ++ mid ++ post =
        pre ++ (if j ∈ gr1 then gr1 else gr1 ++ [j]) :: (mid ++ post) by
          simp]
      exact getD_append_length pre _ _
    have hset : ∀ v, ((pre ++ [if j ∈ gr1 then gr1 else gr1 ++ [j]]) ++ mid ++
        post).set pre.length v = pre ++ v :: (mid ++ post) := by
      intro v
      rw [show (pre ++ [if j ∈ gr1 then gr1 else gr1 ++ [j]]) ++ mid ++ post =
        pre ++ (if j ∈ gr1 then gr1 else gr1 ++ [j]) :: (mid ++ post) by
          simp]
      exact set_append_length pre _ _ _
    show ((pre ++ [if j ∈ gr1 then gr1 else gr1 ++ [j]]) ++ mid ++ post).set
        pre.length
        (mergeInto (((pre ++ [if j ∈ gr1 then gr1 else gr1 ++ [j]]) ++ mid ++
          post).getD pre.length []) gr2) =
      pre ++ mergeInto (if j ∈ gr1 then gr1 else gr1 ++ [j]) gr2 ::
        (mid ++ post)
    rw [hget, hset]
  · have hj : j ∈ gr1 := h1.resolve_left hi
    have hstep : stepGroup i j (pre, Option.none, Option.none) gr1 =
        (pre ++ [gr1 ++ [i]], some pre.length, Option.none) := by
      simp only [stepGroup]
      rw [if_neg hi, if_pos hj, if_neg hi]
    rw [hstep, foldl_stepGroup_after i j mid post gr2 hmid hpost h2 _ _ _]
    rw [if_neg hi]
    have hget : ((pre ++ [gr1 ++ [i]]) ++ mid ++ post).getD pre.length [] =
        gr1 ++ [i] := by
      rw [show (pre ++ [gr1 ++ [i]]) ++ mid ++ post =
        pre ++ (gr1 ++ [i]) :: (mid ++ post) by simp]
      exact getD_append_length pre _ _
    have hset : ∀ v, ((pre ++ [gr1 ++ [i]]) ++ mid ++ post).set pre.length v =
        pre ++ v :: (mid ++ post) := by
      intro v
      rw [show (pre ++ [gr1 ++ [i]]) ++ mid ++ post =
        pre ++ (gr1 ++ [i]) :: (mid ++ post) by simp]
      exact set_append_length pre _ _ _
    show ((pre ++ [gr1 ++ [i]]) ++ mid ++ post).set pre.length
        (mergeInto (((pre ++ [gr1 ++ [i]]) ++ mid ++ post).getD pre.length [])
          gr2) =
      pre ++ mergeInto (gr1 ++ [i]) gr2 :: (mid ++ post)
    rw [hget, hset]

/-- Replacing one group by a group whose extra members clash with no
other group preserves disjointness. -/
theorem disjoint_replace {pre post : List (List Nat)} {gr gr' : List Nat}
    (h : GroupsDisjoint (pre ++ gr :: post))
    (hsub : ∀ x, x ∈ gr' → x ∈ gr ∨
      ((∀ g'' ∈ pre, x ∉ g'') ∧ (∀ g'' ∈ post, x ∉ g''))) :
    GroupsDisjoint (pre ++ gr' :: post) := by
  rw [GroupsDisjoint, List.pairwise_append, List.pairwise_cons] at h ⊢
  obtain ⟨hp1, ⟨hgr, hp2⟩, hcross⟩ := h
  refine ⟨hp1, ⟨?_, hp2⟩, ?_⟩
  · intro b hb x hx
    rcases hsub x hx with hx' | hx'
    · exact hgr b hb x hx'
    · exact hx'.2 b hb
  · intro a ha b hb x hxa
    rcases List.mem_cons.mp hb with rfl | hb'
    · intro hxb
      rcases hsub x hxb with hx' | hx'
      · exact hcross a ha gr (by simp) x hxa hx'
      · exact hx'.1 a ha hxa
    · exact hcross a ha b (by simp [hb']) x hxa

/-- Merging two groups into one (whose members come from the two groups
or clash with nothing) and deleting the second preserves disjointness. -/
theorem disjoint_merge {pre mid post : List (List Nat)} {gr1 gr2 m : List Nat}
    (h : GroupsDisjoint (pre ++ gr1 :: (mid ++ gr2 :: post)))
    (hm : ∀ x ∈ m, x ∈ gr1 ∨ x ∈ gr2 ∨
      ((∀ g'' ∈ pre, x ∉ g'') ∧ (∀ g'' ∈ mid, x ∉ g'') ∧
        (∀ g'' ∈ post, x ∉ g''))) :
    GroupsDisjoint (pre ++ m :: (mid ++ post)) := by
  rw [GroupsDisjoint, List.pairwise_append, List.pairwise_cons,
    List.pairwise_append, List.pairwise_cons] at h
  obtain ⟨hp1, ⟨hgr1, hmid, ⟨hgr2, hpost⟩, hmidcross⟩, hcross⟩ := h
  rw [GroupsDisjoint, List.pairwise_append, List.pairwise_cons,
    List.pairwise_append]
  have hgr1mid : ∀ b ∈ mid, ∀ x, x ∈ gr1 → x ∉ b := by
    intro b hb x hx
    exact hgr1 b (by simp [hb]) x hx
  have hgr1post : ∀ b ∈ post, ∀ x, x ∈ gr1 → x ∉ b := by
    intro b hb x hx
    exact hgr1 b (by simp [hb]) x hx
  have hgr2mid : ∀ b ∈ mid, ∀ x, x ∈ gr2 → x ∉ b := by
    intro b hb x hx hxb
    exact hmidcross b hb gr2 (by simp) x hxb hx
  have hgr2post : ∀ b ∈ post, ∀ x, x ∈ gr2 → x ∉ b := by
    intro b hb x hx
    exact hgr2 b hb x hx
  refine ⟨hp1, ⟨?_, hmid, hpost, ?_⟩, ?_⟩
  · intro b hb x hx
    rcases List.mem_append.mp hb with hb' | hb'
    · rcases hm x hx with hx' | hx' | hx'
      · exact hgr1mid b hb' x hx'
      · exact hgr2mid b hb' x hx'
      · exact hx'.2.1 b hb'
    · rcases hm x hx with hx' | hx' | hx'
      · exact hgr1post b hb' x hx'
      · exact hgr2post b hb' x hx'
      · exact hx'.2.2 b hb'
  · intro a ha b hb x hxa
    exact hmidcross a ha b (by simp [hb]) x hxa
  · intro a ha b hb x hxa
    rcases List.mem_cons.mp hb with rfl | hb'
    · intro hxb
      rcases hm x hxb with hx' | hx' | hx'
      · exact hcross a ha gr1 (by simp) x hxa hx'
      · exact hcross a ha gr2 (by simp) x hxa hx'
      · exact hx'.1 a ha hxa
    · rcases List.mem_append.mp hb' with hb'' | hb''
      · exact hcross a ha b (by simp [hb'']) x hxa
      · exact hcross a ha b (by simp [hb'']) x hxa

/-- One step of the `group` fold preserves the invariant. -/
theorem groupInv_gstep (ps : List ((Nat × Circle) × (Nat × Circle)))
    (p : (Nat × Circle) × (Nat × Circle)) (gs : List (List Nat))
    (h : GroupInv ps gs) : GroupInv (ps ++ [p]) (gstep gs p) := by
  obtain ⟨⟨i, ci⟩, ⟨j, cj⟩⟩ := p
  obtain ⟨hdisj, hconn, hin, hend⟩ := h
  have hmono : ∀ a b, pairsRel ps a b →
      pairsRel (ps ++ [((i, ci), (j, cj))]) a b := by
    rintro a b ⟨q, hq, hqok, hor⟩
    exact ⟨q, List.mem_append_left _ hq, hqok, hor⟩
  have hconnM : ∀ g ∈ gs, ∀ x ∈ g, ∀ y ∈ g,
      Relation.ReflTransGen (pairsRel (ps ++ [((i, ci), (j, cj))])) x y :=
    fun g hg x hx y hy =>
      Relation.ReflTransGen.mono hmono (hconn g hg x hx y hy)
  have hendM : ∀ g ∈ gs, ∀ x ∈ g, ∃ q ∈ ps ++ [((i, ci), (j, cj))],
      pairOk q ∧ (x = q.1.1 ∨ x = q.2.1) := by
    intro g hg x hx
    obtain ⟨q, hq, hqok, hor⟩ := hend g hg x hx
    exact ⟨q, List.mem_append_left _ hq, hqok, hor⟩
  have hsymmR : Symmetric (Relation.ReflTransGen
      (pairsRel (ps ++ [((i, ci), (j, cj))]))) :=
    Relation.ReflTransGen.symmetric (pairsRel_symmetric _)
  unfold gstep
  by_cases hok : ci.intersect cj ≠ Intersection.none
  case neg =>
    rw [if_neg hok]
    refine ⟨hdisj, hconnM, ?_, hendM⟩
    rintro q hq hqok
    rcases List.mem_append.mp hq with hq' | hq'
    · exact hin q hq' hqok
    · rw [List.mem_singleton.mp hq'] at hqok
      exact absurd hqok hok
  case pos =>
    rw [if_pos hok]
    have hmemp : ((i, ci), (j, cj)) ∈ ps ++ [((i, ci), (j, cj))] :=
      List.mem_append_right _ (by simp)
    have hnew : pairsRel (ps ++ [((i, ci), (j, cj))]) i j :=
      ⟨((i, ci), (j, cj)), hmemp, hok, Or.inl rfl⟩
    have hnewS : pairsRel (ps ++ [((i, ci), (j, cj))]) j i :=
      ⟨((i, ci), (j, cj)), hmemp, hok, Or.inr rfl⟩
    by_cases hi : ∃ g ∈ gs, i ∈ g
    · obtain ⟨g1, hg1, hig1⟩ := hi
      by_cases hj : ∃ g ∈ gs, j ∈ g
      · obtain ⟨g2, hg2, hjg2⟩ := hj
        by_cases hgg : g1 = g2
        · -- both endpoints already share a group: nothing changes
          subst hgg
          obtain ⟨pre, post, hsplit⟩ := List.append_of_mem hg1
          subst hsplit
          have hunt_i := untouched_of_disjoint hdisj hig1
          have hunt_j := untouched_of_disjoint hdisj hjg2
          rw [processPair_one i j pre post g1
            (fun g hg => ⟨hunt_i.1 g hg, hunt_j.1 g hg⟩)
            (fun g hg => ⟨hunt_i.2 g hg, hunt_j.2 g hg⟩) (Or.inl hig1)]
          rw [if_pos hig1, if_pos hjg2]
          refine ⟨hdisj, hconnM, ?_, hendM⟩
          rintro q hq hqok
          rcases List.mem_append.mp hq with hq' | hq'
          · exact hin q hq' hqok
          · rw [List.mem_singleton.mp hq']
            exact ⟨g1, by simp, hig1, hjg2⟩
        · -- two distinct groups must be merged
          obtain ⟨pre, rest, hsplit⟩ := List.append_of_mem hg1
          subst hsplit
          have hg2' : g2 ∈ pre ∨ g2 ∈ rest := by
            rcases List.mem_append.mp hg2 with h' | h'
            · exact Or.inl h'
            · rcases List.mem_cons.mp h' with h'' | h''
              · exact absurd h''.symm hgg
              · exact Or.inr h''
          have hunt_i := untouched_of_disjoint hdisj hig1
          rcases hg2' with hpre2 | hrest2
          · -- g2 (∋ j) comes before g1 (∋ i)
            obtain ⟨pre1, mid, hsplit2⟩ := List.append_of_mem hpre2
            subst hsplit2
            have hre : (pre1 ++ g2 :: mid) ++ g1 :: rest =
                pre1 ++ g2 :: (mid ++ g1 :: rest) := by simp
            rw [hre] at hdisj hconnM hendM hin ⊢
            have hunt_j := untouched_of_disjoint hdisj hjg2
            have hi_pre1 : ∀ g ∈ pre1, i ∉ g := fun g hg =>
              hunt_i.1 g (by simp [hg])
            have hi_g2 : i ∉ g2 := hunt_i.1 g2 (by simp)
            have hi_mid : ∀ g ∈ mid, i ∉ g := fun g hg =>
              hunt_i.1 g (by simp [hg])
            have hi_rest : ∀ g ∈ rest, i ∉ g := hunt_i.2
            have hj_pre1 : ∀ g ∈ pre1, j ∉ g := hunt_j.1
            have hj_mid : ∀ g ∈ mid, j ∉ g := fun g hg =>
              hunt_j.2 g (by simp [hg])
            have hj_g1 : j ∉ g1 := hunt_j.2 g1 (by simp)
            have hj_rest : ∀ g ∈ rest, j ∉ g := fun g hg =>
              hunt_j.2 g (by simp [hg])
            rw [processPair_two i j pre1 mid rest g2 g1
              (fun g hg => ⟨hi_pre1 g hg, hj_pre1 g hg⟩)
              (fun g hg => ⟨hi_mid g hg, hj_mid g hg⟩)
              (fun g hg => ⟨hi_rest g hg, hj_rest g hg⟩)
              (Or.inr hjg2) (Or.inl hig1)]
            rw [if_neg hi_g2]
            set m := mergeInto (g2 ++ [i]) g1 with hm
            have hmmem : ∀ x, x ∈ m ↔ (x ∈ g2 ∨ x = i) ∨ x ∈ g1 := by
              intro x
              rw [hm, mergeInto_mem]
              simp [List.mem_append]
            have hmem_gs : ∀ g, g ∈ pre1 ∨ g ∈ mid ∨ g ∈ rest ∨ g = g2 ∨
                g = g1 → g ∈ pre1 ++ g2 :: (mid ++ g1 :: rest) := by
              intro g hcase
              simp only [List.mem_append, List.mem_cons]
              tauto
            have hconn_i : ∀ x ∈ m, Relation.ReflTransGen
                (pairsRel (ps ++ [((i, ci), (j, cj))])) x i := by
              intro x hx
              rcases (hmmem x).mp hx with (hx' | rfl) | hx'
              · exact (hconnM g2 (hmem_gs g2 (by tauto)) x hx' j hjg2).tail
                  hnewS
              · exact Relation.ReflTransGen.refl
              · exact hconnM g1 (hmem_gs g1 (by tauto)) x hx' i hig1
            refine ⟨?_, ?_, ?_, ?_⟩
            · apply disjoint_merge hdisj
              intro x hx
              rcases (hmmem x).mp hx with (hx' | rfl) | hx'
              · exact Or.inl hx'
              · exact Or.inr (Or.inr ⟨hi_pre1, hi_mid, hi_rest⟩)
              · exact Or.inr (Or.inl hx')
            · intro g hg x hx y hy
              rcases List.mem_append.mp hg with hg' | hg'
              · exact hconnM g (hmem_gs g (by tauto)) x hx y hy
              · rcases List.mem_cons.mp hg' with rfl | hg''
                · exact (hconn_i x hx).trans (hsymmR (hconn_i y hy))
                · rcases List.mem_append.mp hg'' with hg3 | hg3
                  · exact hconnM g (hmem_gs g (by tauto)) x hx y hy
                  · exact hconnM g (hmem_gs g (by tauto)) x hx y hy
            · rintro q hq hqok
              rcases List.mem_append.mp hq with hq' | hq'
              · obtain ⟨g, hg, h1, h2⟩ := hin q hq' hqok
                rcases List.mem_append.mp hg with hg' | hg'
                · exact ⟨g, by simp [hg'], h1, h2⟩
                · rcases List.mem_cons.mp hg' with rfl | hg''
                  · exact ⟨m, by simp, (hmmem _).mpr (Or.inl (Or.inl h1)),
                      (hmmem _).mpr (Or.inl (Or.inl h2))⟩
                  · rcases List.mem_append.mp hg'' with hg3 | hg3
                    · exact ⟨g, by simp [hg3], h1, h2⟩
                    · rcases List.mem_cons.mp hg3 with rfl | hg4
                      · exact ⟨m, by simp, (hmmem _).mpr (Or.inr h1),
                          (hmmem _).mpr (Or.inr h2)⟩
                      · exact ⟨g, by simp [hg4], h1, h2⟩
              · rw [List.mem_singleton.mp hq']
                exact ⟨m, by simp, (hmmem _).mpr (Or.inl (Or.inr rfl)),
                  (hmmem _).mpr (Or.inl (Or.inl hjg2))⟩
            · intro g hg x hx
              rcases List.mem_append.mp hg with hg' | hg'
              · exact hendM g (hmem_gs g (by tauto)) x hx
              · rcases List.mem_cons.mp hg' with rfl | hg''
                · rcases (hmmem x).mp hx with (hx' | rfl) | hx'
                  · exact hendM g2 (hmem_gs g2 (by tauto)) x hx'
                  · exact ⟨_, hmemp, hok, Or.inl rfl⟩
                  · exact hendM g1 (hmem_gs g1 (by tauto)) x hx'
                · rcases List.mem_append.mp hg'' with hg3 | hg3
                  · exact hendM g (hmem_gs g (by tauto)) x hx
                  · exact hendM g (hmem_gs g (by tauto)) x hx
          · -- g1 (∋ i) comes before g2 (∋ j)
            obtain ⟨mid, post, hsplit2⟩ := List.append_of_mem hrest2
            subst hsplit2
            have hre : pre ++ g1 :: (mid ++ g2 :: post) =
                (pre ++ g1 :: mid) ++ g2 :: post := by simp
            have hdisj2 : GroupsDisjoint ((pre ++ g1 :: mid) ++ g2 :: post) :=
              hre ▸ hdisj
            have hunt_j := untouched_of_disjoint hdisj2 hjg2
            have hj_pre : ∀ g ∈ pre, j ∉ g := fun g hg =>
              hunt_j.1 g (by simp [hg])
            have hj_g1 : j ∉ g1 := hunt_j.1 g1 (by simp)
            have hj_mid : ∀ g ∈ mid, j ∉ g := fun g hg =>
              hunt_j.1 g (by simp [hg])
            have hj_post : ∀ g ∈ post, j ∉ g := hunt_j.2
            have hi_pre : ∀ g ∈ pre, i ∉ g := hunt_i.1
            have hi_mid : ∀ g ∈ mid, i ∉ g := fun g hg =>
              hunt_i.2 g (by simp [hg])
            have hi_g2 : i ∉ g2 := hunt_i.2 g2 (by simp)
            have hi_post : ∀ g ∈ post, i ∉ g := fun g hg =>
              hunt_i.2 g (by simp [hg])
            rw [processPair_two i j pre mid post g1 g2
              (fun g hg => ⟨hi_pre g hg, hj_pre g hg⟩)
              (fun g hg => ⟨hi_mid g hg, hj_mid g hg⟩)
              (fun g hg => ⟨hi_post g hg, hj_post g hg⟩)
              (Or.inl hig1) (Or.inr hjg2)]
            rw [if_pos hig1, if_neg hj_g1]
            set m := mergeInto (g1 ++ [j]) g2 with hm
            have hmmem : ∀ x, x ∈ m ↔ (x ∈ g1 ∨ x = j) ∨ x ∈ g2 := by
              intro x
              rw [hm, mergeInto_mem]
              simp [List.mem_append]
            have hmem_gs : ∀ g, g ∈ pre ∨ g ∈ mid ∨ g ∈ post ∨ g = g1 ∨
                g = g2 → g ∈ pre ++ g1 :: (mid ++ g2 :: post) := by
              intro g hcase
              simp only [List.mem_append, List.mem_cons]
              tauto
            have hconn_i : ∀ x ∈ m, Relation.ReflTransGen
                (pairsRel (ps ++ [((i, ci), (j, cj))])) x i := by
              intro x hx
              rcases (hmmem x).mp hx with (hx' | rfl) | hx'
              · exact hconnM g1 (hmem_gs g1 (by tauto)) x hx' i hig1
              · exact Relation.ReflTransGen.single hnewS
              · exact (hconnM g2 (hmem_gs g2 (by tauto)) x hx' j hjg2).tail
                  hnewS
            refine ⟨?_, ?_, ?_, ?_⟩
            · apply disjoint_merge hdisj
              intro x hx
              rcases (hmmem x).mp hx with (hx' | rfl) | hx'
              · exact Or.inl hx'
              · exact Or.inr (Or.inr ⟨hj_pre, hj_mid, hj_post⟩)
              · exact Or.inr (Or.inl hx')
            · intro g hg x hx y hy
              rcases List.mem_append.mp hg with hg' | hg'
              · exact hconnM g (hmem_gs g (by tauto)) x hx y hy
              · rcases List.mem_cons.mp hg' with rfl | hg''
                · exact (hconn_i x hx).trans (hsymmR (hconn_i y hy))
                · rcases List.mem_append.mp hg'' with hg3 | hg3
                  · exact hconnM g (hmem_gs g (by tauto)) x hx y hy
                  · exact hconnM g (hmem_gs g (by tauto)) x hx y hy
            · rintro q hq hqok
              rcases List.mem_append.mp hq with hq' | hq'
              · obtain ⟨g, hg, h1, h2⟩ := hin q hq' hqok
                rcases List.mem_append.mp hg with hg' | hg'
                · exact ⟨g, by simp [hg'], h1, h2⟩
                · rcases List.mem_cons.mp hg' with rfl | hg''
                  · exact ⟨m, by simp, (hmmem _).mpr (Or.inl (Or.inl h1)),
                      (hmmem _).mpr (Or.inl (Or.inl h2))⟩
                  · rcases List.mem_append.mp hg'' with hg3 | hg3
                    · exact ⟨g, by simp [hg3], h1, h2⟩
                    · rcases List.mem_cons.mp hg3 with rfl | hg4
                      · exact ⟨m, by simp, (hmmem _).mpr (Or.inr h1),
                          (hmmem _).mpr (Or.inr h2)⟩
                      · exact ⟨g, by simp [hg4], h1, h2⟩
              · rw [List.mem_singleton.mp hq']
                exact ⟨m, by simp, (hmmem _).mpr (Or.inl (Or.inl hig1)),
                  (hmmem _).mpr (Or.inl (Or.inr rfl))⟩
            · intro g hg x hx
              rcases List.mem_append.mp hg with hg' | hg'
              · exact hendM g (hmem_gs g (by tauto)) x hx
              · rcases List.mem_cons.mp hg' with rfl | hg''
                · rcases (hmmem x).mp hx with (hx' | rfl) | hx'
                  · exact hendM g1 (hmem_gs g1 (by tauto)) x hx'
                  · exact ⟨_, hmemp, hok, Or.inr rfl⟩
                  · exact hendM g2 (hmem_gs g2 (by tauto)) x hx'
                · rcases List.mem_append.mp hg'' with hg3 | hg3
                  · exact hendM g (hmem_gs g (by tauto)) x hx
                  · exact hendM g (hmem_gs g (by tauto)) x hx
      · -- i has a group, j is fresh
        push_neg at hj
        obtain ⟨pre, post, hsplit⟩ := List.append_of_mem hg1
        subst hsplit
        have hunt_i := untouched_of_disjoint hdisj hig1
        have hj_g1 : j ∉ g1 := hj g1 (by simp)
        rw [processPair_one i j pre post g1
          (fun g hg => ⟨hunt_i.1 g hg, hj g (by simp [hg])⟩)
          (fun g hg => ⟨hunt_i.2 g hg, hj g (by simp [hg])⟩) (Or.inl hig1)]
        rw [if_pos hig1, if_neg hj_g1]
        have hmmem : ∀ x, x ∈ g1 ++ [j] ↔ x ∈ g1 ∨ x = j := by
          intro x
          simp [List.mem_append]
        have hconn_i : ∀ x ∈ g1 ++ [j], Relation.ReflTransGen
            (pairsRel (ps ++ [((i, ci), (j, cj))])) x i := by
          intro x hx
          rcases (hmmem x).mp hx with hx' | rfl
          · exact hconnM g1 (by simp) x hx' i hig1
          · exact Relation.ReflTransGen.single hnewS
        refine ⟨?_, ?_, ?_, ?_⟩
        · apply disjoint_replace hdisj
          intro x hx
          rcases (hmmem x).mp hx with hx' | rfl
          · exact Or.inl hx'
          · exact Or.inr ⟨fun g hg => hj g (by simp [hg]),
              fun g hg => hj g (by simp [hg])⟩
        · intro g hg x hx y hy
          rcases List.mem_append.mp hg with hg' | hg'
          · exact hconnM g (by simp [*]) x hx y hy
          · rcases List.mem_cons.mp hg' with rfl | hg''
            · exact (hconn_i x hx).trans (hsymmR (hconn_i y hy))
            · exact hconnM g (by simp [*]) x hx y hy
        · rintro q hq hqok
          rcases List.mem_append.mp hq with hq' | hq'
          · obtain ⟨g, hg, h1, h2⟩ := hin q hq' hqok
            rcases List.mem_append.mp hg with hg' | hg'
            · exact ⟨g, by simp [hg'], h1, h2⟩
            · rcases List.mem_cons.mp hg' with hgeq | hg''
              · rw [hgeq] at h1 h2
                exact ⟨g1 ++ [j], by simp, (hmmem _).mpr (Or.inl h1),
                  (hmmem _).mpr (Or.inl h2)⟩
              · exact ⟨g, by simp [hg''], h1, h2⟩
          · rw [List.mem_singleton.mp hq']
            exact ⟨g1 ++ [j], by simp, (hmmem _).mpr (Or.inl hig1),
              (hmmem _).mpr (Or.inr rfl)⟩
        · intro g hg x hx
          rcases List.mem_append.mp hg with hg' | hg'
          · exact hendM g (by simp [*]) x hx
          · rcases List.mem_cons.mp hg' with rfl | hg''
            · rcases (hmmem x).mp hx with hx' | rfl
              · exact hendM g1 (by simp) x hx'
              · exact ⟨_, hmemp, hok, Or.inr rfl⟩
            · exact hendM g (by simp [*]) x hx
    · -- i is fresh
      push_neg at hi
      by_cases hj : ∃ g ∈ gs, j ∈ g
      · -- j has a group, i is fresh
        obtain ⟨g1, hg1, hjg1⟩ := hj
        obtain ⟨pre, post, hsplit⟩ := List.append_of_mem hg1
        subst hsplit
        have hunt_j := untouched_of_disjoint hdisj hjg1
        have hi_g1 : i ∉ g1 := hi g1 (by simp)
        rw [processPair_one i j pre post g1
          (fun g hg => ⟨hi g (by simp [hg]), hunt_j.1 g hg⟩)
          (fun g hg => ⟨hi g (by simp [hg]), hunt_j.2 g hg⟩) (Or.inr hjg1)]
        rw [if_neg hi_g1]
        have hmmem : ∀ x, x ∈ g1 ++ [i] ↔ x ∈ g1 ∨ x = i := by
          intro x
          simp [List.mem_append]
        have hconn_j : ∀ x ∈ g1 ++ [i], Relation.ReflTransGen
            (pairsRel (ps ++ [((i, ci), (j, cj))])) x j := by
          intro x hx
          rcases (hmmem x).mp hx with hx' | rfl
          · exact hconnM g1 (by simp) x hx' j hjg1
          · exact Relation.ReflTransGen.single hnew
        refine ⟨?_, ?_, ?_, ?_⟩
        · apply disjoint_replace hdisj
          intro x hx
          rcases (hmmem x).mp hx with hx' | rfl
          · exact Or.inl hx'
          · exact Or.inr ⟨fun g hg => hi g (by simp [hg]),
              fun g hg => hi g (by simp [hg])⟩
        · intro g hg x hx y hy
          rcases List.mem_append.mp hg with hg' | hg'
          · exact hconnM g (by simp [*]) x hx y hy
          · rcases List.mem_cons.mp hg' with rfl | hg''
            · exact (hconn_j x hx).trans (hsymmR (hconn_j y hy))
            · exact hconnM g (by simp [*]) x hx y hy
        · rintro q hq hqok
          rcases List.mem_append.mp hq with hq' | hq'
          · obtain ⟨g, hg, h1, h2⟩ := hin q hq' hqok
            rcases List.mem_append.mp hg with hg' | hg'
            · exact ⟨g, by simp [hg'], h1, h2⟩
            · rcases List.mem_cons.mp hg' with hgeq | hg''
              · rw [hgeq] at h1 h2
                exact ⟨g1 ++ [i], by simp, (hmmem _).mpr (Or.inl h1),
                  (hmmem _).mpr (Or.inl h2)⟩
              · exact ⟨g, by simp [hg''], h1, h2⟩
          · rw [List.mem_singleton.mp hq']
            exact ⟨g1 ++ [i], by simp, (hmmem _).mpr (Or.inr rfl),
              (hmmem _).mpr (Or.inl hjg1)⟩
        · intro g hg x hx
          rcases List.mem_append.mp hg with hg' | hg'
          · exact hendM g (by simp [*]) x hx
          · rcases List.mem_cons.mp hg' with rfl | hg''
            · rcases (hmmem x).mp hx with hx' | rfl
              · exact hendM g1 (by simp) x hx'
              · exact ⟨_, hmemp, hok, Or.inl rfl⟩
            · exact hendM g (by simp [*]) x hx
      · -- both endpoints fresh: a new group [i, j] is appended
        push_neg at hj
        rw [processPair_isolated i j gs
          (fun g hg => ⟨hi g hg, hj g hg⟩)]
        have hmmem : ∀ x, x ∈ ([i, j] : List Nat) ↔ x = i ∨ x = j := by
          intro x
          simp
        refine ⟨?_, ?_, ?_, ?_⟩
        · rw [GroupsDisjoint, List.pairwise_append]
          refine ⟨hdisj, by simp, ?_⟩
          intro a ha b hb x hxa
          rw [List.mem_singleton.mp hb]
          intro hxb
          rcases (hmmem x).mp hxb with rfl | rfl
          · exact hi a ha hxa
          · exact hj a ha hxa
        · intro g hg x hx y hy
          rcases List.mem_append.mp hg with hg' | hg'
          · exact hconnM g hg' x hx y hy
          · rw [List.mem_singleton.mp hg'] at hx hy
            rcases (hmmem x).mp hx with rfl | rfl <;>
              rcases (hmmem y).mp hy with rfl | rfl
            · exact Relation.ReflTransGen.refl
            · exact Relation.ReflTransGen.single hnew
            · exact Relation.ReflTransGen.single hnewS
            · exact Relation.ReflTransGen.refl
        · rintro q hq hqok
          rcases List.mem_append.mp hq with hq' | hq'
          · obtain ⟨g, hg, h1, h2⟩ := hin q hq' hqok
            exact ⟨g, List.mem_append_left _ hg, h1, h2⟩
          · rw [List.mem_singleton.mp hq']
            exact ⟨[i, j], List.mem_append_right _ (by simp), by simp, by simp⟩
        · intro g hg x hx
          rcases List.mem_append.mp hg with hg' | hg'
          · exact hendM g hg' x hx
          · rw [List.mem_singleton.mp hg'] at hx
            rcases (hmmem x).mp hx with rfl | rfl
            · exact ⟨_, hmemp, hok, Or.inl rfl⟩
            · exact ⟨_, hmemp, hok, Or.inr rfl⟩

/-- The invariant holds after the whole fold. -/
theorem groupInv_foldl (ps : List ((Nat × Circle) × (Nat × Circle))) :
    GroupInv ps (ps.foldl gstep []) := by
  induction ps using List.reverseRecOn with
  | nil =>
    refine ⟨List.Pairwise.nil, ?_, ?_, ?_⟩
    · intro g hg
      cases hg
    · intro p hp
      cases hp
    · intro g hg
      cases hg
  | append_singleton ps p ih =>
    rw [List.foldl_append, List.foldl_cons, List.foldl_nil]
    exact groupInv_gstep ps p _ ih

/-- From the invariant: same group iff chain-connected. -/
theorem groupInv_extract (ps : List ((Nat × Circle) × (Nat × Circle)))
    (gs : List (List Nat)) (h : GroupInv ps gs)
    (hne : ∀ p ∈ ps, p.1.1 ≠ p.2.1) (i j : Nat) :
    (∃ g ∈ gs, i ∈ g ∧ j ∈ g) ↔ Relation.TransGen (pairsRel ps) i j := by
  obtain ⟨hdisj, hconn, hin, hend⟩ := h
  constructor
  · rintro ⟨g, hg, hig, hjg⟩
    by_cases hij : i = j
    · subst hij
      obtain ⟨p, hp, hok, hor⟩ := hend g hg i hig
      rcases hor with heq | heq
      · have h1 : pairsRel ps i p.2.1 := ⟨p, hp, hok, Or.inl (by rw [heq])⟩
        have h2 : pairsRel ps p.2.1 i := ⟨p, hp, hok, Or.inr (by rw [heq])⟩
        exact (Relation.TransGen.single h1).tail h2
      · have h1 : pairsRel ps i p.1.1 := ⟨p, hp, hok, Or.inr (by rw [heq])⟩
        have h2 : pairsRel ps p.1.1 i := ⟨p, hp, hok, Or.inl (by rw [heq])⟩
        exact (Relation.TransGen.single h1).tail h2
    · rcases Relation.reflTransGen_iff_eq_or_transGen.mp
        (hconn g hg i hig j hjg) with heq | ht
      · exact absurd heq.symm hij
      · exact ht
  · intro ht
    induction ht with
    | single hstep =>
      obtain ⟨p, hp, hok, hor⟩ := hstep
      obtain ⟨g, hg, h1, h2⟩ := hin p hp hok
      rcases hor with heq | heq
      · rw [Prod.mk.injEq] at heq
        exact ⟨g, hg, heq.1 ▸ h1, heq.2 ▸ h2⟩
      · rw [Prod.mk.injEq] at heq
        exact ⟨g, hg, heq.2 ▸ h2, heq.1 ▸ h1⟩
    | tail hstep hlast ih =>
      obtain ⟨g, hg, hig, hbg⟩ := ih
      obtain ⟨p, hp, hok, hor⟩ := hlast
      obtain ⟨g', hg', h1, h2⟩ := hin p hp hok
      rcases hor with heq | heq
      · rw [Prod.mk.injEq] at heq
        have hgg : g = g' := groups_mem_unique hdisj hg hg' hbg (heq.1 ▸ h1)
        exact ⟨g, hg, hig, hgg ▸ (heq.2 ▸ h2)⟩
      · rw [Prod.mk.injEq] at heq
        have hgg : g = g' := groups_mem_unique hdisj hg hg' hbg (heq.2 ▸ h2)
        exact ⟨g, hg, hig, hgg ▸ (heq.1 ▸ h1)⟩

theorem pairsLex_enum_ne (circles : List Circle) :
    ∀ p ∈ pairsLex circles.enum, p.1.1 ≠ p.2.1 := by
  intro p hp
  obtain ⟨k1, k2, h12, h2len, hx, hy⟩ :=
    (mem_pairsLex (0, ⟨Vec2.zero, 0⟩) circles.enum p.1 p.2).mp (by simpa using hp)
  have h2 : k2 < circles.length := by simpa [List.enum_length] using h2len
  have h1 : k1 < circles.length := lt_trans h12 h2
  rw [enum_getD circles k1 h1] at hx
  rw [enum_getD circles k2 h2] at hy
  rw [← hx, ← hy]
  simpa using Nat.ne_of_lt h12

/-- The `group` spec for arbitrary inputs: disjoint groups, and shared
group membership is exactly chain-connectivity under `OverlapAdj`. -/
theorem group_spec_general (circles : List Circle) :
    GroupsDisjoint (Circle.group circles) ∧
    ∀ i j : Nat, (∃ g ∈ Circle.group circles, i ∈ g ∧ j ∈ g) ↔
      Relation.TransGen (OverlapAdj circles) i j := by
  have hgroup : Circle.group circles =
      (pairsLex circles.enum).foldl gstep [] := rfl
  have hinv := groupInv_foldl (pairsLex circles.enum)
  constructor
  · rw [hgroup]
    exact hinv.1
  · intro i j
    rw [hgroup]
    rw [groupInv_extract _ _ hinv (pairsLex_enum_ne circles) i j]
    constructor
    · intro h
      exact h.mono (fun a b hab => (pairsRel_iff circles a b).mp hab)
    · intro h
      exact h.mono (fun a b hab => (pairsRel_iff circles a b).mpr hab)

/-- Two spatially separate overlapping clusters (unit circles at x = 0,1
and x = 10,11) yield exactly two disjoint index sets covering all
inputs. -/
theorem group_two_clusters :
    Circle.group [⟨⟨0, 0⟩, 1⟩, ⟨⟨1, 0⟩, 1⟩, ⟨⟨10, 0⟩, 1⟩, ⟨⟨11, 0⟩, 1⟩] =
      [[0, 1], [2, 3]] := by
  have hdist : ∀ a b : ℝ, 0 ≤ b - a →
      Circle.distance ⟨⟨a, 0⟩, 1⟩ ⟨⟨b, 0⟩, 1⟩ = b - a := by
    intro a b hab
    rw [Circle.distance, Vec2.metric_distance_eq]
    simp only [Vec2.mk_x, Vec2.mk_y]
    rw [show (a - b) ^ 2 + ((0 : ℝ) - 0) ^ 2 = (b - a) ^ 2 by ring]
    exact Real.sqrt_sq hab
  have hov : ∀ a b : ℝ, 0 ≤ b - a → b - a ≤ 2 →
      Circle.intersect ⟨⟨a, 0⟩, 1⟩ ⟨⟨b, 0⟩, 1⟩ ≠ Intersection.none := by
    intro a b h0 h2 hc
    rw [Circle.intersect_eq_none_iff, hdist a b h0] at hc
    dsimp only at hc
    linarith
  have hnone : ∀ a b : ℝ, 0 ≤ b - a → 2 < b - a →
      Circle.intersect ⟨⟨a, 0⟩, 1⟩ ⟨⟨b, 0⟩, 1⟩ = Intersection.none := by
    intro a b h0 h2
    rw [Circle.intersect_eq_none_iff, hdist a b h0]
    dsimp only
    linarith
  unfold Circle.group
  rw [show pairsLex (List.enum [(⟨⟨0, 0⟩, 1⟩ : Circle), ⟨⟨1, 0⟩, 1⟩,
      ⟨⟨10, 0⟩, 1⟩, ⟨⟨11, 0⟩, 1⟩]) =
    [((0, (⟨⟨0, 0⟩, 1⟩ : Circle)), (1, (⟨⟨1, 0⟩, 1⟩ : Circle))),
     ((0, (⟨⟨0, 0⟩, 1⟩ : Circle)), (2, (⟨⟨10, 0⟩, 1⟩ : Circle))),
     ((0, (⟨⟨0, 0⟩, 1⟩ : Circle)), (3, (⟨⟨11, 0⟩, 1⟩ : Circle))),
     ((1, (⟨⟨1, 0⟩, 1⟩ : Circle)), (2, (⟨⟨10, 0⟩, 1⟩ : Circle))),
     ((1, (⟨⟨1, 0⟩, 1⟩ : Circle)), (3, (⟨⟨11, 0⟩, 1⟩ : Circle))),
     ((2, (⟨⟨10, 0⟩, 1⟩ : Circle)), (3, (⟨⟨11, 0⟩, 1⟩ : Circle)))] from rfl]
  simp only [List.foldl_cons, List.foldl_nil]
  rw [if_pos (hov 0 1 (by norm_num) (by norm_num))]
  rw [show processPair 0 1 [] = [[0, 1]] from rfl]
  rw [if_neg (not_not_intro (hnone 0 10 (by norm_num) (by norm_num)))]
  rw [if_neg (not_not_intro (hnone 0 11 (by norm_num) (by norm_num)))]
  rw [if_neg (not_not_intro (hnone 1 10 (by norm_num) (by norm_num)))]
  rw [if_neg (not_not_intro (hnone 1 11 (by norm_num) (by norm_num)))]
  rw [if_pos (hov 10 11 (by norm_num) (by norm_num))]
  rw [show processPair 2 3 [[0, 1]] = [[0, 1], [2, 3]] from rfl]

/-- C8: the groups returned by `group()` are pairwise disjoint, and two
indices share a returned group exactly when their circles are connected
by a chain of pairwise overlaps (consecutive classifier results other
than `None`); in particular the two-cluster configuration of unit
circles at x = 0,1 and x = 10,11 yields exactly the two disjoint index
sets [0,1] and [2,3], covering all inputs. -/
theorem C8_group_spec :
    (∀ circles : List Circle, GroupsDisjoint (Circle.group circles) ∧
      ∀ i j : Nat, (∃ g ∈ Circle.group circles, i ∈ g ∧ j ∈ g) ↔
        Relation.TransGen (OverlapAdj circles) i j) ∧
    Circle.group [⟨⟨0, 0⟩, 1⟩, ⟨⟨1, 0⟩, 1⟩, ⟨⟨10, 0⟩, 1⟩, ⟨⟨11, 0⟩, 1⟩] =
      [[0, 1], [2, 3]] :=
  ⟨group_spec_general, group_two_clusters⟩

theorem C9_amended_witness :
    build_boundary_polygon 2
        [(⟨0, 0⟩, [(⟨2, 0⟩, 0)]), (⟨2, 0⟩, [(⟨0, 0⟩, 0)])]
        [(⟨0, 0⟩, ⟨0, 0⟩), (⟨2, 0⟩, ⟨2, 0⟩)] ⟨0, 0⟩ =
      [⟨0, 0⟩, ⟨2, 0⟩] := by
  have hne : ¬ ((⟨0, 0⟩ : Vec2) = ⟨2, 0⟩) := by
    intro h
    have hx := congrArg Vec2.x h
    norm_num at hx
  apply C9_amended _ _ _ ⟨2, 0⟩ ⟨2, 0⟩ 0 [] 0
  · unfold adjLookup
    rw [List.find?_cons_of_pos _ (by simp)]
  · unfold upmLookup
    rw [List.find?_cons_of_neg _ (by simp [hne]),
      List.find?_cons_of_pos _ (by simp)]
  · unfold adjLookup
    rw [List.find?_cons_of_neg _ (by simp [hne]),
      List.find?_cons_of_pos _ (by simp)]
    simp

end

end Scha
